import Mathlib

/-! More-Thuente line search (minerva/optimizer/implementation/MoreThuenteLineSearch.cpp),
the cost-and-gradient adapter
(minerva/optimizer/implementation/CostAndGradientFunction.cpp) and dense back propagation
(minerva/neuralnetwork/implementation/DenseBackPropagation.cpp).

A shallow embedding of `MoreThuenteLineSearch::search`, of the helpers it calls and of the
constructor, of `CostAndGradientFunction::getUninitializedDataStructure`, and of the
functions of `DenseBackPropagation.cpp`.

Conventions of the embedding of the line search:

* `float` values are rationals (exact arithmetic): there is no rounding, no NaN, no
  infinity and no negative zero.  A division by zero yields `0` here, where the C++
  yields an infinity or a NaN; the concrete inputs evaluated below never divide by zero.
* `std::sqrtf` is a parameter `sqrtf : ℚ → ℚ` of every definition that reaches it, so the
  general theorems hold for every square-root routine.  `sqrtExact` is the concrete
  instance used for evaluation: it is exact on squares of rationals.  The body of the
  six-argument `findCubicMinimizer` is also embedded over any ordered field
  (`findCubicMinimizerOver`), to be read over the reals with the real square root.
* `BlockSparseMatrixVector` is a list of rationals; the oracle
  `CostAndGradientFunction::computeCostAndGradient` is a pure function from the inputs to
  the pair (cost, gradient).
* A `throw` is an outcome carrying a `Failure`; the reference parameters `inputs`, `cost`
  and `gradient` are fields of the state carried by the outcome, so their value at the
  moment of the `throw` or `return` is observable.
* The `while(true)` loop is run with fuel; `none` means the fuel ran out.
* The two `assert`s at the top of `search` are preconditions of the caller and are not
  executed by the embedding.

The conventions of the embedding of the back propagation are stated where it starts.
-/

namespace minerva
namespace optimizer

/-! ## Vectors -/

/-- Modelled from the spec: `BlockSparseMatrixVector::add` of the external matrix engine,
elementwise sum. -/
def add (left right : List ℚ) : List ℚ := List.zipWith (· + ·) left right

/-- Modelled from the spec: `BlockSparseMatrixVector::multiply` of the external matrix
engine, multiplication by a scalar. -/
def multiply (v : List ℚ) (scalar : ℚ) : List ℚ := v.map (· * scalar)

/-- Modelled from the spec: `BlockSparseMatrixVector::dotProduct` of the external matrix
engine. -/
def dotProduct (left right : List ℚ) : ℚ := (List.zipWith (· * ·) left right).sum

/-! ## Interpolation helpers -/

/-- The function `isSignDifferent`: `copysign(1, left) != copysign(1, right)`.  Without a
negative zero the sign bit is set exactly on the negative values. -/
def isSignDifferent (left right : ℚ) : Bool :=
  decide (left < 0) != decide (right < 0)

/-- The six-argument `findCubicMinimizer`. -/
def findCubicMinimizer (sqrtf : ℚ → ℚ) (leftStep leftCost leftGradientDirection
    rightStep rightCost rightGradientDirection : ℚ) : ℚ :=
  let difference := rightStep - leftStep
  let theta := ((leftCost - rightCost) * 3 / difference) +
    leftGradientDirection + rightGradientDirection
  let p := |theta|
  let q := |leftGradientDirection|
  let r := |rightGradientDirection|
  let s := max p (max q r)
  let a := theta / s
  let gamma0 := s * sqrtf (a * a - (leftGradientDirection / s) * (rightGradientDirection / s))
  let gamma := if rightStep < leftStep then -gamma0 else gamma0
  let p1 := gamma - leftGradientDirection + theta
  let q1 := gamma - leftGradientDirection + gamma + rightGradientDirection
  let r1 := p1 / q1
  leftStep + r1 * difference

/-- The eight-argument overload of `findCubicMinimizer` (with `minStep`, `maxStep`). -/
def findCubicMinimizerMinMax (sqrtf : ℚ → ℚ) (leftStep leftCost leftGradientDirection
    rightStep rightCost rightGradientDirection minStep maxStep : ℚ) : ℚ :=
  let difference := rightStep - leftStep
  let theta := ((leftCost - rightCost) * 3 / difference) +
    leftGradientDirection + rightGradientDirection
  let p := |theta|
  let q := |leftGradientDirection|
  let r := |rightGradientDirection|
  let s := max p (max q r)
  let a := theta / s
  let gamma0 := s * sqrtf (max 0 (a * a - (leftGradientDirection / s) *
    (rightGradientDirection / s)))
  let gamma := if rightStep < leftStep then -gamma0 else gamma0
  let p1 := gamma - rightGradientDirection + theta
  let q1 := gamma - rightGradientDirection + gamma + leftGradientDirection
  let r1 := p1 / q1
  if r1 < 0 ∧ gamma ≠ 0 then rightStep - r1 * difference
  else if a < 0 then maxStep
  else minStep

/-- The five-argument `findQuadraticMinimizer` (two costs, one derivative). -/
def findQuadraticMinimizer (leftStep leftCost leftGradientDirection rightStep
    rightCost : ℚ) : ℚ :=
  let a := rightStep - leftStep
  leftStep +
    (leftGradientDirection / ((leftCost - rightCost) / a + leftGradientDirection)) /
    (2 * a)

/-- The four-argument overload of `findQuadraticMinimizer` (two derivatives). -/
def findQuadraticMinimizerGradients (leftStep leftGradientDirection rightStep
    rightGradientDirection : ℚ) : ℚ :=
  let a := leftStep - rightStep
  rightStep +
    (rightGradientDirection / (rightGradientDirection - leftGradientDirection)) * a

/-! ## Failures -/

/-- The `std::runtime_error`s of `updateIntervalOfUncertainty` and `search`, by message. -/
inductive Failure where
  /-- Message "Step is outside of the current interval." -/
  | stepOutsideInterval
  /-- Message "The function does not decrease from the start of the interval." -/
  | noDecreaseFromStart
  /-- Message "Invalid min/max step specified, the min is larger than the max." -/
  | invalidMinMax
  /-- Message "Search direction does not decrease objective function." -/
  | notDescentDirection
  /-- Message "Rounding error occured." -/
  | roundingError
  /-- Message "The line search step became larger than the max step size." -/
  | maxStepReached
  /-- Message "The line search step became smaller than the min step size." -/
  | minStepReached
  /-- Message "The width of the interval of uncertainty is too small." -/
  | widthTooSmall
  deriving DecidableEq, Repr

/-! ## updateIntervalOfUncertainty -/

/-- The reference parameters that `updateIntervalOfUncertainty` writes. -/
structure Uncertainty where
  bestStep : ℚ
  bestCost : ℚ
  bestGradientDirection : ℚ
  intervalEndStep : ℚ
  intervalEndCost : ℚ
  intervalEndGradientDirection : ℚ
  step : ℚ
  bracket : Bool
  deriving DecidableEq, Repr

/-- The step selected by the case analysis ("Select a new step"), with the values of
`bracket` and `bounded` it leaves. -/
def selectNewStep (sqrtf : ℚ → ℚ) (u : Uncertainty) (cost gradientDirection
    minStep maxStep : ℚ) : ℚ × Bool × Bool :=
  let gradientSignDiffers := isSignDifferent gradientDirection u.bestGradientDirection
  if u.bestCost < cost then
    let cubicMinimizerStep := findCubicMinimizer sqrtf u.bestStep u.bestCost
      u.bestGradientDirection u.step cost gradientDirection
    let quadraticMinimizerStep := findQuadraticMinimizer u.bestStep u.bestCost
      u.bestGradientDirection u.step cost
    if |cubicMinimizerStep - u.bestStep| < |quadraticMinimizerStep - u.bestStep| then
      (cubicMinimizerStep, true, true)
    else
      (cubicMinimizerStep + (1 / 2) * (quadraticMinimizerStep - cubicMinimizerStep),
        true, true)
  else if gradientSignDiffers then
    let cubicMinimizerStep := findCubicMinimizer sqrtf u.bestStep u.bestCost
      u.bestGradientDirection u.step cost gradientDirection
    let quadraticMinimizerStep := findQuadraticMinimizerGradients u.bestStep
      u.bestGradientDirection u.step gradientDirection
    if |cubicMinimizerStep - u.step| > |quadraticMinimizerStep - u.step| then
      (cubicMinimizerStep, true, false)
    else
      (quadraticMinimizerStep, true, false)
  else if |gradientDirection| < |u.bestGradientDirection| then
    let cubicMinimizerStep := findCubicMinimizerMinMax sqrtf u.bestStep u.bestCost
      u.bestGradientDirection u.step cost gradientDirection minStep maxStep
    let quadraticMinimizerStep := findQuadraticMinimizerGradients u.bestStep
      u.bestGradientDirection u.step gradientDirection
    if u.bracket then
      if |u.step - cubicMinimizerStep| < |u.step - quadraticMinimizerStep| then
        (cubicMinimizerStep, u.bracket, true)
      else
        (quadraticMinimizerStep, u.bracket, true)
    else
      if |u.step - cubicMinimizerStep| > |u.step - quadraticMinimizerStep| then
        (cubicMinimizerStep, u.bracket, true)
      else
        (quadraticMinimizerStep, u.bracket, true)
  else
    if u.bracket then
      (findCubicMinimizer sqrtf u.bestStep u.bestCost u.bestGradientDirection
        u.step cost gradientDirection, u.bracket, false)
    else if u.bestStep < u.step then
      (maxStep, u.bracket, false)
    else
      (minStep, u.bracket, false)

/-- The reassignment of the endpoints ("Update the interval of uncertainty"): it looks at
the arguments as they were on entry, not at the step just selected. -/
def updateEndpoints (u : Uncertainty) (cost gradientDirection : ℚ) : Uncertainty :=
  if u.bestCost < cost then
    { u with intervalEndStep := u.step, intervalEndCost := cost,
             intervalEndGradientDirection := gradientDirection }
  else if isSignDifferent gradientDirection u.bestGradientDirection then
    { u with intervalEndStep := u.bestStep, intervalEndCost := u.bestCost,
             intervalEndGradientDirection := u.bestGradientDirection,
             bestStep := u.step, bestCost := cost,
             bestGradientDirection := gradientDirection }
  else
    { u with bestStep := u.step, bestCost := cost,
             bestGradientDirection := gradientDirection }

/-- The end of `updateIntervalOfUncertainty`: clip the selected step to the min/max, then,
when `bracket and bounded`, keep it within two thirds of the way from the best step to
the interval end. -/
def clipNewStep (v : Uncertainty) (newStep minStep maxStep : ℚ) (bracket bounded : Bool) : ℚ :=
  let newStep1 := if newStep > maxStep then maxStep else newStep
  let newStep2 := if newStep1 < minStep then minStep else newStep1
  if bracket ∧ bounded then
    let quadraticMinimizer := v.bestStep + (2 / 3) * (v.intervalEndStep - v.bestStep)
    if v.bestStep < v.intervalEndStep then
      if quadraticMinimizer < newStep2 then quadraticMinimizer else newStep2
    else
      if newStep2 < quadraticMinimizer then quadraticMinimizer else newStep2
  else newStep2

/-- The function `updateIntervalOfUncertainty`.  `cost` and `gradientDirection` are passed
by reference in the C++ but never written. -/
def updateIntervalOfUncertainty (sqrtf : ℚ → ℚ) (u : Uncertainty)
    (cost gradientDirection minStep maxStep : ℚ) : Except Failure Uncertainty :=
  if u.bracket ∧ (u.step ≤ min u.bestStep u.intervalEndStep ∨
      max u.bestStep u.intervalEndStep ≤ u.step) then
    .error .stepOutsideInterval
  else if u.bracket ∧ u.bestGradientDirection * (u.step - u.bestStep) ≥ 0 then
    .error .noDecreaseFromStart
  else if u.bracket ∧ maxStep < minStep then
    .error .invalidMinMax
  else
    let sel := selectNewStep sqrtf u cost gradientDirection minStep maxStep
    let v := updateEndpoints u cost gradientDirection
    .ok { v with step := clipNewStep v sel.1 minStep maxStep sel.2.1 sel.2.2,
                 bracket := sel.2.1 }

/-! ## The configuration -/

/-- The data members of `MoreThuenteLineSearch`, set from the knobs by the constructor. -/
structure Config where
  /-- `_xTolerance`, knob `LineSearch::MachinePrecision`. -/
  xTolerance : ℚ
  /-- `_gTolerance`, knob `LineSearch::GradientAccuracy`. -/
  gTolerance : ℚ
  /-- `_fTolerance`, knob `LineSearch::FunctionAccuracy`. -/
  fTolerance : ℚ
  /-- `_maxStep`, knob `LineSearch::MaximumStep`. -/
  maxStep : ℚ
  /-- `_minStep`, knob `LineSearch::MinimumStep`. -/
  minStep : ℚ
  /-- `_maxLineSearch`, knob `LineSearch::MaximumIterations`. -/
  maxLineSearch : ℕ

/-- The knob defaults written in the constructor. -/
def defaultConfig : Config where
  xTolerance := 1 / 10 ^ 13
  gTolerance := 9 / 10
  fTolerance := 1 / 10 ^ 4
  maxStep := 10 ^ 20
  minStep := 1 / 10 ^ 20
  maxLineSearch := 10

/-- The `std::invalid_argument`s of the constructor, by message. -/
inductive ConfigurationError where
  /-- Message "Function accuracy must be non-negative." -/
  | functionAccuracy
  /-- Message "Gradient accuracy must be non-negative." -/
  | gradientAccuracy
  /-- Message "Machine precision must be non-negative." -/
  | machinePrecision
  /-- Message "Minimum step must be non-negative." -/
  | minimumStep
  /-- Message "Maximum step must be greater than minimum step." -/
  | maximumStep
  deriving DecidableEq, Repr

/-- The constructor `MoreThuenteLineSearch::MoreThuenteLineSearch()`.  The knob database is
not among the sources: `knobs` holds the six values that `getKnobValue` returns, and the
constructor either throws or leaves them in the data members. -/
def MoreThuenteLineSearch (knobs : Config) : Except ConfigurationError Config :=
  if knobs.fTolerance < 0 then .error .functionAccuracy
  else if knobs.gTolerance < 0 then .error .gradientAccuracy
  else if knobs.xTolerance < 0 then .error .machinePrecision
  else if knobs.minStep < 0 then .error .minimumStep
  else if knobs.maxStep < knobs.minStep then .error .maximumStep
  else .ok knobs

/-- The constructor throws. -/
def raises {ε α : Type} (r : Except ε α) : Prop := ∃ e, r = .error e

instance {ε α : Type} (r : Except ε α) : Decidable (raises r) :=
  match r with
  | .error e => isTrue ⟨e, rfl⟩
  | .ok _ => isFalse (fun h => by obtain ⟨e, he⟩ := h; exact absurd he (by simp))

/-! ## search -/

/-- The variables of `search`: the reference parameters `inputs`, `cost`, `gradient`, the
by-value parameter `step`, and the locals.  `minStep`, `maxStep`, `gradientDirection` and
`testCost` are the locals of the loop body (zero before the first iteration).  `evals` is
the list of the steps at which the oracle has been evaluated, oldest first; the code does
not keep it. -/
structure SearchState where
  inputs : List ℚ
  cost : ℚ
  gradient : List ℚ
  step : ℚ
  bracket : Bool
  stageOne : Bool
  intervalWidth : ℚ
  previousIntervalWidth : ℚ
  bestStep : ℚ
  bestCost : ℚ
  bestGradientDirection : ℚ
  intervalEndStep : ℚ
  intervalEndCost : ℚ
  intervalEndGradientDirection : ℚ
  iteration : ℕ
  minStep : ℚ
  maxStep : ℚ
  gradientDirection : ℚ
  testCost : ℚ
  evals : List ℚ
  deriving DecidableEq, Repr

/-- What is fixed during one call of `search`. -/
structure Call where
  cfg : Config
  sqrtf : ℚ → ℚ
  /-- The oracle `costFunction.computeCostAndGradient`: inputs to (cost, gradient). -/
  costFunction : List ℚ → ℚ × List ℚ
  direction : List ℚ
  previousInputs : List ℚ
  initialCost : ℚ
  initialGradientDirection : ℚ

/-- The local `gradientDirectionTest`. -/
def Call.gradientDirectionTest (c : Call) : ℚ :=
  c.initialGradientDirection * c.cfg.fTolerance

/-- How a call of `search` ends: `status = none` is a normal return, `some f` a `throw`;
`final` holds the variables at that moment. -/
structure Outcome where
  status : Option Failure
  final : SearchState
  deriving DecidableEq, Repr

/-- The local `wouldTerminate`, from the clamped `step` and the `minStep`,
`maxStep`. -/
def wouldTerminate (c : Call) (s : SearchState) (step minStep maxStep : ℚ) : Bool :=
  (s.bracket &&
      ((decide (step < minStep) || decide (maxStep ≤ step)) ||
        decide (c.cfg.maxLineSearch ≤ s.iteration + 1))) ||
    (s.bracket && decide (maxStep - minStep ≤ c.cfg.xTolerance * maxStep))

/-- The first part of the loop body, down to `++iteration`: set `minStep` and `maxStep`,
clamp the step, replace it by the best step if an unusual termination would occur, move
`inputs` and evaluate the oracle there. -/
def evaluateTrial (c : Call) (s : SearchState) : SearchState :=
  let minStep := if s.bracket then min s.bestStep s.intervalEndStep else s.bestStep
  let maxStep := if s.bracket then max s.bestStep s.intervalEndStep
    else s.step + 4 * (s.step - s.bestStep)
  let step1 := if s.step < c.cfg.minStep then c.cfg.minStep else s.step
  let step2 := if c.cfg.maxStep < step1 then c.cfg.maxStep else step1
  let step := if wouldTerminate c s step2 minStep maxStep then s.bestStep else step2
  let inputs := add c.previousInputs (multiply c.direction step)
  let result := c.costFunction inputs
  { s with
    minStep := minStep, maxStep := maxStep, step := step, inputs := inputs,
    cost := result.1, gradient := result.2,
    gradientDirection := dotProduct result.2 c.direction,
    testCost := c.initialCost + step * c.gradientDirectionTest,
    iteration := s.iteration + 1,
    evals := s.evals ++ [step] }

/-- The tests that follow the evaluation, in program order: `some none` is a normal
return (`return` or `break`), `some (some f)` a `throw`, `none` falls through to the
interval update.  The test for rounding errors executes `return;`, the `throw` written
after it is never reached. -/
def exitTests (c : Call) (s : SearchState) : Option (Option Failure) :=
  if s.bracket ∧ (s.step ≤ s.minStep ∨ s.maxStep ≤ s.step) then
    some none
  else if s.step = c.cfg.maxStep ∧ s.cost ≤ s.testCost ∧
      s.gradientDirection ≤ c.gradientDirectionTest then
    some (some .maxStepReached)
  else if s.step = c.cfg.minStep ∧
      (s.testCost < s.cost ∨ c.gradientDirectionTest ≤ s.gradientDirection) then
    some (some .minStepReached)
  else if s.bracket ∧ s.maxStep - s.minStep ≤ c.cfg.xTolerance * s.maxStep then
    some (some .widthTooSmall)
  else if s.iteration ≥ c.cfg.maxLineSearch then
    some none
  else if s.cost ≤ s.testCost ∧
      |s.gradientDirection| ≤ c.cfg.gTolerance * (-c.initialGradientDirection) then
    some none
  else
    none

/-- The six values of the best point and of the interval end, with the trial step and the
bracket flag, as `updateIntervalOfUncertainty` receives them. -/
def SearchState.uncertainty (s : SearchState) : Uncertainty where
  bestStep := s.bestStep
  bestCost := s.bestCost
  bestGradientDirection := s.bestGradientDirection
  intervalEndStep := s.intervalEndStep
  intervalEndCost := s.intervalEndCost
  intervalEndGradientDirection := s.intervalEndGradientDirection
  step := s.step
  bracket := s.bracket

/-- The stage-one test: the flag after
`if(stageOne && cost <= testCost && min(ftol, gtol) * dginit <= dg) stageOne = false`. -/
def stageOneAfter (c : Call) (s : SearchState) : Bool :=
  if s.stageOne ∧ s.cost ≤ s.testCost ∧
      min c.cfg.fTolerance c.cfg.gTolerance * c.initialGradientDirection
        ≤ s.gradientDirection then false
  else s.stageOne

/-- The `if` branch of the interval update: `updateIntervalOfUncertainty` on the modified
function and derivative values, then "Reset the function and gradient values". -/
def updateModified (c : Call) (s : SearchState) : Except Failure SearchState :=
  let modifiedCost := s.cost - s.step * c.gradientDirectionTest
  let modifiedBestCost := s.bestCost - s.bestStep * c.gradientDirectionTest
  let modifiedIntervalEndCost :=
    s.intervalEndCost - s.intervalEndStep * c.gradientDirectionTest
  let modifiedGradientDirection := s.gradientDirection - c.gradientDirectionTest
  let modifiedBestGradientDirection :=
    s.bestGradientDirection - c.gradientDirectionTest
  let modifiedIntervalEndGradientDirection :=
    s.intervalEndGradientDirection - c.gradientDirectionTest
  match updateIntervalOfUncertainty c.sqrtf
      { s.uncertainty with
        bestCost := modifiedBestCost,
        bestGradientDirection := modifiedBestGradientDirection,
        intervalEndCost := modifiedIntervalEndCost,
        intervalEndGradientDirection := modifiedIntervalEndGradientDirection }
      modifiedCost modifiedGradientDirection s.minStep s.maxStep with
  | .error f => .error f
  | .ok u =>
    .ok { s with
      bestStep := u.bestStep, intervalEndStep := u.intervalEndStep,
      step := u.step, bracket := u.bracket,
      bestCost := u.bestCost + u.bestStep * c.gradientDirectionTest,
      intervalEndCost := u.intervalEndCost + u.intervalEndStep * c.gradientDirectionTest,
      bestGradientDirection := u.bestGradientDirection + c.gradientDirectionTest,
      intervalEndGradientDirection :=
        u.intervalEndGradientDirection + c.gradientDirectionTest }

/-- The `else` branch of the interval update: `updateIntervalOfUncertainty` on the raw
values. -/
def updateRaw (c : Call) (s : SearchState) : Except Failure SearchState :=
  match updateIntervalOfUncertainty c.sqrtf s.uncertainty
      s.cost s.gradientDirection s.minStep s.maxStep with
  | .error f => .error f
  | .ok u =>
    .ok { s with
      bestStep := u.bestStep, bestCost := u.bestCost,
      bestGradientDirection := u.bestGradientDirection,
      intervalEndStep := u.intervalEndStep, intervalEndCost := u.intervalEndCost,
      intervalEndGradientDirection := u.intervalEndGradientDirection,
      step := u.step, bracket := u.bracket }

/-- "Force a sufficient decrease in the interval of uncertainty": the end of the loop
body. -/
def forceDecrease (t : SearchState) : SearchState :=
  if t.bracket then
    let step :=
      if (2 / 3) * t.previousIntervalWidth ≤ |t.intervalEndStep - t.bestStep| then
        t.bestStep + (1 / 2) * (t.intervalEndStep - t.bestStep)
      else t.step
    { t with
      step := step,
      previousIntervalWidth := t.intervalWidth,
      intervalWidth := |t.intervalEndStep - t.bestStep| }
  else t

/-- The rest of the loop body: the stage-one test, the interval update on the modified or
on the raw values, and the forced decrease of the interval width. -/
def updateTrial (c : Call) (s0 : SearchState) : Except Failure SearchState :=
  let s := { s0 with stageOne := stageOneAfter c s0 }
  let updated : Except Failure SearchState :=
    if s.stageOne ∧ s.testCost < s.cost ∧ s.cost ≤ s.bestCost then updateModified c s
    else updateRaw c s
  match updated with
  | .error f => .error f
  | .ok t => .ok (forceDecrease t)

/-- One pass through the body of `while(true)`: either the call ends, or the loop goes
round with the new variables. -/
def iterate (c : Call) (s : SearchState) : Outcome ⊕ SearchState :=
  let t := evaluateTrial c s
  match exitTests c t with
  | some status => .inl { status := status, final := t }
  | none =>
    match updateTrial c t with
    | .error f => .inl { status := some f, final := t }
    | .ok t1 => .inr t1

/-- The loop `while(true)`, with fuel. -/
def searchLoop (c : Call) : ℕ → SearchState → Option Outcome
  | 0, _ => none
  | fuel + 1, s =>
    match iterate c s with
    | .inl o => some o
    | .inr t => searchLoop c fuel t

/-- The variables of `search` when the loop is entered. -/
def initialState (cfg : Config) (inputs : List ℚ) (cost : ℚ) (gradient : List ℚ)
    (direction : List ℚ) (step : ℚ) : SearchState where
  inputs := inputs
  cost := cost
  gradient := gradient
  step := step
  bracket := false
  stageOne := true
  intervalWidth := cfg.maxStep - cfg.minStep
  previousIntervalWidth := 2 * (cfg.maxStep - cfg.minStep)
  bestStep := 0
  bestCost := cost
  bestGradientDirection := dotProduct gradient direction
  intervalEndStep := 0
  intervalEndCost := cost
  intervalEndGradientDirection := dotProduct gradient direction
  iteration := 0
  minStep := 0
  maxStep := 0
  gradientDirection := 0
  testCost := 0
  evals := []

/-- What `search` fixes for the call from its arguments. -/
def mkCall (cfg : Config) (sqrtf : ℚ → ℚ) (costFunction : List ℚ → ℚ × List ℚ)
    (cost : ℚ) (gradient direction previousInputs : List ℚ) : Call where
  cfg := cfg
  sqrtf := sqrtf
  costFunction := costFunction
  direction := direction
  previousInputs := previousInputs
  initialCost := cost
  initialGradientDirection := dotProduct gradient direction

/-- The method `MoreThuenteLineSearch::search`.  `previousGradients` is a parameter that the
body never reads. -/
def search (cfg : Config) (sqrtf : ℚ → ℚ) (costFunction : List ℚ → ℚ × List ℚ)
    (inputs : List ℚ) (cost : ℚ) (gradient direction : List ℚ) (step : ℚ)
    (previousInputs previousGradients : List ℚ) (fuel : ℕ) : Option Outcome :=
  let _unused := previousGradients
  if dotProduct gradient direction > 0 then
    some { status := some .notDescentDirection,
           final := initialState cfg inputs cost gradient direction step }
  else
    searchLoop (mkCall cfg sqrtf costFunction cost gradient direction previousInputs) fuel
      (initialState cfg inputs cost gradient direction step)

/-- A square root that is exact on the squares of rationals: the integer square roots of
the numerator and of the denominator. -/
def sqrtExact (x : ℚ) : ℚ :=
  (Nat.findGreatest (fun k => k * k ≤ x.num.toNat) x.num.toNat : ℚ) /
    (Nat.findGreatest (fun k => k * k ≤ x.den) x.den : ℚ)

/-! ## Reading the claims -/

/-- Sufficient decrease at a trial: `f(x+αd) ≤ f(x) + c1·α·(g·d)`, with `c1` the
function accuracy. -/
def sufficientDecrease (cfg : Config) (initialCost initialGradientDirection
    step cost : ℚ) : Prop :=
  cost ≤ initialCost + cfg.fTolerance * step * initialGradientDirection

/-- The curvature condition at a trial: `|g(x+αd)·d| ≤ c2·|g·d|`, with `c2` the gradient
accuracy. -/
def curvature (cfg : Config) (initialGradientDirection gradientDirection : ℚ) : Prop :=
  |gradientDirection| ≤ cfg.gTolerance * |initialGradientDirection|

/-- Both strong Wolfe conditions at the trial held by a state. -/
def strongWolfe (cfg : Config) (initialCost initialGradientDirection : ℚ)
    (s : SearchState) : Prop :=
  sufficientDecrease cfg initialCost initialGradientDirection s.step s.cost ∧
    curvature cfg initialGradientDirection s.gradientDirection

instance (cfg : Config) (a b c d : ℚ) : Decidable (sufficientDecrease cfg a b c d) := by
  unfold sufficientDecrease; infer_instance

instance (cfg : Config) (a b : ℚ) : Decidable (curvature cfg a b) := by
  unfold curvature; infer_instance

instance (cfg : Config) (a b : ℚ) (s : SearchState) : Decidable (strongWolfe cfg a b s) := by
  unfold strongWolfe; infer_instance

/-- The trial has collapsed against an end of the bracket: what the test for rounding
errors looks at. -/
def roundingCollapse (s : SearchState) : Prop :=
  s.bracket = true ∧ (s.step ≤ s.minStep ∨ s.maxStep ≤ s.step)

instance (s : SearchState) : Decidable (roundingCollapse s) := by
  unfold roundingCollapse; infer_instance

/-- A step is within the configured bounds. -/
def withinBounds (cfg : Config) (α : ℚ) : Prop := cfg.minStep ≤ α ∧ α ≤ cfg.maxStep

instance (cfg : Config) (α : ℚ) : Decidable (withinBounds cfg α) := by
  unfold withinBounds; infer_instance

/-! ## Concrete oracles -/

/-- The one-dimensional cost `φ(a) = (a-3)²` with its derivative. -/
def parabola : List ℚ → ℚ × List ℚ :=
  fun x => ((x.headD 0 - 3) ^ 2, [2 * (x.headD 0 - 3)])

/-- A constant cost, with zero gradient. -/
def flat : List ℚ → ℚ × List ℚ := fun _ => (5, [0])

/-- An oracle that reports cost `1` with zero slope at the point `1`, and cost `-1` with
slope `-11/2` everywhere else. -/
def kinked : List ℚ → ℚ × List ℚ :=
  fun x => if x = [1] then (1, [0]) else (-1, [-11 / 2])

/-- The parabola call with machine precision `1`: what is fixed during the call. -/
def coarseCall : Call :=
  mkCall { defaultConfig with xTolerance := 1 } sqrtExact parabola 9 [-6] [1] [0]

/-- The variables of the parabola call at the top of a pass with the bracket `[0, 10]`. -/
def coarseState : SearchState :=
  { initialState defaultConfig [0] 9 [-6] [1] 10 with
    bracket := true, intervalEndStep := 10, intervalEndCost := 49,
    intervalEndGradientDirection := 14, iteration := 1, evals := [10] }

/-- The parabola call with the maximum step set to the starting step `1`. -/
def cappedCall : Call :=
  mkCall { defaultConfig with maxStep := 1 } sqrtExact parabola 9 [-6] [1] [0]

/-- The variables of that call when the loop is entered. -/
def cappedState : SearchState := initialState cappedCall.cfg [0] 9 [-6] [1] 1

/-! ## Polynomials sampled by the interpolation helpers -/

/-- The value at `x` of the polynomial `c3 x³ + c2 x² + c1 x + c0`. -/
def cubic (c3 c2 c1 c0 x : ℚ) : ℚ := c3 * x ^ 3 + c2 * x ^ 2 + c1 * x + c0

/-- The value at `x` of the derivative of `c3 x³ + c2 x² + c1 x + c0`. -/
def cubicDerivative (c3 c2 c1 x : ℚ) : ℚ := 3 * c3 * x ^ 2 + 2 * c2 * x + c1

/-- The value at `x` of the second derivative of `c3 x³ + c2 x² + c1 x + c0`. -/
def cubicSecondDerivative (c3 c2 x : ℚ) : ℚ := 6 * c3 * x + 2 * c2

/-- The argument that the six-argument `findCubicMinimizer` hands to `std::sqrtf`:
`a * a - (leftGradientDirection / s) * (rightGradientDirection / s)`. -/
def cubicRadicand (leftStep leftCost leftGradientDirection
    rightStep rightCost rightGradientDirection : ℚ) : ℚ :=
  let difference := rightStep - leftStep
  let theta := ((leftCost - rightCost) * 3 / difference) +
    leftGradientDirection + rightGradientDirection
  let p := |theta|
  let q := |leftGradientDirection|
  let r := |rightGradientDirection|
  let s := max p (max q r)
  let a := theta / s
  a * a - (leftGradientDirection / s) * (rightGradientDirection / s)

/-- The local `q1` of the six-argument `findCubicMinimizer`, the denominator of `r1`. -/
def cubicDenominator (sqrtf : ℚ → ℚ) (leftStep leftCost leftGradientDirection
    rightStep rightCost rightGradientDirection : ℚ) : ℚ :=
  let difference := rightStep - leftStep
  let theta := ((leftCost - rightCost) * 3 / difference) +
    leftGradientDirection + rightGradientDirection
  let p := |theta|
  let q := |leftGradientDirection|
  let r := |rightGradientDirection|
  let s := max p (max q r)
  let a := theta / s
  let gamma0 := s * sqrtf (a * a - (leftGradientDirection / s) * (rightGradientDirection / s))
  let gamma := if rightStep < leftStep then -gamma0 else gamma0
  gamma - leftGradientDirection + gamma + rightGradientDirection

/-! ## Concrete arguments of `updateIntervalOfUncertainty` -/

/-- A best point `(0, 1, -3)` with a trial step `3`, not bracketed: with the trial cost `0`
and the trial derivative `1` the cost is lower and the derivatives have opposite signs. -/
def oppositeSignPoint : Uncertainty where
  bestStep := 0
  bestCost := 1
  bestGradientDirection := -3
  intervalEndStep := 0
  intervalEndCost := 1
  intervalEndGradientDirection := -3
  step := 3
  bracket := false

/-- A bracket between the best point `(0, 36, -8)` and the interval end `(10, 50, 5)`, with
the trial step `6`: with the trial cost `0` and the trial derivative `-6` the cost is lower
and the derivative has the same sign and a smaller magnitude. -/
def sameSignPoint : Uncertainty where
  bestStep := 0
  bestCost := 36
  bestGradientDirection := -8
  intervalEndStep := 10
  intervalEndCost := 50
  intervalEndGradientDirection := 5
  step := 6
  bracket := true

/-- The parabola call with the function accuracy `1/2`: what is fixed during the call. -/
def stageOneCall : Call :=
  mkCall { defaultConfig with fTolerance := 1 / 2 } sqrtExact parabola 9 [-6] [1] [0]

/-- The variables of that call after the first evaluation, at the step `5`: the cost `4` is
lower than the initial cost `9` and above the test cost `-6`. -/
def stageOneState : SearchState :=
  evaluateTrial stageOneCall
    (initialState { defaultConfig with fTolerance := 1 / 2 } [0] 9 [-6] [1] 5)

/-- The variables of that call after the interval update that follows the first
evaluation. -/
def stageOneUpdated : SearchState :=
  { stageOneState with
    step := 39 / 50, bracket := true, intervalWidth := 5,
    previousIntervalWidth := stageOneState.intervalWidth,
    intervalEndStep := 5, intervalEndCost := 4, intervalEndGradientDirection := 4 }

/-! ## CostAndGradientFunction (minerva/optimizer/implementation/CostAndGradientFunction.cpp) -/

/-- Modelled from the spec: a `SparseMatrixFormat`, the shape descriptor
`{blockCount, rowsPerBlock, columnsPerBlock, isRowSparse}` of a block matrix. -/
structure SparseMatrixFormat where
  blocks : ℕ
  rowsPerBlock : ℕ
  columnsPerBlock : ℕ
  isRowSparse : Bool
  deriving DecidableEq, Repr

/-- Modelled from the spec: a `BlockSparseMatrix`, as its shape (block count, rows per
block, columns per block, row-sparse flag) and the list of its entries. -/
structure BlockSparseMatrix where
  blocks : ℕ
  rowsPerBlock : ℕ
  columnsPerBlock : ℕ
  isRowSparse : Bool
  data : List ℚ
  deriving DecidableEq, Repr

/-- Modelled from the spec: the constructor
`BlockSparseMatrix(blocks, rows, columns, isRowSparse)`, which allocates a zero-valued
matrix of that shape. -/
def BlockSparseMatrix.zeros (blocks rows columns : ℕ) (isRowSparse : Bool) :
    BlockSparseMatrix where
  blocks := blocks
  rowsPerBlock := rows
  columnsPerBlock := columns
  isRowSparse := isRowSparse
  data := List.replicate (blocks * rows * columns) 0

/-- Modelled from the spec: the constructor `SparseMatrixFormat(matrix)`, the shape
descriptor of a block matrix. -/
def SparseMatrixFormat.ofMatrix (m : BlockSparseMatrix) : SparseMatrixFormat where
  blocks := m.blocks
  rowsPerBlock := m.rowsPerBlock
  columnsPerBlock := m.columnsPerBlock
  isRowSparse := m.isRowSparse

/-- The function `convertToFormat` on a `BlockSparseMatrixVector`: one `push_back` per
matrix. -/
def convertToFormat (vector : List BlockSparseMatrix) : List SparseMatrixFormat :=
  vector.foldl (fun format m => format ++ [SparseMatrixFormat.ofMatrix m]) []

/-- The data members of `CostAndGradientFunction`. -/
structure CostAndGradientFunction where
  initialCost : ℚ
  costReductionFactor : ℚ
  format : List SparseMatrixFormat
  deriving DecidableEq, Repr

/-- The constructor of `CostAndGradientFunction` from an exemplar
`BlockSparseMatrixVector`. -/
def CostAndGradientFunction.ofVector (i c : ℚ) (vector : List BlockSparseMatrix) :
    CostAndGradientFunction where
  initialCost := i
  costReductionFactor := c
  format := convertToFormat vector

/-- The method `CostAndGradientFunction::getUninitializedDataStructure`: one `push_back`
of a fresh `BlockSparseMatrix` per entry of the format. -/
def CostAndGradientFunction.getUninitializedDataStructure (f : CostAndGradientFunction) :
    List BlockSparseMatrix :=
  f.format.foldl
    (fun vector sparseMatrixFormat =>
      vector ++ [BlockSparseMatrix.zeros sparseMatrixFormat.blocks
        sparseMatrixFormat.rowsPerBlock sparseMatrixFormat.columnsPerBlock
        sparseMatrixFormat.isRowSparse])
    []

/-! ## More concrete calls -/

/-- An oracle that descends with slope `-1` below the point `2` and reports the cost `10`
with slope `1` from there on. -/
def ramp : List ℚ → ℚ × List ℚ :=
  fun x => if x.headD 0 < 2 then (-(x.headD 0), [-1]) else (10, [1])

/-- The call on `ramp` from `0` along `+1` with a budget of two iterations: what is fixed
during the call. -/
def rampCall : Call :=
  mkCall { defaultConfig with maxLineSearch := 2 } sqrtExact ramp 0 [-1] [1] [0]

/-- The variables of that call after the first evaluation, at the step `1`. -/
def rampState : SearchState :=
  evaluateTrial rampCall
    (initialState { defaultConfig with maxLineSearch := 2 } [0] 0 [-1] [1] 1)

/-- The parabola call with a budget of two iterations: what is fixed during the call. -/
def lastPassCall : Call :=
  mkCall { defaultConfig with maxLineSearch := 2 } sqrtExact parabola 9 [-6] [1] [0]

/-- The variables of the stage-one parabola call after the first evaluation, with the
width `3` on record from two bracketed iterations earlier. -/
def narrowRecordState : SearchState :=
  { stageOneState with previousIntervalWidth := 3 }

/-- The variables after the interval update of `narrowRecordState`: the bracket `[0, 5]` is
wider than two thirds of the width on record, and the next trial is its midpoint. -/
def narrowRecordUpdated : SearchState :=
  { stageOneState with
    step := 5 / 2, bracket := true, intervalWidth := 5,
    previousIntervalWidth := stageOneState.intervalWidth,
    intervalEndStep := 5, intervalEndCost := 4, intervalEndGradientDirection := 4 }

/-! ## The interpolation helpers over an ordered field

The six-argument `findCubicMinimizer` reaches `std::sqrtf`, and a square root of a rational
need not be rational.  The same body is therefore also embedded over any ordered field, so
that it can be read over the reals, where every non-negative radicand has its root. -/

/-- The six-argument `findCubicMinimizer`, its body over an ordered field `K`. -/
def findCubicMinimizerOver {K : Type} [LinearOrderedField K] (sqrtf : K → K)
    (leftStep leftCost leftGradientDirection rightStep rightCost rightGradientDirection : K) :
    K :=
  let difference := rightStep - leftStep
  let theta := ((leftCost - rightCost) * 3 / difference) +
    leftGradientDirection + rightGradientDirection
  let p := |theta|
  let q := |leftGradientDirection|
  let r := |rightGradientDirection|
  let s := max p (max q r)
  let a := theta / s
  let gamma0 := s * sqrtf (a * a - (leftGradientDirection / s) * (rightGradientDirection / s))
  let gamma := if rightStep < leftStep then -gamma0 else gamma0
  let p1 := gamma - leftGradientDirection + theta
  let q1 := gamma - leftGradientDirection + gamma + rightGradientDirection
  let r1 := p1 / q1
  leftStep + r1 * difference

/-- The local `q1` of the six-argument `findCubicMinimizer`, the denominator of `r1`, over
an ordered field `K`. -/
def cubicDenominatorOver {K : Type} [LinearOrderedField K] (sqrtf : K → K)
    (leftStep leftCost leftGradientDirection rightStep rightCost rightGradientDirection : K) :
    K :=
  let difference := rightStep - leftStep
  let theta := ((leftCost - rightCost) * 3 / difference) +
    leftGradientDirection + rightGradientDirection
  let p := |theta|
  let q := |leftGradientDirection|
  let r := |rightGradientDirection|
  let s := max p (max q r)
  let a := theta / s
  let gamma0 := s * sqrtf (a * a - (leftGradientDirection / s) * (rightGradientDirection / s))
  let gamma := if rightStep < leftStep then -gamma0 else gamma0
  gamma - leftGradientDirection + gamma + rightGradientDirection

/-! ## The higher-cost case, in the words of the claims -/

/-- The minimizer of the quadratic interpolating `f(u)`, `f'(u)` and `f(v)`, by the formula
`u + (f'(u) / ((f(u) - f(v)) / (v - u) + f'(u))) / 2 · (v - u)`. -/
def quadraticInterpolantMinimizer (u fu du v fv : ℚ) : ℚ :=
  u + (du / ((fu - fv) / (v - u) + du)) / 2 * (v - u)

/-- The step of the higher-cost case before clamping, from the cubic and the quadratic
minimizer: the cubic minimizer when it is strictly closer to the best step, and otherwise
the midpoint of the two. -/
def higherCostStep (bestStep cubicMinimizer quadraticMinimizer : ℚ) : ℚ :=
  if |cubicMinimizer - bestStep| < |quadraticMinimizer - bestStep| then cubicMinimizer
  else (cubicMinimizer + quadraticMinimizer) / 2

/-- The best point `(0, 9, -3)` with the trial step `5`, not bracketed: the values of
`a² - 3a + 9` at `0`, which with the trial `(5, 19, 7)` is the higher-cost case. -/
def higherCostPoint : Uncertainty where
  bestStep := 0
  bestCost := 9
  bestGradientDirection := -3
  intervalEndStep := 0
  intervalEndCost := 9
  intervalEndGradientDirection := -3
  step := 5
  bracket := false

end optimizer

/-! ## Dense back propagation (minerva/neuralnetwork/implementation/DenseBackPropagation.cpp)

The matrix engine (`BlockSparseMatrix`, `Matrix`), `Layer` and `NeuralNetwork` are
collaborators whose code is not among the sources: the functions of
`DenseBackPropagation.cpp` are embedded over a record of their operations, `Engine`.
Scalars are taken in an ordered field `K` (exact arithmetic); the functions are computable
over the rationals.  `assert`s are preconditions of the caller and are not executed. -/

namespace neuralnetwork

/-- The operations of `BlockSparseMatrix` (type `M`), of `Layer` (type `L`) and of
`NeuralNetwork` (a list of layers) that `DenseBackPropagation.cpp` calls.  Operations that
the C++ performs in place (`setRowSparse`, `formatInputForLayer`, `formatOutputForLayer`,
`layer.back()[k] += e`) return the new value. -/
structure Engine (K M L : Type) where
  /-- `BlockSparseMatrix::add`. -/
  add : M → M → M
  /-- `BlockSparseMatrix::subtract`. -/
  subtract : M → M → M
  /-- `BlockSparseMatrix::multiply` by a scalar. -/
  multiply : M → K → M
  /-- `BlockSparseMatrix::elementMultiply`. -/
  elementMultiply : M → M → M
  /-- `BlockSparseMatrix::sigmoidDerivative`. -/
  sigmoidDerivative : M → M
  /-- `BlockSparseMatrix::transpose`. -/
  transpose : M → M
  /-- `BlockSparseMatrix::setRowSparse`. -/
  setRowSparse : M → M
  /-- `BlockSparseMatrix::reverseConvolutionalMultiply`. -/
  reverseConvolutionalMultiply : M → M → M
  /-- `BlockSparseMatrix::reduceSum`. -/
  reduceSum : M → K
  /-- `BlockSparseMatrix::reduceSumAlongColumns`. -/
  reduceSumAlongColumns : M → M
  /-- `BlockSparseMatrix::reduceTileSumAlongRows(rowsPerTile, blocks)`. -/
  reduceTileSumAlongRows : M → ℕ → ℕ → M
  /-- `BlockSparseMatrix::rows`. -/
  rows : M → ℕ
  /-- `BlockSparseMatrix::rowsPerBlock`. -/
  rowsPerBlock : M → ℕ
  /-- `BlockSparseMatrix::columnsPerBlock`. -/
  columnsPerBlock : M → ℕ
  /-- `BlockSparseMatrix::blocks`. -/
  blocks : M → ℕ
  /-- `BackPropagation::flatten`: the entries of a block matrix as one dense `Matrix`, here
  the list of its entries. -/
  flatten : M → List K
  /-- `Layer::runInputs`. -/
  runInputs : L → M → M
  /-- `Layer::runReverse`. -/
  runReverse : L → M → M
  /-- `Layer::getWeightsWithoutBias`. -/
  getWeightsWithoutBias : L → M
  /-- `Layer::getBias`. -/
  getBias : L → M
  /-- `Layer::getFlattenedWeights`, as the list of the entries. -/
  getFlattenedWeights : L → List K
  /-- The layer after `layer.back()[index] += value`. -/
  addToBack : L → ℕ → K → L
  /-- `NeuralNetwork::runInputs`. -/
  runNetwork : List L → M → M
  /-- The matrix after `NeuralNetwork::formatInputForLayer(layer, m)`. -/
  formatInputForLayer : List L → L → M → M
  /-- The matrix after `NeuralNetwork::formatOutputForLayer(layer, m)`. -/
  formatOutputForLayer : List L → L → M → M

section functions

variable {K M L : Type} [LinearOrderedField K]

/-- Modelled from the spec: `Matrix::subtract`, `abs`, `reduceSum` and `size` of the dense
matrix class, on the lists of entries; with them the function `isInMargin`:
`output.subtract(ref).abs().reduceSum() < ref.size() * epsilon`. -/
def isInMargin (ref output : List K) (epsilon : K) : Bool :=
  decide (((List.zipWith (fun o r => o - r) output ref).map (fun x => |x|)).sum <
    (ref.length : K) * epsilon)

/-- The function `computeCostForLayer` (the `#else` branch, the squared error). -/
def computeCostForLayer (E : Engine K M L) (layer : L) (layerInput layerOutput : M)
    (lambda : K) : K :=
  let m := E.rows layerInput
  let hx := E.runInputs layer layerInput
  let errors := E.subtract hx layerOutput
  let squaredErrors := E.elementMultiply errors errors
  let sumOfSquaredErrors := E.reduceSum squaredErrors
  let costSum := sumOfSquaredErrors * 1 / (2 * (m : K))
  costSum + (lambda / 2) *
    E.reduceSum (E.elementMultiply (E.getWeightsWithoutBias layer)
      (E.getWeightsWithoutBias layer))

/-- The function `computeCostForNetwork` (the `#else` branch, the squared error). -/
def computeCostForNetwork (E : Engine K M L) (network : List L) (input referenceOutput : M)
    (lambda : K) : K :=
  let m := E.rows input
  let hx := E.runNetwork network input
  let errors := E.subtract hx referenceOutput
  let squaredErrors := E.elementMultiply errors errors
  let sumOfSquaredErrors := E.reduceSum squaredErrors
  let costSum := sumOfSquaredErrors * 1 / (2 * (m : K))
  if lambda > 0 then
    network.foldl (fun costSum layer => costSum + (lambda / 2) *
      E.reduceSum (E.elementMultiply (E.getWeightsWithoutBias layer)
        (E.getWeightsWithoutBias layer))) costSum
  else costSum

/-- The finite-difference estimate that `gradientChecking` computes for the weight of flat
index `index`: `(cost(layerPlus) - cost(layerMinus)) / (2 * epsilon)`. -/
def gradientEstimate (E : Engine K M L) (layer : L) (layerInput layerOutput : M)
    (epsilon lambda : K) (index : ℕ) : K :=
  let layerPlus := E.addToBack layer index epsilon
  let layerMinus := E.addToBack layer index (-epsilon)
  (computeCostForLayer E layerPlus layerInput layerOutput lambda -
    computeCostForLayer E layerMinus layerInput layerOutput lambda) / (2 * epsilon)

/-- The `for` loop of `gradientChecking`, from the weight of flat index `index` on, over
the analytic derivatives still to compare; `estimates` is the filled part of
`gradientEstimate`.  `none` is the `return false` inside the loop. -/
def gradientCheckingLoop (E : Engine K M L) (layer : L) (layerInput layerOutput : M)
    (epsilon lambda : K) : ℕ → List K → List K → Option (List K)
  | _, [], estimates => some estimates
  | index, partialDerivative :: rest, estimates =>
    let derivative := gradientEstimate E layer layerInput layerOutput epsilon lambda index
    if |derivative - partialDerivative| > epsilon then none
    else gradientCheckingLoop E layer layerInput layerOutput epsilon lambda (index + 1) rest
      (estimates ++ [derivative])

/-- The function `gradientChecking`.  The loop runs over the entries of `gradientEstimate`,
which has the size of the flattened partial derivatives. -/
def gradientChecking (E : Engine K M L) (partialDerivatives : M) (layer : L)
    (layerInput layerOutput : M) (epsilon lambda : K) : Bool :=
  let flattenedPartialDerivatives := E.flatten partialDerivatives
  match gradientCheckingLoop E layer layerInput layerOutput epsilon lambda 0
      flattenedPartialDerivatives [] with
  | none => false
  | some gradientEstimate => isInMargin flattenedPartialDerivatives gradientEstimate epsilon

/-- The data members of `DenseBackPropagation` that its methods read: the stored batch
`*_input`, the stored reference `*_referenceOutput`, and `_lambda`; with them the two knobs
that `getCostDerivative` reads, `NeuralNetwork::DoGradientChecking` and
`NeuralNetwork::GradientCheckingEpsilon`. -/
structure DenseBackPropagation (K M : Type) where
  input : M
  referenceOutput : M
  lambda : K
  doGradientChecking : Bool
  gradientCheckingEpsilon : K

/-- The method `DenseBackPropagation::getCost`. -/
def getCost (E : Engine K M L) (bp : DenseBackPropagation K M) (network : List L)
    (input reference : M) : K :=
  computeCostForNetwork E network input reference bp.lambda

/-- The method `DenseBackPropagation::getInputCost`. -/
def getInputCost (E : Engine K M L) (network : List L) (input reference : M) : K :=
  computeCostForNetwork E network input reference 0

/-- The method `DenseBackPropagation::getActivations`: the last activation is reformatted
in place for the layer, then the output of the layer is appended. -/
def getActivations (E : Engine K M L) (network : List L) (input : M) : List M :=
  network.foldl
    (fun activations layer =>
      match activations.getLast? with
      | none => activations
      | some back =>
        let formatted := E.formatInputForLayer network layer back
        activations.dropLast ++ [formatted, E.runInputs layer formatted])
    [input]

/-- The delta with which `getDeltas` and `getInputDelta` start, at the last activation. -/
def outputDelta (E : Engine K M L) (bp : DenseBackPropagation K M) (last : M) : M :=
  E.elementMultiply (E.subtract last bp.referenceOutput) (E.sigmoidDerivative last)

/-- The `while` loop of `getDeltas`, over the activations still to visit, last first.  The
activation visited has as index in `activations` the number of those after it in the
list, which is `layerNumber`.  `none` stands for an index outside the network (undefined
behaviour in the C++). -/
def getDeltasLoop (E : Engine K M L) (network : List L) : List M → M → List M → Option (List M)
  | [], _, deltas => some deltas
  | activation :: rest, delta, deltas =>
    match network.get? rest.length with
    | none => none
    | some layer =>
      let stored := E.formatOutputForLayer network layer delta
      let activationDerivativeOfCurrentLayer := E.sigmoidDerivative activation
      let deltaPropagatedReverse := E.runReverse layer stored
      getDeltasLoop E network rest
        (E.elementMultiply deltaPropagatedReverse activationDerivativeOfCurrentLayer)
        (deltas ++ [stored])

/-- The method `DenseBackPropagation::getDeltas`.  `none` stands for undefined behaviour
(no activation at all, or fewer layers than activations to visit). -/
def getDeltas (E : Engine K M L) (bp : DenseBackPropagation K M) (network : List L)
    (activations : List M) : Option (List M) :=
  match activations.reverse with
  | [] => none
  | last :: rest =>
    (getDeltasLoop E network rest (outputDelta E bp last) []).map List.reverse

/-- The `while` loop of `getInputDelta` and the handling of the first layer that follows
it, over the activations still to visit, last first. -/
def getInputDeltaLoop (E : Engine K M L) (network : List L) : List M → M → Option M
  | [], _ => none
  | [_], delta =>
    match network.get? 0 with
    | none => none
    | some layer => some (E.runReverse layer (E.formatOutputForLayer network layer delta))
  | activation :: next :: rest, delta =>
    match network.get? (next :: rest).length with
    | none => none
    | some layer =>
      let formatted := E.formatOutputForLayer network layer delta
      let activationDerivativeOfCurrentLayer := E.sigmoidDerivative activation
      let deltaPropagatedReverse := E.runReverse layer formatted
      getInputDeltaLoop E network (next :: rest)
        (E.elementMultiply deltaPropagatedReverse activationDerivativeOfCurrentLayer)

/-- The method `DenseBackPropagation::getInputDelta`. -/
def getInputDelta (E : Engine K M L) (bp : DenseBackPropagation K M) (network : List L)
    (activations : List M) : Option M :=
  match activations.reverse with
  | [] => none
  | last :: rest => getInputDeltaLoop E network rest (outputDelta E bp last)

/-- The function `coalesceNeuronOutputs`, as the value it leaves in `derivative`. -/
def coalesceNeuronOutputs (E : Engine K M L) (derivative skeleton : M) : M :=
  if E.rowsPerBlock derivative = E.columnsPerBlock skeleton ∧
      E.blocks derivative = E.blocks skeleton then derivative
  else E.reduceTileSumAlongRows derivative (E.columnsPerBlock skeleton) (E.blocks skeleton)

/-- The weight entry that one pass of the loop of `getCostDerivative` pushes. -/
def weightDerivative (E : Engine K M L) (lambda : K) (samples : ℕ) (delta activation : M)
    (layer : L) : M :=
  let transposedDelta := E.setRowSparse (E.transpose delta)
  let unnormalizedPartialDerivative := E.reverseConvolutionalMultiply transposedDelta activation
  let normalizedPartialDerivative := E.multiply unnormalizedPartialDerivative (1 / (samples : K))
  let weights := E.getWeightsWithoutBias layer
  let lambdaTerm := E.multiply weights lambda
  let coalesced := coalesceNeuronOutputs E normalizedPartialDerivative lambdaTerm
  E.add lambdaTerm (E.transpose coalesced)

/-- The bias entry that one pass of the loop of `getCostDerivative` pushes. -/
def biasDerivative (E : Engine K M L) (samples : ℕ) (delta : M) (layer : L) : M :=
  let transposedDelta := E.setRowSparse (E.transpose delta)
  let normalizedBiasPartialDerivative :=
    E.multiply (E.reduceSumAlongColumns transposedDelta) (1 / (samples : K))
  let coalesced := coalesceNeuronOutputs E normalizedBiasPartialDerivative (E.getBias layer)
  E.transpose coalesced

/-- The `for` loop of `getCostDerivative`: it walks the deltas and the activations
together, and the layers with them, pushing a weight entry then a bias entry. -/
def partialDerivativeLoop (E : Engine K M L) (lambda : K) (samples : ℕ) :
    List M → List M → List L → List M
  | delta :: deltas, activation :: activations, layer :: layers =>
    weightDerivative E lambda samples delta activation layer ::
      biasDerivative E samples delta layer ::
        partialDerivativeLoop E lambda samples deltas activations layers
  | _, _, _ => []

/-- The one-argument method `DenseBackPropagation::getCostDerivative`, as the list it
returns. -/
def getCostDerivative (E : Engine K M L) (bp : DenseBackPropagation K M) (network : List L) :
    Option (List M) :=
  let activations := getActivations E network bp.input
  match getDeltas E bp network activations with
  | none => none
  | some deltas =>
    some (partialDerivativeLoop E bp.lambda (E.rows bp.input) deltas activations network)

/-- The local `isInRange` of `getCostDerivative`, whose truth the method asserts when the
knob `NeuralNetwork::DoGradientChecking` is set: `none` when the knob is not set, or when
the network, the activations or the list of derivatives is too short for `back()`. -/
def getCostDerivativeIsInRange (E : Engine K M L) (bp : DenseBackPropagation K M)
    (network : List L) : Option Bool :=
  if bp.doGradientChecking then
    let activations := getActivations E network bp.input
    match getCostDerivative E bp network, network.getLast?, activations.reverse with
    | some partialDerivative, some back, _ :: layerInput :: _ =>
      match partialDerivative.getLast? with
      | some checked =>
        some (gradientChecking E checked back layerInput bp.referenceOutput
          bp.gradientCheckingEpsilon bp.lambda)
      | none => none
    | _, _, _ => none
  else none

/-- The two-argument method `DenseBackPropagation::getInputDerivative`. -/
def getInputDerivative (E : Engine K M L) (bp : DenseBackPropagation K M) (network : List L)
    (input : M) : Option M :=
  let activations := getActivations E network input
  match getInputDelta E bp network activations with
  | none => none
  | some delta => some (E.multiply delta (1 / (E.rows input : K)))

/-- The three-argument method `DenseBackPropagation::getCostDerivative(network, input,
reference)`: the body is `return getCostDerivative(network);`. -/
def getCostDerivativeFor (E : Engine K M L) (bp : DenseBackPropagation K M) (network : List L)
    (input reference : M) : Option (List M) :=
  let _unused := (input, reference)
  getCostDerivative E bp network

/-- The three-argument method `DenseBackPropagation::getInputDerivative(network, input,
reference)`, whose third parameter has no name: the body is
`return getInputDerivative(network, input);`. -/
def getInputDerivativeFor (E : Engine K M L) (bp : DenseBackPropagation K M)
    (network : List L) (input reference : M) : Option M :=
  let _unused := reference
  getInputDerivative E bp network input

end functions

/-! ## A dense, single-block instance of the collaborators -/

/-- The logistic function `1 / (1 + exp(-x))`, over an exponential given as parameter. -/
def logistic {K : Type} [LinearOrderedField K] (exp : K → K) (x : K) : K :=
  1 / (1 + exp (-x))

/-- Modelled from the spec: a layer, as its weight matrix and its bias.  The weights are
stored with one row per input unit and one column per output unit, the orientation in which
`getCostDerivative` adds the transposed product of the transposed delta and the activation
to them. -/
structure DenseLayer (K : Type) where
  weights : List (List K)
  bias : List K

section dense

variable {K : Type} [LinearOrderedField K]

/-- The dot product of two rows. -/
def dot (a b : List K) : K := (List.zipWith (fun x y => x * y) a b).sum

/-- Column `j` of a matrix stored by rows (a missing entry counts as zero). -/
def column (j : ℕ) (m : List (List K)) : List K := m.map fun row => row.getD j 0

/-- The transpose of a matrix stored by rows. -/
def transposeRows : List (List K) → List (List K)
  | [] => []
  | [row] => row.map fun x => [x]
  | row :: next :: rest =>
    List.zipWith (fun x (c : List K) => x :: c) row (transposeRows (next :: rest))

/-- The outputs of a layer for one sample, from output unit `j` on, one per bias entry. -/
def unitOutputs (sigmoid : K → K) (weights : List (List K)) (row : List K) :
    ℕ → List K → List K
  | _, [] => []
  | j, b :: bias => sigmoid (dot row (column j weights) + b) ::
      unitOutputs sigmoid weights row (j + 1) bias

/-- Modelled from the spec: `Layer::runInputs`, which "applies W and b then a sigmoid
nonlinearity": output unit `j` of a sample is the sigmoid of the dot product of the sample
with column `j` of the weights, plus bias `j`. -/
def DenseLayer.runInputs (sigmoid : K → K) (layer : DenseLayer K) (m : List (List K)) :
    List (List K) :=
  m.map fun row => unitOutputs sigmoid layer.weights row 0 layer.bias

/-- Modelled from the spec: `Layer::runReverse`, which "propagates an error signal backward
through the transpose of W", with no nonlinearity. -/
def DenseLayer.runReverse (layer : DenseLayer K) (m : List (List K)) : List (List K) :=
  m.map fun row => layer.weights.map fun w => dot row w

/-- A row after adding `value` to its entry `index`. -/
def addAt : List K → ℕ → K → List K
  | [], _, _ => []
  | x :: xs, 0, value => (x + value) :: xs
  | x :: xs, index + 1, value => x :: addAt xs index value

/-- A matrix after adding `value` to its entry of flat index `index`, rows first. -/
def addAtFlat : List (List K) → ℕ → K → List (List K)
  | [], _, _ => []
  | row :: rest, index, value =>
    if index < row.length then addAt row index value :: rest
    else row :: addAtFlat rest (index - row.length) value

/-- The sum of the tiles of `period` rows of a matrix, tile on tile. -/
def tileSum (period : ℕ) : ℕ → List (List K) → List (List K)
  | 0, a => a
  | fuel + 1, a =>
    if a.length ≤ period then a
    else List.zipWith (List.zipWith fun x y => x + y) (a.take period)
      (tileSum period fuel (a.drop period))

/-- Modelled from the spec: the matrix engine on matrices of a single block, stored as
lists of rows, with `Layer` and `NeuralNetwork` over it.  Binary elementwise operations
stop at the shorter operand; reformatting for a layer has nothing to do; the sigmoid
derivative is taken from the activation `a` as `a(1 - a)`; `layer.back()` is the weight
matrix. -/
def denseEngine (sigmoid : K → K) : Engine K (List (List K)) (DenseLayer K) where
  add a b := List.zipWith (List.zipWith fun x y => x + y) a b
  subtract a b := List.zipWith (List.zipWith fun x y => x - y) a b
  multiply a k := a.map fun row => row.map fun x => x * k
  elementMultiply a b := List.zipWith (List.zipWith fun x y => x * y) a b
  sigmoidDerivative a := a.map fun row => row.map fun x => x * (1 - x)
  transpose a := transposeRows a
  setRowSparse a := a
  reverseConvolutionalMultiply a b :=
    a.map fun row => (transposeRows b).map fun c => dot row c
  reduceSum a := (a.map List.sum).sum
  reduceSumAlongColumns a := a.map fun row => [row.sum]
  reduceTileSumAlongRows a rowsPerTile blocks := tileSum (rowsPerTile * blocks) a.length a
  rows a := a.length
  rowsPerBlock a := a.length
  columnsPerBlock a := (a.headD []).length
  blocks _ := 1
  flatten a := a.flatten
  runInputs layer m := layer.runInputs sigmoid m
  runReverse layer m := layer.runReverse m
  getWeightsWithoutBias layer := layer.weights
  getBias layer := [layer.bias]
  getFlattenedWeights layer := layer.weights.flatten
  addToBack layer index value := { layer with weights := addAtFlat layer.weights index value }
  runNetwork network m := network.foldl (fun x layer => layer.runInputs sigmoid x) m
  formatInputForLayer _ _ m := m
  formatOutputForLayer _ _ m := m

end dense

/-! ## The delta sequence, in the words of the specification -/

section specification

variable {K M L : Type} [LinearOrderedField K]

/-- The delta sequence as the specification writes it, for the layers `layer[i], ...,
layer[L-1]` and the activations `a[i+1], ..., a[L-1]` between them, `last` being `a[L]`:
`delta[L-1] = (a[L] - reference) ⊙ sigmoid'(a[L])`, and
`delta[i] = layer[i+1].runReverse(delta[i+1] reformatted for layer[i+1]) ⊙ sigmoid'(a[i+1])`.
The result lists `delta[i], ..., delta[L-1]`. -/
def specDeltas (E : Engine K M L) (bp : DenseBackPropagation K M) (network : List L)
    (last : M) : List L → List M → Option (List M)
  | [_], [] => some [outputDelta E bp last]
  | _ :: next :: layers, activation :: activations =>
    match specDeltas E bp network last (next :: layers) activations with
    | some (delta :: deltas) =>
      some (E.elementMultiply
          (E.runReverse next (E.formatOutputForLayer network next delta))
          (E.sigmoidDerivative activation) :: delta :: deltas)
    | _ => none
  | _, _ => none

end specification

section checkingDefinitions

variable {K M L : Type} [LinearOrderedField K]

/-- The distances that `gradientChecking` looks at: for the analytic derivatives
`partialDerivatives`, compared with the weights of flat index `index`, `index + 1`, ...,
the absolute differences between the finite-difference estimate and the analytic
derivative. -/
def differences (E : Engine K M L) (layer : L) (layerInput layerOutput : M)
    (epsilon lambda : K) : ℕ → List K → List K
  | _, [] => []
  | index, partialDerivative :: rest =>
    |gradientEstimate E layer layerInput layerOutput epsilon lambda index - partialDerivative| ::
      differences E layer layerInput layerOutput epsilon lambda (index + 1) rest

/-- The finite-difference estimates for the weights of flat index `index`, `index + 1`,
..., one per analytic derivative. -/
def estimatesFrom (E : Engine K M L) (layer : L) (layerInput layerOutput : M)
    (epsilon lambda : K) : ℕ → List K → List K
  | _, [] => []
  | index, _ :: rest =>
    gradientEstimate E layer layerInput layerOutput epsilon lambda index ::
      estimatesFrom E layer layerInput layerOutput epsilon lambda (index + 1) rest

end checkingDefinitions

/-! ## Concrete networks -/

section concrete

variable (K : Type) [LinearOrderedField K]

/-- The single layer of the scenario: 2 inputs, 1 output, weights `[0.5, 0.5]`, bias `0`. -/
def scenarioNetwork : List (DenseLayer K) := [{ weights := [[1 / 2], [1 / 2]], bias := [0] }]

/-- A back propagation over the batch `[[1, 1]]` and the reference `[[1]]`, with the given
regularization weight and gradient checking off. -/
def scenarioBackPropagation (lambda : K) : DenseBackPropagation K (List (List K)) where
  input := [[1, 1]]
  referenceOutput := [[1]]
  lambda := lambda
  doGradientChecking := false
  gradientCheckingEpsilon := 1 / 20

/-- A single layer with one input, one output, weight `0` and bias `0`. -/
def zeroNetwork : List (DenseLayer K) := [{ weights := [[0]], bias := [0] }]

/-- A single layer with two inputs, two outputs, and weights and biases all zero. -/
def squareNetwork : List (DenseLayer K) := [{ weights := [[0, 0], [0, 0]], bias := [0, 0] }]

/-- A back propagation over the batch `[[1, 0]]` and the reference `[[1, 0]]`, with
`λ = 0` and gradient checking off. -/
def squareBackPropagation : DenseBackPropagation K (List (List K)) where
  input := [[1, 0]]
  referenceOutput := [[1, 0]]
  lambda := 0
  doGradientChecking := false
  gradientCheckingEpsilon := 1 / 20

/-- A layer with one input, one output, the weight `w` and bias `0`. -/
def singleWeightLayer (w : K) : DenseLayer K := { weights := [[w]], bias := [0] }

/-- A back propagation over the batch `[[0]]` and the reference `[[-15/2]]`, with `λ = 0`,
gradient checking on and the checking epsilon `1`. -/
def checkingBackPropagation : DenseBackPropagation K (List (List K)) where
  input := [[0]]
  referenceOutput := [[-15 / 2]]
  lambda := 0
  doGradientChecking := true
  gradientCheckingEpsilon := 1

end concrete

end neuralnetwork

namespace optimizer

/-! ## General facts about the loop -/

section loop

variable (c : Call)

theorem evaluateTrial_iteration (s : SearchState) :
    (evaluateTrial c s).iteration = s.iteration + 1 := rfl

theorem evaluateTrial_evals (s : SearchState) :
    (evaluateTrial c s).evals = s.evals ++ [(evaluateTrial c s).step] := rfl

theorem evaluateTrial_bracket (s : SearchState) :
    (evaluateTrial c s).bracket = s.bracket := rfl

theorem evaluateTrial_bestStep (s : SearchState) :
    (evaluateTrial c s).bestStep = s.bestStep := rfl

theorem evaluateTrial_inputs (s : SearchState) :
    (evaluateTrial c s).inputs =
      add c.previousInputs (multiply c.direction (evaluateTrial c s).step) := rfl

theorem evaluateTrial_cost (s : SearchState) :
    (evaluateTrial c s).cost = (c.costFunction (evaluateTrial c s).inputs).1 := rfl

theorem evaluateTrial_gradient (s : SearchState) :
    (evaluateTrial c s).gradient = (c.costFunction (evaluateTrial c s).inputs).2 := rfl

/-- The best step `updateIntervalOfUncertainty` leaves is the old best step or the trial. -/
theorem updateIntervalOfUncertainty_bestStep (sqrtf : ℚ → ℚ) (u v : Uncertainty)
    (cost gradientDirection minStep maxStep : ℚ)
    (h : updateIntervalOfUncertainty sqrtf u cost gradientDirection minStep maxStep = .ok v) :
    v.bestStep = u.bestStep ∨ v.bestStep = u.step := by
  unfold updateIntervalOfUncertainty at h
  split_ifs at h
  injection h with h
  subst h
  unfold updateEndpoints
  split_ifs <;> simp

/-- What `updateTrial` leaves alone — `iteration`, the oracle trace and the three
reference outputs — and where its best step comes from. -/
theorem updateTrial_preserves (t t1 : SearchState) (h : updateTrial c t = .ok t1) :
    t1.iteration = t.iteration ∧ t1.evals = t.evals ∧ t1.inputs = t.inputs ∧
      t1.cost = t.cost ∧ t1.gradient = t.gradient ∧
      (t1.bestStep = t.bestStep ∨ t1.bestStep = t.step) := by
  have hforce : ∀ w : SearchState, (forceDecrease w).iteration = w.iteration ∧
      (forceDecrease w).evals = w.evals ∧ (forceDecrease w).inputs = w.inputs ∧
      (forceDecrease w).cost = w.cost ∧ (forceDecrease w).gradient = w.gradient ∧
      (forceDecrease w).bestStep = w.bestStep := by
    intro w
    unfold forceDecrease
    split <;> simp
  have hmod : ∀ s w : SearchState, updateModified c s = .ok w →
      w.iteration = s.iteration ∧ w.evals = s.evals ∧ w.inputs = s.inputs ∧
      w.cost = s.cost ∧ w.gradient = s.gradient ∧
      (w.bestStep = s.bestStep ∨ w.bestStep = s.step) := by
    intro s w hw
    unfold updateModified at hw
    simp only at hw
    split at hw
    · exact absurd hw (by simp)
    · rename_i u hu
      have hb := updateIntervalOfUncertainty_bestStep _ _ _ _ _ _ _ hu
      injection hw with hw
      subst hw
      simpa [SearchState.uncertainty] using hb
  have hraw : ∀ s w : SearchState, updateRaw c s = .ok w →
      w.iteration = s.iteration ∧ w.evals = s.evals ∧ w.inputs = s.inputs ∧
      w.cost = s.cost ∧ w.gradient = s.gradient ∧
      (w.bestStep = s.bestStep ∨ w.bestStep = s.step) := by
    intro s w hw
    unfold updateRaw at hw
    split at hw
    · exact absurd hw (by simp)
    · rename_i u hu
      have hb := updateIntervalOfUncertainty_bestStep _ _ _ _ _ _ _ hu
      injection hw with hw
      subst hw
      simpa [SearchState.uncertainty] using hb
  unfold updateTrial at h
  simp only at h
  split at h
  · exact absurd h (by simp)
  · rename_i w hw
    injection h with h
    subst h
    obtain ⟨f1, f2, f3, f4, f5, f6⟩ := hforce w
    rw [f1, f2, f3, f4, f5, f6]
    split at hw
    · simpa using hmod _ _ hw
    · simpa using hraw _ _ hw

/-- A pass that goes round the loop has not reached the iteration budget, and leaves the
counter and the trace as the evaluation set them. -/
theorem iterate_inr (s t1 : SearchState) (h : iterate c s = .inr t1) :
    exitTests c (evaluateTrial c s) = none ∧ updateTrial c (evaluateTrial c s) = .ok t1 := by
  unfold iterate at h
  simp only at h
  split at h
  · exact absurd h (by simp)
  · rename_i hx
    split at h
    · exact absurd h (by simp)
    · rename_i t2 hu
      injection h with h
      subst h
      exact ⟨hx, hu⟩

/-- A pass that ends the call ends it at the state the evaluation left, through one of
the exit tests or through a `throw` of `updateIntervalOfUncertainty`. -/
theorem iterate_inl (s : SearchState) (o : Outcome) (h : iterate c s = .inl o) :
    o.final = evaluateTrial c s ∧
      (exitTests c (evaluateTrial c s) = some o.status ∨
        (exitTests c (evaluateTrial c s) = none ∧
          ∃ f, o.status = some f ∧ updateTrial c (evaluateTrial c s) = .error f)) := by
  unfold iterate at h
  simp only at h
  split at h
  · rename_i st hx
    injection h with h
    subst h
    exact ⟨rfl, Or.inl hx⟩
  · rename_i hx
    split at h
    · rename_i f hu
      injection h with h
      subst h
      exact ⟨rfl, Or.inr ⟨hx, f, rfl, hu⟩⟩
    · exact absurd h (by simp)

/-- No exit test lets the loop go round once the counter has reached the budget. -/
theorem exitTests_none_iteration (t : SearchState) (h : exitTests c t = none) :
    t.iteration < c.cfg.maxLineSearch := by
  unfold exitTests at h
  split_ifs at h with h1 h2 h3 h4 h5 h6
  exact not_le.mp h5

/-- Invariant rule for the loop: a property of the variables kept by every pass that goes
round holds at the top of the pass that ends the call. -/
theorem searchLoop_invariant (Inv : SearchState → Prop)
    (hstep : ∀ s t1, Inv s → iterate c s = .inr t1 → Inv t1) :
    ∀ (fuel : ℕ) (s : SearchState) (o : Outcome), Inv s → searchLoop c fuel s = some o →
      ∃ s1, Inv s1 ∧ iterate c s1 = .inl o := by
  intro fuel
  induction fuel with
  | zero => intro s o _ h; exact absurd h (by simp [searchLoop])
  | succ n ih =>
    intro s o hs h
    unfold searchLoop at h
    split at h
    · rename_i o1 ho
      injection h with h
      subst h
      exact ⟨s, hs, ho⟩
    · rename_i t ht
      exact ih t o (hstep s t hs ht) h

/-- The loop ends: fuel for the iterations left in the budget, and at least one, is
enough. -/
theorem searchLoop_terminates :
    ∀ (fuel : ℕ) (s : SearchState), c.cfg.maxLineSearch - s.iteration ≤ fuel → 1 ≤ fuel →
      ∃ o, searchLoop c fuel s = some o := by
  intro fuel
  induction fuel with
  | zero => intro s _ h; exact absurd h (by decide)
  | succ n ih =>
    intro s hs _
    unfold searchLoop
    cases hi : iterate c s with
    | inl o => exact ⟨o, rfl⟩
    | inr t =>
      obtain ⟨hx, hu⟩ := iterate_inr c s t hi
      have hlt := exitTests_none_iteration c _ hx
      have hit := (updateTrial_preserves c _ _ hu).1
      rw [evaluateTrial_iteration] at hlt hit
      exact ih t (by omega) (by omega)

/-- When an exit test fires, the pass ends the call with that status at the evaluated
state. -/
theorem iterate_of_exit (s : SearchState) (st : Option Failure)
    (h : exitTests c (evaluateTrial c s) = some st) :
    iterate c s = .inl { status := st, final := evaluateTrial c s } := by
  unfold iterate
  simp only [h]

/-- The statuses the exit tests can give. -/
theorem exitTests_status (t : SearchState) (st : Option Failure)
    (h : exitTests c t = some st) :
    st = none ∨ st = some .maxStepReached ∨ st = some .minStepReached ∨
      st = some .widthTooSmall := by
  unfold exitTests at h
  split_ifs at h <;> (injection h with h; subst h; simp)

/-- The failures `updateIntervalOfUncertainty` can raise. -/
theorem updateIntervalOfUncertainty_error (sqrtf : ℚ → ℚ) (u : Uncertainty)
    (cost gradientDirection minStep maxStep : ℚ) (f : Failure)
    (h : updateIntervalOfUncertainty sqrtf u cost gradientDirection minStep maxStep =
      .error f) :
    f = .stepOutsideInterval ∨ f = .noDecreaseFromStart ∨ f = .invalidMinMax := by
  unfold updateIntervalOfUncertainty at h
  split_ifs at h <;> (injection h with h; subst h; simp)

/-- The failures the interval update of the loop body can raise. -/
theorem updateTrial_error (t : SearchState) (f : Failure) (h : updateTrial c t = .error f) :
    f = .stepOutsideInterval ∨ f = .noDecreaseFromStart ∨ f = .invalidMinMax := by
  unfold updateTrial at h
  simp only at h
  split at h
  · rename_i g hg
    injection h with h
    subst h
    split at hg
    · unfold updateModified at hg
      simp only at hg
      split at hg
      · rename_i g1 hg1
        injection hg with hg
        subst hg
        exact updateIntervalOfUncertainty_error _ _ _ _ _ _ _ hg1
      · exact absurd hg (by simp)
    · unfold updateRaw at hg
      split at hg
      · rename_i g1 hg1
        injection hg with hg
        subst hg
        exact updateIntervalOfUncertainty_error _ _ _ _ _ _ _ hg1
      · exact absurd hg (by simp)
  · exact absurd h (by simp)

/-- Every outcome of the loop is the outcome of one pass. -/
theorem searchLoop_exit (fuel : ℕ) (s : SearchState) (o : Outcome)
    (h : searchLoop c fuel s = some o) : ∃ s1, iterate c s1 = .inl o := by
  obtain ⟨s1, _, h1⟩ := searchLoop_invariant c (fun _ => True) (fun _ _ _ _ => trivial)
    fuel s o trivial h
  exact ⟨s1, h1⟩

/-- With more fuel than needed the loop gives the same outcome. -/
theorem searchLoop_fuel (fuel : ℕ) (s : SearchState) (o : Outcome)
    (h : searchLoop c fuel s = some o) : ∀ more, searchLoop c (fuel + more) s = some o := by
  induction fuel generalizing s with
  | zero => exact absurd h (by simp [searchLoop])
  | succ n ih =>
    intro more
    rw [Nat.add_right_comm]
    rw [searchLoop] at h ⊢
    cases hi : iterate c s with
    | inl o1 =>
      rw [hi] at h
      exact h
    | inr t =>
      rw [hi] at h
      exact ih t h more

end loop

section call

variable (cfg : Config) (sqrtf : ℚ → ℚ) (costFunction : List ℚ → ℚ × List ℚ)
  (inputs : List ℚ) (cost : ℚ) (gradient direction : List ℚ) (step : ℚ)
  (previousInputs previousGradients : List ℚ)

/-- The two ways a call can end: at the descent test, or in the loop. -/
theorem search_cases (fuel : ℕ) (o : Outcome)
    (h : search cfg sqrtf costFunction inputs cost gradient direction step previousInputs
      previousGradients fuel = some o) :
    (0 < dotProduct gradient direction ∧
        o = { status := some .notDescentDirection,
              final := initialState cfg inputs cost gradient direction step }) ∨
      (¬ 0 < dotProduct gradient direction ∧
        searchLoop (mkCall cfg sqrtf costFunction cost gradient direction previousInputs) fuel
          (initialState cfg inputs cost gradient direction step) = some o) := by
  unfold search at h
  simp only [gt_iff_lt] at h
  split_ifs at h with hd
  · left
    injection h with h
    exact ⟨hd, h.symm⟩
  · right
    exact ⟨hd, h⟩

/-- Every call ends, given fuel for the iteration budget (and at least one unit). -/
theorem search_terminates (fuel : ℕ) (hfuel : cfg.maxLineSearch ≤ fuel) (hone : 1 ≤ fuel) :
    ∃ o, search cfg sqrtf costFunction inputs cost gradient direction step previousInputs
      previousGradients fuel = some o := by
  unfold search
  simp only [gt_iff_lt]
  split_ifs with hd
  · exact ⟨_, rfl⟩
  · apply searchLoop_terminates
    · simp only [mkCall, initialState]
      omega
    · exact hone

end call

/-! ## The contract of `search` -/

/-- A normal return after fewer evaluations than the budget comes from the test for
rounding errors or from the test of the two Wolfe conditions: without a collapse of the
trial against the bracket, both conditions hold at the returned trial. -/
theorem normal_return_wolfe_or_collapse (c : Call) (s : SearchState)
    (hdescent : c.initialGradientDirection ≤ 0)
    (hexit : exitTests c (evaluateTrial c s) = some none)
    (hbudget : (evaluateTrial c s).iteration < c.cfg.maxLineSearch)
    (hround : ¬ roundingCollapse (evaluateTrial c s)) :
    strongWolfe c.cfg c.initialCost c.initialGradientDirection (evaluateTrial c s) := by
  have htest : (evaluateTrial c s).testCost =
      c.initialCost + (evaluateTrial c s).step * c.gradientDirectionTest := rfl
  generalize evaluateTrial c s = t at *
  unfold exitTests at hexit
  unfold roundingCollapse at hround
  split_ifs at hexit
  all_goals first
    | (simp at hexit; done)
    | exact absurd ‹t.iteration ≥ c.cfg.maxLineSearch› (not_le.mpr hbudget)
    | skip
  obtain ⟨hcost, hgrad⟩ :=
    ‹t.cost ≤ t.testCost ∧
      |t.gradientDirection| ≤ c.cfg.gTolerance * -c.initialGradientDirection›
  refine ⟨?_, ?_⟩
  · unfold sufficientDecrease
    rw [htest, Call.gradientDirectionTest] at hcost
    linarith
  · unfold curvature
    rw [abs_of_nonpos hdescent]
    exact hgrad

/-- C1 (evaluated on the code): with the default configuration, the oracle `kinked`, start
`0` with cost `0` and slope `-6`, direction `+1` and initial step `1`, `search` returns
normally after 3 of its 10 evaluations at the step `1/4`, where the curvature condition
fails (`11/2 > 0.9·6`): the return comes from the test for rounding errors. -/
theorem search_returns_early_without_wolfe :
    dotProduct [-6] [1] < 0 ∧
    ∃ o ∈ search defaultConfig sqrtExact kinked [0] 0 [-6] [1] 1 [0] [] 10,
      o.status = none ∧ o.final.evals = [1, 1 / 4, 1 / 4] ∧
      o.final.evals.length < defaultConfig.maxLineSearch ∧
      ¬ strongWolfe defaultConfig 0 (dotProduct [-6] [1]) o.final := by
  decide!

/-- C2 (as stated, refuted): on `φ(a) = (a-3)²` from `0` along `+1` with starting step `1`
and the default configuration, `search` returns the starting step `1` itself, which is
nearer to the start `0` than to the minimizer `3`. -/
theorem search_parabola_not_near_three :
    ∃ o ∈ search defaultConfig sqrtExact parabola [0] 9 [-6] [1] 1 [0] [] 10,
      o.status = none ∧ o.final.step = 1 ∧ |o.final.step - 0| < |o.final.step - 3| := by
  decide!

/-- C2 (amended): on `φ(a) = (a-3)²` from `0` along `+1` with starting step `1` and the
default configuration, for every square-root routine and any fuel, `search` returns
without raising after exactly one oracle evaluation (at most the 10 allowed), the returned
step is `1` with cost `4`, and both Wolfe conditions hold there. -/
theorem search_parabola_returns_first_trial (sqrtf : ℚ → ℚ) (fuel : ℕ) :
    ∃ o ∈ search defaultConfig sqrtf parabola [0] 9 [-6] [1] 1 [0] [] (fuel + 1),
      o.status = none ∧ o.final.evals = [1] ∧
      o.final.evals.length ≤ defaultConfig.maxLineSearch ∧
      o.final.step = 1 ∧ o.final.inputs = [1] ∧ o.final.cost = 4 ∧
      strongWolfe defaultConfig 9 (-6) o.final ∧ |o.final.step - 3| = 2 := by
  have hexit : exitTests (mkCall defaultConfig sqrtExact parabola 9 [-6] [1] [0])
      (evaluateTrial (mkCall defaultConfig sqrtExact parabola 9 [-6] [1] [0])
        (initialState defaultConfig [0] 9 [-6] [1] 1)) = some none := by decide!
  have hiter := iterate_of_exit (mkCall defaultConfig sqrtf parabola 9 [-6] [1] [0])
    (initialState defaultConfig [0] 9 [-6] [1] 1) none hexit
  have hdot : ¬ dotProduct [-6] [1] > (0 : ℚ) := by decide!
  have hrun : search defaultConfig sqrtf parabola [0] 9 [-6] [1] 1 [0] [] (fuel + 1) =
      some { status := none,
             final := evaluateTrial (mkCall defaultConfig sqrtExact parabola 9 [-6] [1] [0])
               (initialState defaultConfig [0] 9 [-6] [1] 1) } := by
    unfold search
    simp only [hdot, if_false]
    rw [searchLoop, hiter]
    rfl
  exact ⟨_, hrun, by decide!⟩

/-- C3: when the initial directional derivative `gradient·direction` is strictly positive,
`search` raises the non-descent failure before the loop: no oracle evaluation, no
iteration, and `inputs`, `cost` and `gradient` are as the caller passed them. -/
theorem search_ascent_fails_before_loop (cfg : Config) (sqrtf : ℚ → ℚ)
    (costFunction : List ℚ → ℚ × List ℚ) (inputs : List ℚ) (cost : ℚ)
    (gradient direction : List ℚ) (step : ℚ) (previousInputs previousGradients : List ℚ)
    (fuel : ℕ) (hascent : 0 < dotProduct gradient direction) :
    ∃ o ∈ search cfg sqrtf costFunction inputs cost gradient direction step previousInputs
        previousGradients fuel,
      o.status = some .notDescentDirection ∧ o.final.evals = [] ∧ o.final.iteration = 0 ∧
      o.final.inputs = inputs ∧ o.final.cost = cost ∧ o.final.gradient = gradient := by
  refine ⟨{ status := some .notDescentDirection,
            final := initialState cfg inputs cost gradient direction step }, ?_, ?_⟩
  · show search cfg sqrtf costFunction inputs cost gradient direction step previousInputs
      previousGradients fuel = some _
    unfold search
    simp only [gt_iff_lt, hascent, if_true]
  · exact ⟨rfl, rfl, rfl, rfl, rfl, rfl⟩

/-- Witness of C3: the parabola searched from `0` along `-1`, an ascent direction. -/
theorem search_ascent_fails_before_loop_witness :
    0 < dotProduct [-6] [-1] ∧
    ∃ o ∈ search defaultConfig sqrtExact parabola [0] 9 [-6] [-1] 1 [0] [] 10,
      o.status = some .notDescentDirection ∧ o.final.evals = [] ∧ o.final.iteration = 0 ∧
      o.final.inputs = [0] ∧ o.final.cost = 9 ∧ o.final.gradient = [-6] :=
  ⟨by decide!,
    search_ascent_fails_before_loop defaultConfig sqrtExact parabola [0] 9 [-6] [-1] 1 [0] []
      10 (by decide!)⟩

/-- C4 (as stated, refuted): with a directional derivative of exactly `0` (the constant
cost `flat`, gradient `0`), `search` does not fail fast: it enters the loop, evaluates the
oracle at the step `1` and returns normally. -/
theorem search_zero_derivative_enters_loop :
    dotProduct [0] [1] = 0 ∧
    ∃ o ∈ search defaultConfig sqrtExact flat [0] 5 [0] [1] 1 [0] [] 10,
      o.status = none ∧ o.final.evals = [1] := by
  decide!

/-- C4 (amended): `search` raises the non-descent failure, without evaluating the oracle,
exactly when `gradient·direction` is strictly positive; when it is `≤ 0`, exactly `0`
included, the loop is entered, the oracle is evaluated at least once and the non-descent
failure is not raised. -/
theorem search_fails_fast_iff_positive (cfg : Config) (sqrtf : ℚ → ℚ)
    (costFunction : List ℚ → ℚ × List ℚ) (inputs : List ℚ) (cost : ℚ)
    (gradient direction : List ℚ) (step : ℚ) (previousInputs previousGradients : List ℚ)
    (fuel : ℕ) (hfuel : cfg.maxLineSearch ≤ fuel) (hone : 1 ≤ fuel) :
    ∃ o ∈ search cfg sqrtf costFunction inputs cost gradient direction step previousInputs
        previousGradients fuel,
      (o.status = some .notDescentDirection ↔ 0 < dotProduct gradient direction) ∧
      (0 < dotProduct gradient direction → o.final.evals = []) ∧
      (dotProduct gradient direction ≤ 0 → o.final.evals ≠ []) := by
  obtain ⟨o, ho⟩ := search_terminates cfg sqrtf costFunction inputs cost gradient direction
    step previousInputs previousGradients fuel hfuel hone
  refine ⟨o, ho, ?_⟩
  rcases search_cases _ _ _ _ _ _ _ _ _ _ _ _ ho with ⟨hd, rfl⟩ | ⟨hd, hloop⟩
  · refine ⟨⟨fun _ => hd, fun _ => rfl⟩, fun _ => rfl, fun hle => absurd hd (not_lt.mpr hle)⟩
  · obtain ⟨s1, h1⟩ := searchLoop_exit _ _ _ _ hloop
    obtain ⟨hfinal, hstatus⟩ := iterate_inl _ _ _ h1
    have hne : o.final.evals ≠ [] := by
      rw [hfinal, evaluateTrial_evals]
      simp
    have hnot : o.status ≠ some .notDescentDirection := by
      rcases hstatus with hx | ⟨_, f, hf, hu⟩
      · rcases exitTests_status _ _ _ hx with h | h | h | h <;> rw [h] <;> simp
      · rw [hf]
        rcases updateTrial_error _ _ _ hu with h | h | h <;> rw [h] <;> simp
    exact ⟨⟨fun h => absurd h hnot, fun h => absurd h hd⟩, fun h => absurd h hd, fun _ => hne⟩

/-- Witness of the amended C4: the constant cost, default configuration, fuel `10`. -/
theorem search_fails_fast_iff_positive_witness :
    defaultConfig.maxLineSearch ≤ 10 ∧ 1 ≤ 10 ∧
    ∃ o ∈ search defaultConfig sqrtExact flat [0] 5 [0] [1] 1 [0] [] 10,
      (o.status = some .notDescentDirection ↔ 0 < dotProduct [0] [1]) ∧
      (0 < dotProduct [0] [1] → o.final.evals = []) ∧
      (dotProduct [0] [1] ≤ 0 → o.final.evals ≠ []) :=
  ⟨by decide, by decide,
    search_fails_fast_iff_positive defaultConfig sqrtExact flat [0] 5 [0] [1] 1 [0] [] 10
      (by decide) (by decide)⟩

/-- C5: with an iteration budget `N ≥ 1`, every call of `search` ends (fuel `N` is
enough), the number of oracle evaluations equals the number of passes through the loop
body (the counter `iteration`), and it is at most `N`, whatever the way the call ends. -/
theorem search_evaluates_once_per_iteration (cfg : Config) (sqrtf : ℚ → ℚ)
    (costFunction : List ℚ → ℚ × List ℚ) (inputs : List ℚ) (cost : ℚ)
    (gradient direction : List ℚ) (step : ℚ) (previousInputs previousGradients : List ℚ)
    (fuel : ℕ) (hbudget : 1 ≤ cfg.maxLineSearch) (hfuel : cfg.maxLineSearch ≤ fuel) :
    ∃ o ∈ search cfg sqrtf costFunction inputs cost gradient direction step previousInputs
        previousGradients fuel,
      o.final.evals.length = o.final.iteration ∧
      o.final.iteration ≤ cfg.maxLineSearch := by
  obtain ⟨o, ho⟩ := search_terminates cfg sqrtf costFunction inputs cost gradient direction
    step previousInputs previousGradients fuel hfuel (le_trans hbudget hfuel)
  refine ⟨o, ho, ?_⟩
  rcases search_cases _ _ _ _ _ _ _ _ _ _ _ _ ho with ⟨_, rfl⟩ | ⟨_, hloop⟩
  · exact ⟨rfl, Nat.zero_le _⟩
  · obtain ⟨s1, ⟨hlen, hlt⟩, h1⟩ := searchLoop_invariant _
      (fun s => s.evals.length = s.iteration ∧ s.iteration < cfg.maxLineSearch)
      (by
        intro s t1 ⟨hlen, _⟩ hi
        obtain ⟨hx, hu⟩ := iterate_inr _ _ _ hi
        have hlt := exitTests_none_iteration _ _ hx
        obtain ⟨hit, hev, _⟩ := updateTrial_preserves _ _ _ hu
        rw [hit, hev, evaluateTrial_evals]
        refine ⟨?_, hlt⟩
        rw [evaluateTrial_iteration]
        simp [hlen])
      fuel (initialState cfg inputs cost gradient direction step) o ⟨rfl, hbudget⟩ hloop
    obtain ⟨hfinal, _⟩ := iterate_inl _ _ _ h1
    rw [hfinal, evaluateTrial_evals, evaluateTrial_iteration]
    refine ⟨by simp [hlen], ?_⟩
    exact hlt

/-- Witness of C5: the oracle `kinked` under the default configuration. -/
theorem search_evaluates_once_per_iteration_witness :
    1 ≤ defaultConfig.maxLineSearch ∧ defaultConfig.maxLineSearch ≤ 10 ∧
    ∃ o ∈ search defaultConfig sqrtExact kinked [0] 0 [-6] [1] 1 [0] [] 10,
      o.final.evals.length = o.final.iteration ∧
      o.final.iteration ≤ defaultConfig.maxLineSearch :=
  ⟨by decide, by decide,
    search_evaluates_once_per_iteration defaultConfig sqrtExact kinked [0] 0 [-6] [1] 1 [0] []
      10 (by decide) (by decide)⟩

/-- C6: a call that has reached the iteration budget on a pass where none of the failure
tests fires returns normally; and on every normal return the outputs are the last
evaluated point: `inputs = previousInputs + α·direction` for the last step `α` of the
trace, `cost` and `gradient` the values of the oracle at `inputs`. -/
theorem search_budget_exhaustion_returns_last_point (cfg : Config) (sqrtf : ℚ → ℚ)
    (costFunction : List ℚ → ℚ × List ℚ) (inputs : List ℚ) (cost : ℚ)
    (gradient direction : List ℚ) (step : ℚ) (previousInputs previousGradients : List ℚ)
    (fuel : ℕ) (hfuel : cfg.maxLineSearch ≤ fuel) (hone : 1 ≤ fuel) :
    ∃ o ∈ search cfg sqrtf costFunction inputs cost gradient direction step previousInputs
        previousGradients fuel,
      (0 < o.final.iteration → cfg.maxLineSearch ≤ o.final.iteration →
        o.status ≠ some .maxStepReached → o.status ≠ some .minStepReached →
        o.status ≠ some .widthTooSmall → o.status = none) ∧
      (o.status = none →
        ∃ α, o.final.evals.getLast? = some α ∧ o.final.step = α ∧
          o.final.inputs = add previousInputs (multiply direction α) ∧
          o.final.cost = (costFunction o.final.inputs).1 ∧
          o.final.gradient = (costFunction o.final.inputs).2) := by
  obtain ⟨o, ho⟩ := search_terminates cfg sqrtf costFunction inputs cost gradient direction
    step previousInputs previousGradients fuel hfuel hone
  refine ⟨o, ho, ?_⟩
  rcases search_cases _ _ _ _ _ _ _ _ _ _ _ _ ho with ⟨_, rfl⟩ | ⟨_, hloop⟩
  · refine ⟨fun h => absurd h (by simp [initialState]), fun h => absurd h (by simp)⟩
  · obtain ⟨s1, h1⟩ := searchLoop_exit _ _ _ _ hloop
    obtain ⟨hfinal, hstatus⟩ := iterate_inl _ _ _ h1
    constructor
    · intro _ hreach hmax hmin hwidth
      rcases hstatus with hx | ⟨hx, _⟩
      · rcases exitTests_status _ _ _ hx with h | h | h | h
        · exact h
        · exact absurd h hmax
        · exact absurd h hmin
        · exact absurd h hwidth
      · have hlt := exitTests_none_iteration _ _ hx
        rw [hfinal] at hreach
        exact absurd hreach (not_le.mpr hlt)
    · intro _
      refine ⟨o.final.step, ?_, rfl, ?_, ?_, ?_⟩
      · rw [hfinal, evaluateTrial_evals]
        simp
      · rw [hfinal]
        rfl
      · rw [hfinal]
        rfl
      · rw [hfinal]
        rfl

/-- Witness of C6: the parabola with a budget of two iterations and a first step of `10`;
the second pass exhausts the budget. -/
theorem search_budget_exhaustion_returns_last_point_witness :
    (2 : ℕ) ≤ 2 ∧ 1 ≤ 2 ∧
    ∃ o ∈ search { defaultConfig with maxLineSearch := 2 } sqrtExact parabola
        [0] 9 [-6] [1] 10 [0] [] 2,
      (0 < o.final.iteration → 2 ≤ o.final.iteration →
        o.status ≠ some .maxStepReached → o.status ≠ some .minStepReached →
        o.status ≠ some .widthTooSmall → o.status = none) ∧
      (o.status = none →
        ∃ α, o.final.evals.getLast? = some α ∧ o.final.step = α ∧
          o.final.inputs = add [0] (multiply [1] α) ∧
          o.final.cost = (parabola o.final.inputs).1 ∧
          o.final.gradient = (parabola o.final.inputs).2) :=
  ⟨by decide, by decide,
    search_budget_exhaustion_returns_last_point { defaultConfig with maxLineSearch := 2 }
      sqrtExact parabola [0] 9 [-6] [1] 10 [0] [] 2 (by decide) (by decide)⟩

/-! ## The failure tests -/

/-- The test for rounding errors ends the call by a normal return, for every state. -/
theorem rounding_test_returns (c : Call) (t : SearchState) (h : roundingCollapse t) :
    exitTests c t = some none := by
  unfold roundingCollapse at h
  unfold exitTests
  rw [if_pos h]

/-- In a bracketed pass whose trial was replaced by the best step, the trial sits on an
end of the bracket. -/
theorem bestStep_is_bracket_end (c : Call) (s : SearchState) (hbracket : s.bracket = true)
    (hstep : (evaluateTrial c s).step = s.bestStep) : roundingCollapse (evaluateTrial c s) := by
  refine ⟨hbracket, ?_⟩
  rw [hstep]
  have hmin : (evaluateTrial c s).minStep = min s.bestStep s.intervalEndStep := by
    simp [evaluateTrial, hbracket]
  have hmax : (evaluateTrial c s).maxStep = max s.bestStep s.intervalEndStep := by
    simp [evaluateTrial, hbracket]
  rw [hmin, hmax]
  rcases le_total s.bestStep s.intervalEndStep with h | h
  · left
    rw [min_eq_left h]
  · right
    rw [max_eq_left h]

/-- C7 (evaluated on the code): with the default configuration, the oracle `kinked`, start
`0` with cost `0` and slope `-6`, direction `+1` and initial step `1`, the third pass has
the minimizer bracketed and the trial on the lower end of the bracket (`step ≤ minStep`),
and `search` returns normally: no rounding-error failure is raised. -/
theorem search_rounding_collapse_returns_normally :
    ∃ o ∈ search defaultConfig sqrtExact kinked [0] 0 [-6] [1] 1 [0] [] 10,
      o.final.bracket = true ∧ o.final.step ≤ o.final.minStep ∧ roundingCollapse o.final ∧
      o.final.iteration = 3 ∧ o.status = none ∧ o.status ≠ some .roundingError := by
  decide!

/-- C8 (as stated, refuted): on the parabola with first step `10` and machine precision
`1`, the second pass has the minimizer bracketed with a bracket width `≤` the tolerance
times `maxStep`, and the call does not end by the "interval of uncertainty is too small"
failure. -/
theorem search_narrow_bracket_no_width_failure :
    ∃ o ∈ search { defaultConfig with xTolerance := 1 } sqrtExact parabola
        [0] 9 [-6] [1] 10 [0] [] 10,
      o.final.bracket = true ∧
      o.final.maxStep - o.final.minStep ≤ 1 * o.final.maxStep ∧
      o.status ≠ some .widthTooSmall := by
  decide!

/-- In a pass entered with the minimizer bracketed and a bracket no wider than the
tolerance times its upper end, the trial is replaced by the best step and sits on an end
of the bracket. -/
theorem narrow_bracket_trial (c : Call) (s : SearchState) (hbracket : s.bracket = true)
    (hwidth : max s.bestStep s.intervalEndStep - min s.bestStep s.intervalEndStep ≤
      c.cfg.xTolerance * max s.bestStep s.intervalEndStep) :
    (evaluateTrial c s).step = s.bestStep ∧ roundingCollapse (evaluateTrial c s) := by
  have hstep : (evaluateTrial c s).step = s.bestStep := by
    simp [evaluateTrial, wouldTerminate, hbracket, hwidth]
  exact ⟨hstep, bestStep_is_bracket_end c s hbracket hstep⟩

/-- C8 (amended): in a pass entered with the minimizer bracketed and a bracket width
(`maxStep - minStep`, the ends of the bracket) `≤ MachinePrecision·maxStep`, the trial
step is replaced by the best step, which is an end of the bracket, so the condition of the
test for rounding errors holds at the trial and the call ends on that pass, at that
earlier test: the "interval of uncertainty is too small" failure is not raised. -/
theorem narrow_bracket_ends_at_rounding_test (c : Call) (s : SearchState)
    (hbracket : s.bracket = true)
    (hwidth : max s.bestStep s.intervalEndStep - min s.bestStep s.intervalEndStep ≤
      c.cfg.xTolerance * max s.bestStep s.intervalEndStep) :
    (evaluateTrial c s).step = s.bestStep ∧ roundingCollapse (evaluateTrial c s) ∧
      ∃ o, iterate c s = .inl o ∧ o.final = evaluateTrial c s ∧
        o.status ≠ some .widthTooSmall := by
  obtain ⟨hstep, hround⟩ := narrow_bracket_trial c s hbracket hwidth
  have hexit := rounding_test_returns c _ hround
  exact ⟨hstep, hround, _, iterate_of_exit c s none hexit, rfl, by simp⟩

/-- Witness of the amended C8: the parabola call with machine precision `1`, at the top of
a pass with the bracket `[0, 10]`. -/
theorem narrow_bracket_ends_at_rounding_test_witness :
    coarseState.bracket = true ∧
    max coarseState.bestStep coarseState.intervalEndStep -
        min coarseState.bestStep coarseState.intervalEndStep ≤
      coarseCall.cfg.xTolerance * max coarseState.bestStep coarseState.intervalEndStep ∧
    (evaluateTrial coarseCall coarseState).step = coarseState.bestStep ∧
    roundingCollapse (evaluateTrial coarseCall coarseState) ∧
    ∃ o, iterate coarseCall coarseState = .inl o ∧
      o.final = evaluateTrial coarseCall coarseState ∧ o.status ≠ some .widthTooSmall :=
  ⟨rfl, by decide!, narrow_bracket_ends_at_rounding_test coarseCall coarseState rfl
    (by decide!)⟩

/-- No call of `search` ends by the "interval of uncertainty is too small" failure or by
the rounding-error failure. -/
theorem search_never_width_or_rounding_failure (cfg : Config) (sqrtf : ℚ → ℚ)
    (costFunction : List ℚ → ℚ × List ℚ) (inputs : List ℚ) (cost : ℚ)
    (gradient direction : List ℚ) (step : ℚ) (previousInputs previousGradients : List ℚ)
    (fuel : ℕ) (o : Outcome)
    (ho : search cfg sqrtf costFunction inputs cost gradient direction step previousInputs
      previousGradients fuel = some o) :
    o.status ≠ some .widthTooSmall ∧ o.status ≠ some .roundingError := by
  rcases search_cases _ _ _ _ _ _ _ _ _ _ _ _ ho with ⟨_, rfl⟩ | ⟨_, hloop⟩
  · simp
  · obtain ⟨s1, h1⟩ := searchLoop_exit _ _ _ _ hloop
    obtain ⟨_, hstatus⟩ := iterate_inl _ _ _ h1
    rcases hstatus with hx | ⟨_, f, hf, hu⟩
    · constructor
      · intro hw
        rw [hw] at hx
        generalize hc : mkCall cfg sqrtf costFunction cost gradient direction previousInputs
          = c at hx
        have hbr : (evaluateTrial c s1).bracket = true ∧
            (evaluateTrial c s1).maxStep - (evaluateTrial c s1).minStep ≤
              c.cfg.xTolerance * (evaluateTrial c s1).maxStep := by
          unfold exitTests at hx
          split_ifs at hx
          all_goals first
            | (simp at hx; done)
            | assumption
        have hb : s1.bracket = true := hbr.1
        have hw2 : max s1.bestStep s1.intervalEndStep - min s1.bestStep s1.intervalEndStep ≤
            c.cfg.xTolerance * max s1.bestStep s1.intervalEndStep := by
          have := hbr.2
          simpa [evaluateTrial, hb] using this
        have := (narrow_bracket_trial c s1 hb hw2).2
        rw [rounding_test_returns c _ this] at hx
        exact absurd hx (by simp)
      · rcases exitTests_status _ _ _ hx with h | h | h | h <;> rw [h] <;> simp
    · rw [hf]
      rcases updateTrial_error _ _ _ hu with h | h | h <;> rw [h] <;> simp

/-- At an evaluated trial, `cost <= testCost` is the sufficient-decrease condition. -/
theorem evaluateTrial_sufficientDecrease (c : Call) (s : SearchState) :
    (evaluateTrial c s).cost ≤ (evaluateTrial c s).testCost ↔
      sufficientDecrease c.cfg c.initialCost c.initialGradientDirection
        (evaluateTrial c s).step (evaluateTrial c s).cost := by
  have htest : (evaluateTrial c s).testCost =
      c.initialCost + (evaluateTrial c s).step * c.gradientDirectionTest := rfl
  rw [htest, Call.gradientDirectionTest, sufficientDecrease]
  constructor <;> intro h <;> linarith

/-- C9 (as stated, refuted): on the parabola with the maximum step set to the starting
step `1`, the first trial is at the maximum step, no rounding collapse is detected, both
strong Wolfe conditions hold at the trial, and `search` raises the maximum-step
failure. -/
theorem search_max_step_failure_with_wolfe :
    ∃ o ∈ search { defaultConfig with maxStep := 1 } sqrtExact parabola
        [0] 9 [-6] [1] 1 [0] [] 10,
      o.final.step = 1 ∧ ¬ roundingCollapse o.final ∧
      strongWolfe { defaultConfig with maxStep := 1 } 9 (-6) o.final ∧
      o.status = some .maxStepReached := by
  decide!

/-- C9 (amended): at an evaluated trial with no rounding collapse detected, `search` raises
the maximum-step failure if and only if the step equals `MaximumStep`, sufficient decrease
holds and the directional derivative is `≤ c1·(g·d)`; it raises the minimum-step failure if
and only if the maximum-step failure is not raised, the step equals `MinimumStep`, and
sufficient decrease fails or the directional derivative is `≥ c1·(g·d)`.  Neither test
looks at the curvature condition. -/
theorem step_bound_failure_iff (c : Call) (s : SearchState)
    (hround : ¬ roundingCollapse (evaluateTrial c s)) :
    (exitTests c (evaluateTrial c s) = some (some .maxStepReached) ↔
      (evaluateTrial c s).step = c.cfg.maxStep ∧
      sufficientDecrease c.cfg c.initialCost c.initialGradientDirection
        (evaluateTrial c s).step (evaluateTrial c s).cost ∧
      (evaluateTrial c s).gradientDirection ≤
        c.initialGradientDirection * c.cfg.fTolerance) ∧
    (exitTests c (evaluateTrial c s) = some (some .minStepReached) ↔
      exitTests c (evaluateTrial c s) ≠ some (some .maxStepReached) ∧
      (evaluateTrial c s).step = c.cfg.minStep ∧
      (¬ sufficientDecrease c.cfg c.initialCost c.initialGradientDirection
          (evaluateTrial c s).step (evaluateTrial c s).cost ∨
        c.initialGradientDirection * c.cfg.fTolerance ≤
          (evaluateTrial c s).gradientDirection)) := by
  have hsd := evaluateTrial_sufficientDecrease c s
  rw [← hsd]
  simp only [not_le]
  generalize evaluateTrial c s = t at *
  unfold roundingCollapse at hround
  unfold exitTests
  rw [if_neg hround]
  unfold Call.gradientDirectionTest
  by_cases hmax : t.step = c.cfg.maxStep ∧ t.cost ≤ t.testCost ∧
      t.gradientDirection ≤ c.initialGradientDirection * c.cfg.fTolerance
  · rw [if_pos hmax]
    simp [hmax]
  · rw [if_neg hmax]
    by_cases hmin : t.step = c.cfg.minStep ∧
        (t.testCost < t.cost ∨ c.initialGradientDirection * c.cfg.fTolerance ≤
          t.gradientDirection)
    · rw [if_pos hmin]
      refine ⟨⟨fun h => absurd h (by simp), fun h => absurd h hmax⟩,
        ⟨fun _ => ⟨by simp, hmin⟩, fun _ => rfl⟩⟩
    · rw [if_neg hmin]
      refine ⟨⟨fun h => ?_, fun h => absurd h hmax⟩, ⟨fun h => ?_, fun h => absurd h.2 hmin⟩⟩
      · split_ifs at h <;> simp at h
      · split_ifs at h <;> simp at h

/-- Witness of the amended C9: the first pass of the parabola call with the maximum step
`1`, where no rounding collapse is detected. -/
theorem step_bound_failure_iff_witness :
    ¬ roundingCollapse (evaluateTrial cappedCall cappedState) ∧
    (exitTests cappedCall (evaluateTrial cappedCall cappedState) =
        some (some .maxStepReached) ↔
      (evaluateTrial cappedCall cappedState).step = cappedCall.cfg.maxStep ∧
      sufficientDecrease cappedCall.cfg cappedCall.initialCost
        cappedCall.initialGradientDirection
        (evaluateTrial cappedCall cappedState).step
        (evaluateTrial cappedCall cappedState).cost ∧
      (evaluateTrial cappedCall cappedState).gradientDirection ≤
        cappedCall.initialGradientDirection * cappedCall.cfg.fTolerance) ∧
    (exitTests cappedCall (evaluateTrial cappedCall cappedState) =
        some (some .minStepReached) ↔
      exitTests cappedCall (evaluateTrial cappedCall cappedState) ≠
        some (some .maxStepReached) ∧
      (evaluateTrial cappedCall cappedState).step = cappedCall.cfg.minStep ∧
      (¬ sufficientDecrease cappedCall.cfg cappedCall.initialCost
          cappedCall.initialGradientDirection
          (evaluateTrial cappedCall cappedState).step
          (evaluateTrial cappedCall cappedState).cost ∨
        cappedCall.initialGradientDirection * cappedCall.cfg.fTolerance ≤
          (evaluateTrial cappedCall cappedState).gradientDirection)) :=
  ⟨by decide!, step_bound_failure_iff cappedCall cappedState (by decide!)⟩

/-! ## The steps at which the oracle is evaluated -/

/-- The step a pass evaluates is the best step, or the clamped trial, which is within the
configured bounds when these are ordered. -/
theorem evaluateTrial_step (c : Call) (s : SearchState)
    (hcfg : c.cfg.minStep ≤ c.cfg.maxStep) :
    (evaluateTrial c s).step = s.bestStep ∨ withinBounds c.cfg (evaluateTrial c s).step := by
  have hstep : (evaluateTrial c s).step =
      if wouldTerminate c s
          (if c.cfg.maxStep < (if s.step < c.cfg.minStep then c.cfg.minStep else s.step)
            then c.cfg.maxStep else (if s.step < c.cfg.minStep then c.cfg.minStep else s.step))
          (if s.bracket then min s.bestStep s.intervalEndStep else s.bestStep)
          (if s.bracket then max s.bestStep s.intervalEndStep
            else s.step + 4 * (s.step - s.bestStep))
      then s.bestStep
      else (if c.cfg.maxStep < (if s.step < c.cfg.minStep then c.cfg.minStep else s.step)
        then c.cfg.maxStep else (if s.step < c.cfg.minStep then c.cfg.minStep else s.step)) :=
    rfl
  rw [hstep]
  unfold withinBounds
  split_ifs with h1 h2 h3 h4 h5
  all_goals first
    | (left; rfl)
    | (right; constructor <;> linarith)

/-- C11 (as stated, refuted): with every tolerance (FunctionAccuracy, GradientAccuracy and
MachinePrecision) equal to `0`, hence non-positive, and the default steps, the constructor
does not raise. -/
theorem constructor_accepts_zero_tolerances :
    ({ defaultConfig with fTolerance := 0, gTolerance := 0, xTolerance := 0 } : Config).fTolerance
      ≤ 0 ∧
    ¬ raises (MoreThuenteLineSearch
      { defaultConfig with fTolerance := 0, gTolerance := 0, xTolerance := 0 }) := by
  decide!

/-- C11 (amended): the constructor raises a configuration error if and only if a tolerance
(FunctionAccuracy, GradientAccuracy or MachinePrecision) is negative, MinimumStep is
negative, or MaximumStep is less than MinimumStep, a tolerance of exactly `0` being
accepted; when it does not raise it keeps the knob values; and with the defaults it does
not raise. -/
theorem constructor_raises_iff (knobs : Config) :
    (raises (MoreThuenteLineSearch knobs) ↔
      knobs.fTolerance < 0 ∨ knobs.gTolerance < 0 ∨ knobs.xTolerance < 0 ∨
        knobs.minStep < 0 ∨ knobs.maxStep < knobs.minStep) ∧
    (¬ raises (MoreThuenteLineSearch knobs) → MoreThuenteLineSearch knobs = .ok knobs) ∧
    ¬ raises (MoreThuenteLineSearch defaultConfig) := by
  refine ⟨?_, ?_, by decide!⟩
  · unfold MoreThuenteLineSearch raises
    split_ifs with h1 h2 h3 h4 h5 <;> simp [*]
  · unfold MoreThuenteLineSearch raises
    split_ifs with h1 h2 h3 h4 h5 <;> simp

/-! ## The interpolation helpers on polynomials -/

section interpolation

/-- The hand-written value, derivative and second derivative of a cubic are those of the
polynomial `c3 X³ + c2 X² + c1 X + c0`. -/
theorem cubic_eq_eval (c3 c2 c1 c0 x : ℚ) :
    cubic c3 c2 c1 c0 x =
        (Polynomial.C c3 * Polynomial.X ^ 3 + Polynomial.C c2 * Polynomial.X ^ 2 +
          Polynomial.C c1 * Polynomial.X + Polynomial.C c0).eval x ∧
      cubicDerivative c3 c2 c1 x =
        (Polynomial.derivative
          (Polynomial.C c3 * Polynomial.X ^ 3 + Polynomial.C c2 * Polynomial.X ^ 2 +
            Polynomial.C c1 * Polynomial.X + Polynomial.C c0)).eval x ∧
      cubicSecondDerivative c3 c2 x =
        (Polynomial.derivative (Polynomial.derivative
          (Polynomial.C c3 * Polynomial.X ^ 3 + Polynomial.C c2 * Polynomial.X ^ 2 +
            Polynomial.C c1 * Polynomial.X + Polynomial.C c0))).eval x := by
  refine ⟨?_, ?_, ?_⟩
  · simp [cubic]
  · simp [cubicDerivative]
    ring
  · simp [cubicSecondDerivative]
    ring

/-- The five-argument `findQuadraticMinimizer` on the samples of the quadratic
`a x² + b x + c`: the step from `u` is the step to the stationary point `-b / (2a)` divided
by `(v - u)²`. -/
theorem findQuadraticMinimizer_quadratic (a b c u v : ℚ) (ha : a ≠ 0) (huv : u ≠ v) :
    findQuadraticMinimizer u (cubic 0 a b c u) (cubicDerivative 0 a b u) v (cubic 0 a b c v) =
      u + (-b / (2 * a) - u) / (v - u) ^ 2 := by
  have hd : v - u ≠ 0 := sub_ne_zero.mpr (Ne.symm huv)
  unfold findQuadraticMinimizer cubic cubicDerivative
  simp only
  have h1 : (0 * u ^ 3 + a * u ^ 2 + b * u + c - (0 * v ^ 3 + a * v ^ 2 + b * v + c)) / (v - u) +
      (3 * 0 * u ^ 2 + 2 * a * u + b) = -(a * (v - u)) := by
    field_simp
    ring
  rw [h1]
  field_simp
  ring

end interpolation

section exactRoot

/-- The integer square root found by `Nat.findGreatest` is exact on squares. -/
theorem findGreatest_mul_self (n : ℕ) :
    Nat.findGreatest (fun k => k * k ≤ n * n) (n * n) = n := by
  rw [Nat.findGreatest_eq_iff]
  refine ⟨Nat.le_mul_self n, fun _ => le_refl _, ?_⟩
  intro k hk _ hle
  exact absurd (Nat.mul_self_le_mul_self_iff.mp hle) (not_le.mpr hk)

/-- The square root `sqrtExact` is exact on the squares of the rationals. -/
theorem sqrtExact_mul_self (x : ℚ) (hx : 0 ≤ x) : sqrtExact (x * x) = x := by
  unfold sqrtExact
  rw [Rat.mul_self_num, Rat.mul_self_den]
  have hnum : 0 ≤ x.num := Rat.num_nonneg.mpr hx
  obtain ⟨n, hn⟩ := Int.eq_ofNat_of_zero_le hnum
  have h1 : (x.num * x.num).toNat = n * n := by
    rw [hn]
    exact_mod_cast Int.toNat_natCast (n * n)
  rw [h1, findGreatest_mul_self, findGreatest_mul_self]
  have h2 := Rat.num_div_den x
  rw [hn, Int.cast_natCast] at h2
  exact h2

end exactRoot

section boundedCubic

/-- The eight-argument `findCubicMinimizer` on the samples of a strictly convex quadratic
at `u < v`, where the derivatives have the same sign and the one at `v` the smaller
magnitude: the denominator `q1` is zero and the function returns `minStep`. -/
theorem findCubicMinimizerMinMax_quadratic (sqrtf : ℚ → ℚ)
    (hsqrt : ∀ x : ℚ, 0 ≤ x → sqrtf (x * x) = x)
    (a b c u v minStep maxStep : ℚ) (ha : 0 < a) (huv : u < v)
    (hsign : isSignDifferent (cubicDerivative 0 a b v) (cubicDerivative 0 a b u) = false)
    (hmag : |cubicDerivative 0 a b v| < |cubicDerivative 0 a b u|) :
    findCubicMinimizerMinMax sqrtf u (cubic 0 a b c u) (cubicDerivative 0 a b u)
      v (cubic 0 a b c v) (cubicDerivative 0 a b v) minStep maxStep = minStep := by
  have hd : 0 < v - u := sub_pos.mpr huv
  have hdu : cubicDerivative 0 a b u = 2 * a * u + b := by unfold cubicDerivative; ring
  have hdv : cubicDerivative 0 a b v = 2 * a * v + b := by unfold cubicDerivative; ring
  have hlt : cubicDerivative 0 a b u < cubicDerivative 0 a b v := by
    rw [hdu, hdv]; nlinarith
  have hvneg : cubicDerivative 0 a b v < 0 := by
    by_contra hv
    have hv0 : 0 ≤ cubicDerivative 0 a b v := not_lt.mp hv
    have hu0 : 0 ≤ cubicDerivative 0 a b u := by
      by_contra hu
      have : cubicDerivative 0 a b u < 0 := not_le.mp hu
      simp [isSignDifferent, hv, this] at hsign
    rw [abs_of_nonneg hv0, abs_of_nonneg hu0] at hmag
    linarith
  have huneg : cubicDerivative 0 a b u < 0 := lt_trans hlt hvneg
  have htheta : (cubic 0 a b c u - cubic 0 a b c v) * 3 / (v - u) +
      cubicDerivative 0 a b u + cubicDerivative 0 a b v =
      -(cubicDerivative 0 a b u + cubicDerivative 0 a b v) / 2 := by
    rw [hdu, hdv]
    unfold cubic
    field_simp
    ring
  have hs : max |(-(cubicDerivative 0 a b u + cubicDerivative 0 a b v) / 2)|
      (max |cubicDerivative 0 a b u| |cubicDerivative 0 a b v|) = -cubicDerivative 0 a b u := by
    rw [abs_of_neg huneg, abs_of_neg hvneg, abs_of_nonneg (by linarith)]
    rw [max_eq_left (show -cubicDerivative 0 a b v ≤ -cubicDerivative 0 a b u by linarith),
      max_eq_right (show -(cubicDerivative 0 a b u + cubicDerivative 0 a b v) / 2 ≤
        -cubicDerivative 0 a b u by linarith)]
  unfold findCubicMinimizerMinMax
  simp only [htheta, hs]
  generalize cubicDerivative 0 a b u = du at *
  generalize cubicDerivative 0 a b v = dv at *
  have hsne : -du ≠ 0 := by linarith
  have hz : 0 ≤ (dv - du) / (2 * -du) := by
    apply div_nonneg <;> linarith
  have hy : -(du + dv) / 2 / -du * (-(du + dv) / 2 / -du) - du / -du * (dv / -du) =
      (dv - du) / (2 * -du) * ((dv - du) / (2 * -du)) := by
    field_simp
    ring
  rw [hy, max_eq_right (mul_self_nonneg _), hsqrt _ hz, if_neg (not_lt.mpr (le_of_lt huv))]
  have hdu0 : du ≠ 0 := ne_of_lt huneg
  have hq : -du * ((dv - du) / (2 * -du)) - dv + -du * ((dv - du) / (2 * -du)) + du = 0 := by
    field_simp
    ring
  rw [hq, div_zero]
  have ha' : ¬ (-(du + dv) / 2 / -du < 0) := by
    rw [not_lt]
    apply div_nonneg <;> linarith
  rw [if_neg (fun h => absurd h.1 (lt_irrefl 0)), if_neg ha']

end boundedCubic

section unboundedCubic

/-- The algebra behind the six-argument `findCubicMinimizer`: with `γ² = θ² - p'(u) p'(v)`
and a non-zero denominator, the point `u + (p1 / q1) d` is a root of the derivative, and
the second derivative there is `2γ / d`. -/
theorem cubic_step_algebra (c3 c2 c1 u d γ θ p1 q1 : ℚ)
    (hθ : θ = -3 * (c3 * (3 * u ^ 2 + 3 * u * d + d ^ 2) + c2 * (2 * u + d) + c1) +
      cubicDerivative c3 c2 c1 u + cubicDerivative c3 c2 c1 (u + d))
    (hγ : γ * γ = θ * θ - cubicDerivative c3 c2 c1 u * cubicDerivative c3 c2 c1 (u + d))
    (hp : p1 = γ - cubicDerivative c3 c2 c1 u + θ)
    (hq : q1 = γ - cubicDerivative c3 c2 c1 u + γ + cubicDerivative c3 c2 c1 (u + d))
    (hq0 : q1 ≠ 0) :
    cubicDerivative c3 c2 c1 (u + p1 / q1 * d) = 0 ∧
      d * cubicSecondDerivative c3 c2 (u + p1 / q1 * d) = 2 * γ := by
  have h1 : q1 ^ 2 * cubicDerivative c3 c2 c1 (u + p1 / q1 * d) = 0 := by
    have e : q1 ^ 2 * cubicDerivative c3 c2 c1 (u + p1 / q1 * d) =
        q1 ^ 2 * (3 * c3 * u ^ 2 + 2 * c2 * u + c1) + (6 * c3 * u + 2 * c2) * d * p1 * q1 +
          3 * c3 * d ^ 2 * p1 ^ 2 := by
      unfold cubicDerivative
      field_simp
      ring
    rw [e]
    unfold cubicDerivative at hθ hγ hp hq
    subst hp hq
    rw [hθ] at hγ ⊢
    linear_combination (3 * c3 * d ^ 2 - 4 * (-3 * (c3 * (3 * u ^ 2 + 3 * u * d + d ^ 2) +
      c2 * (2 * u + d) + c1) + (3 * c3 * u ^ 2 + 2 * c2 * u + c1) +
      (3 * c3 * (u + d) ^ 2 + 2 * c2 * (u + d) + c1))) * hγ
  have h2 : q1 * (d * cubicSecondDerivative c3 c2 (u + p1 / q1 * d) - 2 * γ) = 0 := by
    have e : q1 * (d * cubicSecondDerivative c3 c2 (u + p1 / q1 * d) - 2 * γ) =
        d * (6 * c3 * u + 2 * c2) * q1 + 6 * c3 * d ^ 2 * p1 - 2 * γ * q1 := by
      unfold cubicSecondDerivative
      field_simp
      ring
    rw [e]
    unfold cubicDerivative at hθ hγ hp hq
    subst hp hq
    rw [hθ] at hγ ⊢
    linear_combination (-4 : ℚ) * hγ
  constructor
  · rcases mul_eq_zero.mp h1 with h | h
    · exact absurd (pow_eq_zero_iff (by norm_num) |>.mp h) hq0
    · exact h
  · rcases mul_eq_zero.mp h2 with h | h
    · exact absurd h hq0
    · linarith

end unboundedCubic

section unboundedCubicClaim

/-- Over the rationals: on the samples `p(u), p'(u), p(v), p'(v)` of a polynomial `p` of
degree at most 3 at two distinct steps, in either order, when the square root is exact at
the radicand the code hands to it and the denominator `q1` is not zero, the six-argument
`findCubicMinimizer` returns a point `x` with `p'(x) = 0` and `p''(x) ≥ 0`.  The radicand
must then be the square of a rational; the statement over the reals, which needs no such
hypothesis, is `findCubicMinimizer_returns_local_minimizer`. -/
theorem findCubicMinimizer_local_minimizer (sqrtf : ℚ → ℚ) (c3 c2 c1 c0 u v : ℚ)
    (huv : u ≠ v)
    (hsqrt : 0 ≤ sqrtf (cubicRadicand u (cubic c3 c2 c1 c0 u) (cubicDerivative c3 c2 c1 u)
        v (cubic c3 c2 c1 c0 v) (cubicDerivative c3 c2 c1 v)) ∧
      sqrtf (cubicRadicand u (cubic c3 c2 c1 c0 u) (cubicDerivative c3 c2 c1 u)
        v (cubic c3 c2 c1 c0 v) (cubicDerivative c3 c2 c1 v)) *
      sqrtf (cubicRadicand u (cubic c3 c2 c1 c0 u) (cubicDerivative c3 c2 c1 u)
        v (cubic c3 c2 c1 c0 v) (cubicDerivative c3 c2 c1 v)) =
      cubicRadicand u (cubic c3 c2 c1 c0 u) (cubicDerivative c3 c2 c1 u)
        v (cubic c3 c2 c1 c0 v) (cubicDerivative c3 c2 c1 v))
    (hden : cubicDenominator sqrtf u (cubic c3 c2 c1 c0 u) (cubicDerivative c3 c2 c1 u)
      v (cubic c3 c2 c1 c0 v) (cubicDerivative c3 c2 c1 v) ≠ 0) :
    cubicDerivative c3 c2 c1
        (findCubicMinimizer sqrtf u (cubic c3 c2 c1 c0 u) (cubicDerivative c3 c2 c1 u)
          v (cubic c3 c2 c1 c0 v) (cubicDerivative c3 c2 c1 v)) = 0 ∧
      0 ≤ cubicSecondDerivative c3 c2
        (findCubicMinimizer sqrtf u (cubic c3 c2 c1 c0 u) (cubicDerivative c3 c2 c1 u)
          v (cubic c3 c2 c1 c0 v) (cubicDerivative c3 c2 c1 v)) := by
  obtain ⟨d, rfl⟩ : ∃ d, v = u + d := ⟨v - u, by ring⟩
  have hd : d ≠ 0 := fun h => huv (by rw [h, add_zero])
  have hdiff : u + d - u = d := by ring
  have htheta : (cubic c3 c2 c1 c0 u - cubic c3 c2 c1 c0 (u + d)) * 3 / d +
      cubicDerivative c3 c2 c1 u + cubicDerivative c3 c2 c1 (u + d) =
      -3 * (c3 * (3 * u ^ 2 + 3 * u * d + d ^ 2) + c2 * (2 * u + d) + c1) +
        cubicDerivative c3 c2 c1 u + cubicDerivative c3 c2 c1 (u + d) := by
    unfold cubic
    field_simp
    ring
  unfold cubicRadicand at hsqrt
  unfold cubicDenominator at hden
  unfold findCubicMinimizer
  simp only [hdiff, htheta] at hsqrt hden ⊢
  generalize hθ : -3 * (c3 * (3 * u ^ 2 + 3 * u * d + d ^ 2) + c2 * (2 * u + d) + c1) +
    cubicDerivative c3 c2 c1 u + cubicDerivative c3 c2 c1 (u + d) = θ at hsqrt hden ⊢
  generalize hS : max |θ| (max |cubicDerivative c3 c2 c1 u| |cubicDerivative c3 c2 c1 (u + d)|) =
    S at hsqrt hden ⊢
  generalize hw : sqrtf (θ / S * (θ / S) -
    cubicDerivative c3 c2 c1 u / S * (cubicDerivative c3 c2 c1 (u + d) / S)) = w
    at hsqrt hden ⊢
  obtain ⟨hw0, hww⟩ := hsqrt
  have hS0 : 0 ≤ S := by
    rw [← hS]
    exact le_trans (abs_nonneg θ) (le_max_left _ _)
  have hSne : S ≠ 0 := by
    intro h0
    have hu0 : cubicDerivative c3 c2 c1 u = 0 := by
      have : |cubicDerivative c3 c2 c1 u| ≤ S := by
        rw [← hS]
        exact le_trans (le_max_left _ _) (le_max_right _ _)
      rw [h0] at this
      exact abs_eq_zero.mp (le_antisymm this (abs_nonneg _))
    have hv0 : cubicDerivative c3 c2 c1 (u + d) = 0 := by
      have : |cubicDerivative c3 c2 c1 (u + d)| ≤ S := by
        rw [← hS]
        exact le_trans (le_max_right _ _) (le_max_right _ _)
      rw [h0] at this
      exact abs_eq_zero.mp (le_antisymm this (abs_nonneg _))
    apply hden
    rw [h0, hu0, hv0]
    simp
  have hg0 : (S * w) * (S * w) = θ * θ -
      cubicDerivative c3 c2 c1 u * cubicDerivative c3 c2 c1 (u + d) := by
    have : (S * w) * (S * w) = S * S * (w * w) := by ring
    rw [this, hww]
    field_simp
  generalize hγ : (if u + d < u then -(S * w) else S * w) = γ at hden ⊢
  have hγγ : γ * γ = θ * θ -
      cubicDerivative c3 c2 c1 u * cubicDerivative c3 c2 c1 (u + d) := by
    rw [← hγ, ← hg0]
    split_ifs <;> ring
  obtain ⟨hroot, hsecond⟩ := cubic_step_algebra c3 c2 c1 u d γ θ
    (γ - cubicDerivative c3 c2 c1 u + θ)
    (γ - cubicDerivative c3 c2 c1 u + γ + cubicDerivative c3 c2 c1 (u + d))
    hθ.symm hγγ rfl rfl hden
  refine ⟨hroot, ?_⟩
  have hSw : 0 ≤ S * w := mul_nonneg hS0 hw0
  rcases lt_or_gt_of_ne hd with hneg | hpos
  · have hγ' : γ = -(S * w) := by
      rw [← hγ, if_pos (by linarith)]
    have h2 : d * cubicSecondDerivative c3 c2
        (u + (γ - cubicDerivative c3 c2 c1 u + θ) /
          (γ - cubicDerivative c3 c2 c1 u + γ + cubicDerivative c3 c2 c1 (u + d)) * d) ≤ 0 := by
      rw [hsecond, hγ']
      linarith
    by_contra hc
    have := mul_pos_of_neg_of_neg hneg (not_le.mp hc)
    linarith
  · have hγ' : γ = S * w := by
      rw [← hγ, if_neg (by linarith)]
    have h2 : 0 ≤ d * cubicSecondDerivative c3 c2
        (u + (γ - cubicDerivative c3 c2 c1 u + θ) /
          (γ - cubicDerivative c3 c2 c1 u + γ + cubicDerivative c3 c2 c1 (u + d)) * d) := by
      rw [hsecond, hγ']
      linarith
    by_contra hc
    have := mul_neg_of_pos_of_neg hpos (not_le.mp hc)
    linarith

/-- The rational statement at the cubic `x³ - 3x` sampled at `0` and `2`, with the local
minimizer `1`. -/
theorem findCubicMinimizer_local_minimizer_witness :
    (0 : ℚ) ≠ 2 ∧
    (0 ≤ sqrtExact (cubicRadicand 0 (cubic 1 0 (-3) 0 0) (cubicDerivative 1 0 (-3) 0)
        2 (cubic 1 0 (-3) 0 2) (cubicDerivative 1 0 (-3) 2)) ∧
      sqrtExact (cubicRadicand 0 (cubic 1 0 (-3) 0 0) (cubicDerivative 1 0 (-3) 0)
        2 (cubic 1 0 (-3) 0 2) (cubicDerivative 1 0 (-3) 2)) *
      sqrtExact (cubicRadicand 0 (cubic 1 0 (-3) 0 0) (cubicDerivative 1 0 (-3) 0)
        2 (cubic 1 0 (-3) 0 2) (cubicDerivative 1 0 (-3) 2)) =
      cubicRadicand 0 (cubic 1 0 (-3) 0 0) (cubicDerivative 1 0 (-3) 0)
        2 (cubic 1 0 (-3) 0 2) (cubicDerivative 1 0 (-3) 2)) ∧
    cubicDenominator sqrtExact 0 (cubic 1 0 (-3) 0 0) (cubicDerivative 1 0 (-3) 0)
      2 (cubic 1 0 (-3) 0 2) (cubicDerivative 1 0 (-3) 2) ≠ 0 ∧
    findCubicMinimizer sqrtExact 0 (cubic 1 0 (-3) 0 0) (cubicDerivative 1 0 (-3) 0)
      2 (cubic 1 0 (-3) 0 2) (cubicDerivative 1 0 (-3) 2) = 1 ∧
    (cubicDerivative 1 0 (-3)
        (findCubicMinimizer sqrtExact 0 (cubic 1 0 (-3) 0 0) (cubicDerivative 1 0 (-3) 0)
          2 (cubic 1 0 (-3) 0 2) (cubicDerivative 1 0 (-3) 2)) = 0 ∧
      0 ≤ cubicSecondDerivative 1 0
        (findCubicMinimizer sqrtExact 0 (cubic 1 0 (-3) 0 0) (cubicDerivative 1 0 (-3) 0)
          2 (cubic 1 0 (-3) 0 2) (cubicDerivative 1 0 (-3) 2))) :=
  ⟨by decide!, by decide!, by decide!, by decide!,
    findCubicMinimizer_local_minimizer sqrtExact 1 0 (-3) 0 0 2 (by decide!) (by decide!)
      (by decide!)⟩

end unboundedCubicClaim

/-! ## The six-argument cubic minimizer over the reals -/

section realCubic

/-- Over the rationals the body over an ordered field is the embedded function. -/
theorem findCubicMinimizerOver_rat (sqrtf : ℚ → ℚ) (leftStep leftCost leftGradientDirection
    rightStep rightCost rightGradientDirection : ℚ) :
    findCubicMinimizerOver sqrtf leftStep leftCost leftGradientDirection rightStep rightCost
        rightGradientDirection =
      findCubicMinimizer sqrtf leftStep leftCost leftGradientDirection rightStep rightCost
        rightGradientDirection ∧
    cubicDenominatorOver sqrtf leftStep leftCost leftGradientDirection rightStep rightCost
        rightGradientDirection =
      cubicDenominator sqrtf leftStep leftCost leftGradientDirection rightStep rightCost
        rightGradientDirection :=
  ⟨rfl, rfl⟩

/-- The value, the derivative and the second derivative of a real polynomial of degree at
most three, from its coefficients. -/
theorem eval_of_natDegree_le_three (p : Polynomial ℝ) (hdeg : p.natDegree ≤ 3) (x : ℝ) :
    p.eval x = p.coeff 3 * x ^ 3 + p.coeff 2 * x ^ 2 + p.coeff 1 * x + p.coeff 0 ∧
    (Polynomial.derivative p).eval x =
      3 * p.coeff 3 * x ^ 2 + 2 * p.coeff 2 * x + p.coeff 1 ∧
    (Polynomial.derivative (Polynomial.derivative p)).eval x =
      6 * p.coeff 3 * x + 2 * p.coeff 2 := by
  have h1 : (Polynomial.derivative p).natDegree ≤ 2 :=
    le_trans (Polynomial.natDegree_derivative_le p) (by omega)
  have h2 : (Polynomial.derivative (Polynomial.derivative p)).natDegree ≤ 1 :=
    le_trans (Polynomial.natDegree_derivative_le _) (by omega)
  refine ⟨?_, ?_, ?_⟩
  · rw [Polynomial.eval_eq_sum_range' (Nat.lt_succ_of_le hdeg)]
    simp [Finset.sum_range_succ]
    ring
  · rw [Polynomial.eval_eq_sum_range' (Nat.lt_succ_of_le h1)]
    simp [Finset.sum_range_succ, Polynomial.coeff_derivative]
    ring
  · rw [Polynomial.eval_eq_sum_range' (Nat.lt_succ_of_le h2)]
    simp [Finset.sum_range_succ, Polynomial.coeff_derivative]
    ring

/-- The algebra behind the six-argument `findCubicMinimizer`, over any field: with
`γ² = θ² - p'(u) p'(u + d)` and a non-zero denominator, the point `u + (p1 / q1) d` is a
root of the derivative, and `d` times the second derivative there is `2γ`. -/
theorem cubic_step_algebra_over {K : Type} [Field K] (c3 c2 c1 u d γ θ : K)
    (hθ : θ = -3 * (c3 * (3 * u ^ 2 + 3 * u * d + d ^ 2) + c2 * (2 * u + d) + c1) +
      (3 * c3 * u ^ 2 + 2 * c2 * u + c1) + (3 * c3 * (u + d) ^ 2 + 2 * c2 * (u + d) + c1))
    (hγ : γ * γ = θ * θ - (3 * c3 * u ^ 2 + 2 * c2 * u + c1) *
      (3 * c3 * (u + d) ^ 2 + 2 * c2 * (u + d) + c1))
    (hq0 : γ - (3 * c3 * u ^ 2 + 2 * c2 * u + c1) + γ +
      (3 * c3 * (u + d) ^ 2 + 2 * c2 * (u + d) + c1) ≠ 0) :
    3 * c3 * (u + (γ - (3 * c3 * u ^ 2 + 2 * c2 * u + c1) + θ) /
        (γ - (3 * c3 * u ^ 2 + 2 * c2 * u + c1) + γ +
          (3 * c3 * (u + d) ^ 2 + 2 * c2 * (u + d) + c1)) * d) ^ 2 +
      2 * c2 * (u + (γ - (3 * c3 * u ^ 2 + 2 * c2 * u + c1) + θ) /
        (γ - (3 * c3 * u ^ 2 + 2 * c2 * u + c1) + γ +
          (3 * c3 * (u + d) ^ 2 + 2 * c2 * (u + d) + c1)) * d) + c1 = 0 ∧
    d * (6 * c3 * (u + (γ - (3 * c3 * u ^ 2 + 2 * c2 * u + c1) + θ) /
        (γ - (3 * c3 * u ^ 2 + 2 * c2 * u + c1) + γ +
          (3 * c3 * (u + d) ^ 2 + 2 * c2 * (u + d) + c1)) * d) + 2 * c2) = 2 * γ := by
  generalize hq : γ - (3 * c3 * u ^ 2 + 2 * c2 * u + c1) + γ +
    (3 * c3 * (u + d) ^ 2 + 2 * c2 * (u + d) + c1) = q1 at hq0 ⊢
  generalize hp : γ - (3 * c3 * u ^ 2 + 2 * c2 * u + c1) + θ = p1
  have h1 : q1 ^ 2 * (3 * c3 * (u + p1 / q1 * d) ^ 2 + 2 * c2 * (u + p1 / q1 * d) + c1) = 0 := by
    have e : q1 ^ 2 * (3 * c3 * (u + p1 / q1 * d) ^ 2 + 2 * c2 * (u + p1 / q1 * d) + c1) =
        q1 ^ 2 * (3 * c3 * u ^ 2 + 2 * c2 * u + c1) + (6 * c3 * u + 2 * c2) * d * p1 * q1 +
          3 * c3 * d ^ 2 * p1 ^ 2 := by
      field_simp
      ring
    rw [e, ← hp, ← hq]
    rw [hθ] at hγ ⊢
    linear_combination (3 * c3 * d ^ 2 - 4 * (-3 * (c3 * (3 * u ^ 2 + 3 * u * d + d ^ 2) +
      c2 * (2 * u + d) + c1) + (3 * c3 * u ^ 2 + 2 * c2 * u + c1) +
      (3 * c3 * (u + d) ^ 2 + 2 * c2 * (u + d) + c1))) * hγ
  have h2 : q1 * (d * (6 * c3 * (u + p1 / q1 * d) + 2 * c2) - 2 * γ) = 0 := by
    have e : q1 * (d * (6 * c3 * (u + p1 / q1 * d) + 2 * c2) - 2 * γ) =
        d * (6 * c3 * u + 2 * c2) * q1 + 6 * c3 * d ^ 2 * p1 - 2 * γ * q1 := by
      field_simp
      ring
    rw [e, ← hp, ← hq]
    rw [hθ] at hγ ⊢
    linear_combination (-4 : K) * hγ
  constructor
  · rcases mul_eq_zero.mp h1 with h | h
    · exact absurd (pow_eq_zero_iff (by norm_num) |>.mp h) hq0
    · exact h
  · rcases mul_eq_zero.mp h2 with h | h
    · exact absurd h hq0
    · exact sub_eq_zero.mp h

end realCubic

section realCubicClaim

/-- C25: for every real polynomial `p` of degree at most 3 that has a local minimizer (a
point `x` with `p'(x) = 0` and `p''(x) ≥ 0`) and every pair of distinct steps `u ≠ v`, in
either order, when the denominator `q1` is not zero the six-argument `findCubicMinimizer`,
read over the reals with the real square root, returns on the samples `p(u), p'(u), p(v),
p'(v)` a point `x` with `p'(x) = 0` and `p''(x) ≥ 0`. -/
theorem findCubicMinimizer_returns_local_minimizer (p : Polynomial ℝ) (hdeg : p.natDegree ≤ 3)
    (u v : ℝ) (huv : u ≠ v)
    (hmin : ∃ x, (Polynomial.derivative p).eval x = 0 ∧
      0 ≤ (Polynomial.derivative (Polynomial.derivative p)).eval x)
    (hden : cubicDenominatorOver Real.sqrt u (p.eval u) ((Polynomial.derivative p).eval u)
      v (p.eval v) ((Polynomial.derivative p).eval v) ≠ 0) :
    (Polynomial.derivative p).eval
        (findCubicMinimizerOver Real.sqrt u (p.eval u) ((Polynomial.derivative p).eval u)
          v (p.eval v) ((Polynomial.derivative p).eval v)) = 0 ∧
      0 ≤ (Polynomial.derivative (Polynomial.derivative p)).eval
        (findCubicMinimizerOver Real.sqrt u (p.eval u) ((Polynomial.derivative p).eval u)
          v (p.eval v) ((Polynomial.derivative p).eval v)) := by
  obtain ⟨x0, hx0, _⟩ := hmin
  obtain ⟨d, rfl⟩ : ∃ d, v = u + d := ⟨v - u, by ring⟩
  have hd : d ≠ 0 := fun h => huv (by rw [h, add_zero])
  have hdiff : u + d - u = d := by ring
  rw [(eval_of_natDegree_le_three p hdeg _).2.1, (eval_of_natDegree_le_three p hdeg _).2.2]
  rw [(eval_of_natDegree_le_three p hdeg x0).2.1] at hx0
  simp only [(eval_of_natDegree_le_three p hdeg u).1, (eval_of_natDegree_le_three p hdeg u).2.1,
    (eval_of_natDegree_le_three p hdeg (u + d)).1,
    (eval_of_natDegree_le_three p hdeg (u + d)).2.1] at hden ⊢
  generalize p.coeff 3 = c3 at hx0 hden ⊢
  generalize p.coeff 2 = c2 at hx0 hden ⊢
  generalize p.coeff 1 = c1 at hx0 hden ⊢
  generalize p.coeff 0 = c0 at hden ⊢
  have htheta : (c3 * u ^ 3 + c2 * u ^ 2 + c1 * u + c0 -
        (c3 * (u + d) ^ 3 + c2 * (u + d) ^ 2 + c1 * (u + d) + c0)) * 3 / d +
      (3 * c3 * u ^ 2 + 2 * c2 * u + c1) + (3 * c3 * (u + d) ^ 2 + 2 * c2 * (u + d) + c1) =
      -3 * (c3 * (3 * u ^ 2 + 3 * u * d + d ^ 2) + c2 * (2 * u + d) + c1) +
        (3 * c3 * u ^ 2 + 2 * c2 * u + c1) +
        (3 * c3 * (u + d) ^ 2 + 2 * c2 * (u + d) + c1) := by
    field_simp
    ring
  unfold cubicDenominatorOver at hden
  unfold findCubicMinimizerOver
  simp only [hdiff, htheta] at hden ⊢
  generalize hθ : -3 * (c3 * (3 * u ^ 2 + 3 * u * d + d ^ 2) + c2 * (2 * u + d) + c1) +
    (3 * c3 * u ^ 2 + 2 * c2 * u + c1) + (3 * c3 * (u + d) ^ 2 + 2 * c2 * (u + d) + c1) = θ
    at hden ⊢
  have hdisc : 0 ≤ θ * θ - (3 * c3 * u ^ 2 + 2 * c2 * u + c1) *
      (3 * c3 * (u + d) ^ 2 + 2 * c2 * (u + d) + c1) := by
    have key : θ * θ - (3 * c3 * u ^ 2 + 2 * c2 * u + c1) *
        (3 * c3 * (u + d) ^ 2 + 2 * c2 * (u + d) + c1) =
        (d * (6 * c3 * x0 + 2 * c2) / 2) ^ 2 -
          3 * c3 * d ^ 2 * (3 * c3 * x0 ^ 2 + 2 * c2 * x0 + c1) := by
      rw [← hθ]
      ring
    rw [key, hx0, mul_zero, sub_zero]
    exact sq_nonneg _
  generalize hS : max |θ| (max |3 * c3 * u ^ 2 + 2 * c2 * u + c1|
    |3 * c3 * (u + d) ^ 2 + 2 * c2 * (u + d) + c1|) = S at hden ⊢
  have hS0 : 0 ≤ S := by
    rw [← hS]
    exact le_trans (abs_nonneg θ) (le_max_left _ _)
  have hSne : S ≠ 0 := by
    intro h0
    have hu0 : 3 * c3 * u ^ 2 + 2 * c2 * u + c1 = 0 := by
      have : |3 * c3 * u ^ 2 + 2 * c2 * u + c1| ≤ S := by
        rw [← hS]
        exact le_trans (le_max_left _ _) (le_max_right _ _)
      rw [h0] at this
      exact abs_eq_zero.mp (le_antisymm this (abs_nonneg _))
    have hv0 : 3 * c3 * (u + d) ^ 2 + 2 * c2 * (u + d) + c1 = 0 := by
      have : |3 * c3 * (u + d) ^ 2 + 2 * c2 * (u + d) + c1| ≤ S := by
        rw [← hS]
        exact le_trans (le_max_right _ _) (le_max_right _ _)
      rw [h0] at this
      exact abs_eq_zero.mp (le_antisymm this (abs_nonneg _))
    apply hden
    rw [h0, hu0, hv0]
    simp
  have hR : θ / S * (θ / S) - (3 * c3 * u ^ 2 + 2 * c2 * u + c1) / S *
      ((3 * c3 * (u + d) ^ 2 + 2 * c2 * (u + d) + c1) / S) =
      (θ * θ - (3 * c3 * u ^ 2 + 2 * c2 * u + c1) *
        (3 * c3 * (u + d) ^ 2 + 2 * c2 * (u + d) + c1)) / (S * S) := by
    field_simp
  have hR0 : 0 ≤ θ / S * (θ / S) - (3 * c3 * u ^ 2 + 2 * c2 * u + c1) / S *
      ((3 * c3 * (u + d) ^ 2 + 2 * c2 * (u + d) + c1) / S) := by
    rw [hR]
    exact div_nonneg hdisc (mul_self_nonneg S)
  have hw0 := Real.sqrt_nonneg (θ / S * (θ / S) - (3 * c3 * u ^ 2 + 2 * c2 * u + c1) / S *
    ((3 * c3 * (u + d) ^ 2 + 2 * c2 * (u + d) + c1) / S))
  have hww := Real.mul_self_sqrt hR0
  generalize Real.sqrt (θ / S * (θ / S) - (3 * c3 * u ^ 2 + 2 * c2 * u + c1) / S *
    ((3 * c3 * (u + d) ^ 2 + 2 * c2 * (u + d) + c1) / S)) = w at hden hw0 hww ⊢
  have hg0 : (S * w) * (S * w) = θ * θ - (3 * c3 * u ^ 2 + 2 * c2 * u + c1) *
      (3 * c3 * (u + d) ^ 2 + 2 * c2 * (u + d) + c1) := by
    have : (S * w) * (S * w) = S * S * (w * w) := by ring
    rw [this, hww, hR]
    field_simp
  generalize hγ : (if u + d < u then -(S * w) else S * w) = γ at hden ⊢
  have hγγ : γ * γ = θ * θ - (3 * c3 * u ^ 2 + 2 * c2 * u + c1) *
      (3 * c3 * (u + d) ^ 2 + 2 * c2 * (u + d) + c1) := by
    rw [← hγ, ← hg0]
    split_ifs <;> ring
  obtain ⟨hroot, hsecond⟩ := cubic_step_algebra_over c3 c2 c1 u d γ θ hθ.symm hγγ hden
  refine ⟨hroot, ?_⟩
  have hSw : 0 ≤ S * w := mul_nonneg hS0 hw0
  rcases lt_or_gt_of_ne hd with hneg | hpos
  · have hγ' : γ = -(S * w) := by
      rw [← hγ, if_pos (by linarith)]
    by_contra hc
    have := mul_pos_of_neg_of_neg hneg (not_le.mp hc)
    rw [hsecond, hγ'] at this
    linarith
  · have hγ' : γ = S * w := by
      rw [← hγ, if_neg (by linarith)]
    by_contra hc
    have := mul_neg_of_pos_of_neg hpos (not_le.mp hc)
    rw [hsecond, hγ'] at this
    linarith

end realCubicClaim

section realCubicWitness

/-- The samples of `x³ - 6x` at `0` and `2`. -/
theorem irrational_cubic_samples :
    (Polynomial.X ^ 3 - Polynomial.C 6 * Polynomial.X : Polynomial ℝ).eval 0 = 0 ∧
    (Polynomial.derivative
      (Polynomial.X ^ 3 - Polynomial.C 6 * Polynomial.X : Polynomial ℝ)).eval 0 = -6 ∧
    (Polynomial.X ^ 3 - Polynomial.C 6 * Polynomial.X : Polynomial ℝ).eval 2 = -4 ∧
    (Polynomial.derivative
      (Polynomial.X ^ 3 - Polynomial.C 6 * Polynomial.X : Polynomial ℝ)).eval 2 = 6 := by
  refine ⟨?_, ?_, ?_, ?_⟩ <;> simp <;> norm_num

/-- On the samples of `x³ - 6x` at `0` and `2` the radicand is `2`, the denominator is
`12 √2 + 12` and the function returns `√2`. -/
theorem irrational_cubic_values :
    cubicDenominatorOver Real.sqrt 0 0 (-6) 2 (-4) 6 = 12 * Real.sqrt 2 + 12 ∧
    findCubicMinimizerOver Real.sqrt 0 0 (-6) 2 (-4) 6 = Real.sqrt 2 := by
  have hθ : ((0 : ℝ) - -4) * 3 / (2 - 0) + -6 + 6 = 6 := by norm_num
  have hs : max |(6 : ℝ)| (max |(-6 : ℝ)| |(6 : ℝ)|) = 6 := by
    rw [abs_neg, max_self, max_self]
    norm_num
  have hr : (6 : ℝ) / 6 * (6 / 6) - -6 / 6 * (6 / 6) = 2 := by norm_num
  have hlt : ¬ (2 : ℝ) < 0 := by norm_num
  have h2 : Real.sqrt 2 * Real.sqrt 2 = 2 := Real.mul_self_sqrt (by norm_num)
  have hpos : 0 < Real.sqrt 2 := Real.sqrt_pos.mpr (by norm_num)
  refine ⟨?_, ?_⟩
  · unfold cubicDenominatorOver
    simp only [hθ, hs, hr, if_neg hlt]
    ring
  · unfold findCubicMinimizerOver
    simp only [hθ, hs, hr, if_neg hlt]
    have hne : 6 * Real.sqrt 2 - -6 + 6 * Real.sqrt 2 + 6 ≠ 0 := by
      have : 0 < 6 * Real.sqrt 2 - -6 + 6 * Real.sqrt 2 + 6 := by linarith
      exact ne_of_gt this
    rw [zero_add, sub_zero, div_mul_eq_mul_div, div_eq_iff hne]
    nlinarith [h2]

/-- Witness of C25: the cubic `x³ - 6x`, whose stationary points `±√2` are irrational,
sampled at `0` and `2`: the function returns the local minimizer `√2`. -/
theorem findCubicMinimizer_returns_local_minimizer_witness :
    (Polynomial.X ^ 3 - Polynomial.C 6 * Polynomial.X : Polynomial ℝ).natDegree ≤ 3 ∧
    (0 : ℝ) ≠ 2 ∧
    (∃ x, (Polynomial.derivative
        (Polynomial.X ^ 3 - Polynomial.C 6 * Polynomial.X : Polynomial ℝ)).eval x = 0 ∧
      0 ≤ (Polynomial.derivative (Polynomial.derivative
        (Polynomial.X ^ 3 - Polynomial.C 6 * Polynomial.X : Polynomial ℝ))).eval x) ∧
    cubicDenominatorOver Real.sqrt 0
      ((Polynomial.X ^ 3 - Polynomial.C 6 * Polynomial.X : Polynomial ℝ).eval 0)
      ((Polynomial.derivative
        (Polynomial.X ^ 3 - Polynomial.C 6 * Polynomial.X : Polynomial ℝ)).eval 0)
      2 ((Polynomial.X ^ 3 - Polynomial.C 6 * Polynomial.X : Polynomial ℝ).eval 2)
      ((Polynomial.derivative
        (Polynomial.X ^ 3 - Polynomial.C 6 * Polynomial.X : Polynomial ℝ)).eval 2) ≠ 0 ∧
    findCubicMinimizerOver Real.sqrt 0
      ((Polynomial.X ^ 3 - Polynomial.C 6 * Polynomial.X : Polynomial ℝ).eval 0)
      ((Polynomial.derivative
        (Polynomial.X ^ 3 - Polynomial.C 6 * Polynomial.X : Polynomial ℝ)).eval 0)
      2 ((Polynomial.X ^ 3 - Polynomial.C 6 * Polynomial.X : Polynomial ℝ).eval 2)
      ((Polynomial.derivative
        (Polynomial.X ^ 3 - Polynomial.C 6 * Polynomial.X : Polynomial ℝ)).eval 2) =
      Real.sqrt 2 ∧
    ((Polynomial.derivative
        (Polynomial.X ^ 3 - Polynomial.C 6 * Polynomial.X : Polynomial ℝ)).eval
        (findCubicMinimizerOver Real.sqrt 0
          ((Polynomial.X ^ 3 - Polynomial.C 6 * Polynomial.X : Polynomial ℝ).eval 0)
          ((Polynomial.derivative
            (Polynomial.X ^ 3 - Polynomial.C 6 * Polynomial.X : Polynomial ℝ)).eval 0)
          2 ((Polynomial.X ^ 3 - Polynomial.C 6 * Polynomial.X : Polynomial ℝ).eval 2)
          ((Polynomial.derivative
            (Polynomial.X ^ 3 - Polynomial.C 6 * Polynomial.X : Polynomial ℝ)).eval 2)) = 0 ∧
      0 ≤ (Polynomial.derivative (Polynomial.derivative
        (Polynomial.X ^ 3 - Polynomial.C 6 * Polynomial.X : Polynomial ℝ))).eval
        (findCubicMinimizerOver Real.sqrt 0
          ((Polynomial.X ^ 3 - Polynomial.C 6 * Polynomial.X : Polynomial ℝ).eval 0)
          ((Polynomial.derivative
            (Polynomial.X ^ 3 - Polynomial.C 6 * Polynomial.X : Polynomial ℝ)).eval 0)
          2 ((Polynomial.X ^ 3 - Polynomial.C 6 * Polynomial.X : Polynomial ℝ).eval 2)
          ((Polynomial.derivative
            (Polynomial.X ^ 3 - Polynomial.C 6 * Polynomial.X : Polynomial ℝ)).eval 2))) := by
  have hdeg : (Polynomial.X ^ 3 - Polynomial.C 6 * Polynomial.X : Polynomial ℝ).natDegree ≤ 3 := by
    compute_degree
  have huv : (0 : ℝ) ≠ 2 := by norm_num
  have h2 : Real.sqrt 2 ^ 2 = 2 := Real.sq_sqrt (by norm_num)
  have hmin : ∃ x, (Polynomial.derivative
        (Polynomial.X ^ 3 - Polynomial.C 6 * Polynomial.X : Polynomial ℝ)).eval x = 0 ∧
      0 ≤ (Polynomial.derivative (Polynomial.derivative
        (Polynomial.X ^ 3 - Polynomial.C 6 * Polynomial.X : Polynomial ℝ))).eval x := by
    refine ⟨Real.sqrt 2, ?_, ?_⟩
    · simp [h2]
      norm_num
    · simp
  obtain ⟨e1, e2, e3, e4⟩ := irrational_cubic_samples
  have hden : cubicDenominatorOver Real.sqrt 0
      ((Polynomial.X ^ 3 - Polynomial.C 6 * Polynomial.X : Polynomial ℝ).eval 0)
      ((Polynomial.derivative
        (Polynomial.X ^ 3 - Polynomial.C 6 * Polynomial.X : Polynomial ℝ)).eval 0)
      2 ((Polynomial.X ^ 3 - Polynomial.C 6 * Polynomial.X : Polynomial ℝ).eval 2)
      ((Polynomial.derivative
        (Polynomial.X ^ 3 - Polynomial.C 6 * Polynomial.X : Polynomial ℝ)).eval 2) ≠ 0 := by
    rw [e1, e2, e3, e4, irrational_cubic_values.1]
    have : 0 < Real.sqrt 2 := Real.sqrt_pos.mpr (by norm_num)
    exact ne_of_gt (by linarith)
  have hvalue : findCubicMinimizerOver Real.sqrt 0
      ((Polynomial.X ^ 3 - Polynomial.C 6 * Polynomial.X : Polynomial ℝ).eval 0)
      ((Polynomial.derivative
        (Polynomial.X ^ 3 - Polynomial.C 6 * Polynomial.X : Polynomial ℝ)).eval 0)
      2 ((Polynomial.X ^ 3 - Polynomial.C 6 * Polynomial.X : Polynomial ℝ).eval 2)
      ((Polynomial.derivative
        (Polynomial.X ^ 3 - Polynomial.C 6 * Polynomial.X : Polynomial ℝ)).eval 2) =
      Real.sqrt 2 := by
    rw [e1, e2, e3, e4, irrational_cubic_values.2]
  exact ⟨hdeg, huv, hmin, hden, hvalue,
    findCubicMinimizer_returns_local_minimizer _ hdeg 0 2 huv hmin hden⟩

end realCubicWitness

section interpolationClaims

/-- C23 (defect of the code): for every strictly convex quadratic `q(x) = a x² + b x + c`
sampled at `u < v` where the derivatives have the same sign and `|q'(v)| < |q'(u)|`, with a
square root that is exact on squares, the eight-argument `findCubicMinimizer` returns
`minStep`, although the minimizer `-b / (2a)` of `q`, which is that of the interpolating
cubic, lies beyond `v`: the sign of `gamma` is switched on `rightStep < leftStep`, the
denominator `q1` vanishes and the branch `rightStep - r1 * difference` is never taken. -/
theorem bounded_cubic_returns_min_step_on_quadratic (sqrtf : ℚ → ℚ)
    (hsqrt : ∀ x : ℚ, 0 ≤ x → sqrtf (x * x) = x)
    (a b c u v minStep maxStep : ℚ) (ha : 0 < a) (huv : u < v)
    (hsign : isSignDifferent (cubicDerivative 0 a b v) (cubicDerivative 0 a b u) = false)
    (hmag : |cubicDerivative 0 a b v| < |cubicDerivative 0 a b u|) :
    findCubicMinimizerMinMax sqrtf u (cubic 0 a b c u) (cubicDerivative 0 a b u)
        v (cubic 0 a b c v) (cubicDerivative 0 a b v) minStep maxStep = minStep ∧
      cubicDerivative 0 a b (-b / (2 * a)) = 0 ∧ 0 < cubicSecondDerivative 0 a (-b / (2 * a)) ∧
      v < -b / (2 * a) := by
  refine ⟨findCubicMinimizerMinMax_quadratic sqrtf hsqrt a b c u v minStep maxStep ha huv
    hsign hmag, ?_, ?_, ?_⟩
  · unfold cubicDerivative
    field_simp
    ring
  · unfold cubicSecondDerivative
    linarith
  · have hdu : cubicDerivative 0 a b u = 2 * a * u + b := by unfold cubicDerivative; ring
    have hdv : cubicDerivative 0 a b v = 2 * a * v + b := by unfold cubicDerivative; ring
    have hlt : cubicDerivative 0 a b u < cubicDerivative 0 a b v := by
      rw [hdu, hdv]; nlinarith
    have hvneg : cubicDerivative 0 a b v < 0 := by
      by_contra hv
      have hv0 : 0 ≤ cubicDerivative 0 a b v := not_lt.mp hv
      have hu0 : 0 ≤ cubicDerivative 0 a b u := by
        by_contra hu
        have : cubicDerivative 0 a b u < 0 := not_le.mp hu
        simp [isSignDifferent, hv, this] at hsign
      rw [abs_of_nonneg hv0, abs_of_nonneg hu0] at hmag
      linarith
    rw [hdv] at hvneg
    rw [lt_div_iff₀ (by linarith)]
    linarith

/-- Witness of C23: `q(x) = 2 (x - 2)²` sampled at `0` and `1`, with the bounds `0` and
`100`: the function returns `0`, the minimizer is `2`. -/
theorem bounded_cubic_returns_min_step_on_quadratic_witness :
    (∀ x : ℚ, 0 ≤ x → sqrtExact (x * x) = x) ∧ (0 : ℚ) < 2 ∧ (0 : ℚ) < 1 ∧
    isSignDifferent (cubicDerivative 0 2 (-8) 1) (cubicDerivative 0 2 (-8) 0) = false ∧
    |cubicDerivative 0 2 (-8) 1| < |cubicDerivative 0 2 (-8) 0| ∧
    (cubic 0 2 (-8) 8 0, cubicDerivative 0 2 (-8) 0, cubic 0 2 (-8) 8 1,
      cubicDerivative 0 2 (-8) 1) = (8, -8, 2, -4) ∧
    (findCubicMinimizerMinMax sqrtExact 0 (cubic 0 2 (-8) 8 0) (cubicDerivative 0 2 (-8) 0)
        1 (cubic 0 2 (-8) 8 1) (cubicDerivative 0 2 (-8) 1) 0 100 = 0 ∧
      cubicDerivative 0 2 (-8) (-(-8) / (2 * 2)) = 0 ∧
      0 < cubicSecondDerivative 0 2 (-(-8) / (2 * 2)) ∧
      (1 : ℚ) < -(-8) / (2 * 2)) :=
  ⟨sqrtExact_mul_self, by decide!, by decide!, by decide!, by decide!, by decide!,
    bounded_cubic_returns_min_step_on_quadratic sqrtExact sqrtExact_mul_self 2 (-8) 8 0 1 0 100
      (by decide!) (by decide!) (by decide!) (by decide!)⟩

/-- C24 (defect of the code): for every quadratic `q(x) = a x² + b x + c` with `a ≠ 0` and
steps `u ≠ v`, the formula of the claim, `u + (q'(u) / ((q(u) - q(v)) / (v - u) + q'(u))) / 2
· (v - u)`, is the stationary point `-b / (2a)` of `q`; the five-argument
`findQuadraticMinimizer` divides by `2 (v - u)` where the formula multiplies by `(v - u) / 2`,
returns `u + (-b / (2a) - u) / (v - u)²`, and this is the stationary point only when
`(v - u)² = 1` or `q'(u) = 0`. -/
theorem findQuadraticMinimizer_misses_stationary_point (a b c u v : ℚ) (ha : a ≠ 0)
    (huv : u ≠ v) :
    u + (cubicDerivative 0 a b u /
        ((cubic 0 a b c u - cubic 0 a b c v) / (v - u) + cubicDerivative 0 a b u)) / 2 * (v - u) =
      -b / (2 * a) ∧
    cubicDerivative 0 a b (-b / (2 * a)) = 0 ∧
    findQuadraticMinimizer u (cubic 0 a b c u) (cubicDerivative 0 a b u) v (cubic 0 a b c v) =
      u + (-b / (2 * a) - u) / (v - u) ^ 2 ∧
    (findQuadraticMinimizer u (cubic 0 a b c u) (cubicDerivative 0 a b u) v (cubic 0 a b c v) =
      -b / (2 * a) ↔ ((v - u) ^ 2 = 1 ∨ cubicDerivative 0 a b u = 0)) := by
  have hd : v - u ≠ 0 := sub_ne_zero.mpr (Ne.symm huv)
  have h1 : (cubic 0 a b c u - cubic 0 a b c v) / (v - u) + cubicDerivative 0 a b u =
      -(a * (v - u)) := by
    unfold cubic cubicDerivative
    field_simp
    ring
  have hdu : cubicDerivative 0 a b u = 2 * a * u + b := by unfold cubicDerivative; ring
  refine ⟨?_, ?_, findQuadraticMinimizer_quadratic a b c u v ha huv, ?_⟩
  · rw [h1, hdu]
    field_simp
    ring
  · unfold cubicDerivative
    field_simp
    ring
  · rw [findQuadraticMinimizer_quadratic a b c u v ha huv, hdu]
    have hd2 : (v - u) ^ 2 ≠ 0 := pow_ne_zero 2 hd
    constructor
    · intro h
      have h2 : (-b / (2 * a) - u) / (v - u) ^ 2 = -b / (2 * a) - u := by linarith
      rw [div_eq_iff hd2] at h2
      have h3 : (-b / (2 * a) - u) * ((v - u) ^ 2 - 1) = 0 := by linarith
      rcases mul_eq_zero.mp h3 with h4 | h4
      · right
        have h5 : -b / (2 * a) = u := by linarith
        rw [div_eq_iff (by simpa using ha)] at h5
        linarith
      · left
        linarith
    · rintro (h | h)
      · rw [h, div_one]
        ring
      · have h5 : -b / (2 * a) = u := by
          rw [div_eq_iff (by simpa using ha)]
          linarith
        rw [h5]
        simp

/-- Witness of C24: `q(x) = (x - 3)²` sampled at `0` and `2`: the code returns `3/4`, the
stationary point is `3`. -/
theorem findQuadraticMinimizer_misses_stationary_point_witness :
    (1 : ℚ) ≠ 0 ∧ (0 : ℚ) ≠ 2 ∧
    (cubic 0 1 (-6) 9 0, cubicDerivative 0 1 (-6) 0, cubic 0 1 (-6) 9 2) = (9, -6, 1) ∧
    findQuadraticMinimizer 0 9 (-6) 2 1 = 3 / 4 ∧
    (0 + (cubicDerivative 0 1 (-6) 0 /
        ((cubic 0 1 (-6) 9 0 - cubic 0 1 (-6) 9 2) / (2 - 0) + cubicDerivative 0 1 (-6) 0)) / 2 *
          (2 - 0) = -(-6) / (2 * 1) ∧
      cubicDerivative 0 1 (-6) (-(-6) / (2 * 1)) = 0 ∧
      findQuadraticMinimizer 0 (cubic 0 1 (-6) 9 0) (cubicDerivative 0 1 (-6) 0) 2
          (cubic 0 1 (-6) 9 2) = 0 + (-(-6) / (2 * 1) - 0) / (2 - 0) ^ 2 ∧
      (findQuadraticMinimizer 0 (cubic 0 1 (-6) 9 0) (cubicDerivative 0 1 (-6) 0) 2
          (cubic 0 1 (-6) 9 2) = -(-6) / (2 * 1) ↔
        (((2 : ℚ) - 0) ^ 2 = 1 ∨ cubicDerivative 0 1 (-6) 0 = 0))) :=
  ⟨by decide!, by decide!, by decide!, by decide!,
    findQuadraticMinimizer_misses_stationary_point 1 (-6) 9 0 2 (by decide!) (by decide!)⟩

end interpolationClaims

/-! ## The interval update -/

section intervalUpdate

/-- A result that converts to `some v` is `ok v`. -/
theorem ok_of_toOption {ε α : Type} (r : Except ε α) (v : α) (h : r.toOption = some v) :
    r = .ok v := by
  cases r with
  | error e => simp [Except.toOption] at h
  | ok a =>
    simp only [Except.toOption, Option.some.injEq] at h
    rw [h]

/-- A normal return of `updateIntervalOfUncertainty` leaves the endpoints that
`updateEndpoints` assigns, the clipped step and the bracket flag of the case analysis. -/
theorem updateIntervalOfUncertainty_ok (sqrtf : ℚ → ℚ) (u v : Uncertainty)
    (cost gradientDirection minStep maxStep : ℚ)
    (h : updateIntervalOfUncertainty sqrtf u cost gradientDirection minStep maxStep = .ok v) :
    v = { updateEndpoints u cost gradientDirection with
          step := clipNewStep (updateEndpoints u cost gradientDirection)
            (selectNewStep sqrtf u cost gradientDirection minStep maxStep).1 minStep maxStep
            (selectNewStep sqrtf u cost gradientDirection minStep maxStep).2.1
            (selectNewStep sqrtf u cost gradientDirection minStep maxStep).2.2,
          bracket := (selectNewStep sqrtf u cost gradientDirection minStep maxStep).2.1 } ∧
      (u.bracket = true → min u.bestStep u.intervalEndStep < u.step ∧
        u.step < max u.bestStep u.intervalEndStep ∧ minStep ≤ maxStep) := by
  unfold updateIntervalOfUncertainty at h
  split_ifs at h with h1 h2 h3
  injection h with h
  refine ⟨h.symm, ?_⟩
  intro hb
  simp only [hb, true_and, not_or, not_le, not_lt] at h1 h3
  exact ⟨h1.1, h1.2, h3⟩

/-- The case analysis is "bounded" in the first case (a higher cost) and in the third (a
lower cost, derivatives of the same sign, a smaller magnitude at the trial). -/
theorem selectNewStep_bounded (sqrtf : ℚ → ℚ) (u : Uncertainty)
    (cost gradientDirection minStep maxStep : ℚ) :
    (selectNewStep sqrtf u cost gradientDirection minStep maxStep).2.2 = true ↔
      (u.bestCost < cost ∨
        (isSignDifferent gradientDirection u.bestGradientDirection = false ∧
          |gradientDirection| < |u.bestGradientDirection|)) := by
  unfold selectNewStep
  simp only
  split_ifs <;> simp_all

/-- C26 (as stated, refuted): from the best point `(0, 1, -3)` with the trial `(3, 0, 1)`,
a lower cost with derivatives of opposite signs, the cubic minimizer is `3/2` and the
secant minimizer `9/4`; the secant minimizer is the closer to the trial step `3`, the step
selected before clamping is the cubic one, `3/2`. -/
theorem opposite_sign_step_is_not_the_closer :
    (0 : ℚ) ≤ oppositeSignPoint.bestCost ∧
    isSignDifferent 1 oppositeSignPoint.bestGradientDirection = true ∧
    findCubicMinimizer sqrtExact 0 1 (-3) 3 0 1 = 3 / 2 ∧
    findQuadraticMinimizerGradients 0 (-3) 3 1 = 9 / 4 ∧
    |(9 / 4 : ℚ) - oppositeSignPoint.step| < |(3 / 2 : ℚ) - oppositeSignPoint.step| ∧
    (selectNewStep sqrtExact oppositeSignPoint 0 1 0 15).1 = 3 / 2 ∧
    (updateIntervalOfUncertainty sqrtExact oppositeSignPoint 0 1 0 15).toOption =
      some { bestStep := 3, bestCost := 0, bestGradientDirection := 1,
             intervalEndStep := 0, intervalEndCost := 1, intervalEndGradientDirection := -3,
             step := 3 / 2, bracket := true } := by
  decide!

/-- C26 (amended): when the trial cost is not higher than the best cost and the trial and
best derivatives have opposite signs, the bracket flag is set, and the step selected before
clamping is the cubic minimizer when it is strictly farther from the trial step than the
secant minimizer, the secant minimizer otherwise: whichever of the two is farther from the
trial step. -/
theorem opposite_sign_takes_farther_minimizer (sqrtf : ℚ → ℚ) (u : Uncertainty)
    (cost gradientDirection minStep maxStep : ℚ) (hcost : cost ≤ u.bestCost)
    (hsign : isSignDifferent gradientDirection u.bestGradientDirection = true) :
    (selectNewStep sqrtf u cost gradientDirection minStep maxStep).2.1 = true ∧
    (∀ v, updateIntervalOfUncertainty sqrtf u cost gradientDirection minStep maxStep = .ok v →
      v.bracket = true) ∧
    (|findQuadraticMinimizerGradients u.bestStep u.bestGradientDirection u.step
          gradientDirection - u.step| <
        |findCubicMinimizer sqrtf u.bestStep u.bestCost u.bestGradientDirection u.step cost
          gradientDirection - u.step| →
      (selectNewStep sqrtf u cost gradientDirection minStep maxStep).1 =
        findCubicMinimizer sqrtf u.bestStep u.bestCost u.bestGradientDirection u.step cost
          gradientDirection) ∧
    (|findCubicMinimizer sqrtf u.bestStep u.bestCost u.bestGradientDirection u.step cost
          gradientDirection - u.step| ≤
        |findQuadraticMinimizerGradients u.bestStep u.bestGradientDirection u.step
          gradientDirection - u.step| →
      (selectNewStep sqrtf u cost gradientDirection minStep maxStep).1 =
        findQuadraticMinimizerGradients u.bestStep u.bestGradientDirection u.step
          gradientDirection) ∧
    |(selectNewStep sqrtf u cost gradientDirection minStep maxStep).1 - u.step| =
      max |findCubicMinimizer sqrtf u.bestStep u.bestCost u.bestGradientDirection u.step cost
          gradientDirection - u.step|
        |findQuadraticMinimizerGradients u.bestStep u.bestGradientDirection u.step
          gradientDirection - u.step| := by
  have hnot : ¬ u.bestCost < cost := not_lt.mpr hcost
  have hsel : (selectNewStep sqrtf u cost gradientDirection minStep maxStep).2.1 = true := by
    unfold selectNewStep
    simp only [hnot, hsign, if_false, if_true]
    split_ifs <;> rfl
  refine ⟨hsel, ?_, ?_, ?_, ?_⟩
  · intro v hv
    rw [(updateIntervalOfUncertainty_ok sqrtf u v cost gradientDirection minStep maxStep hv).1]
    exact hsel
  · intro hfar
    unfold selectNewStep
    simp only [hnot, hsign, if_false, if_true, gt_iff_lt, hfar]
  · intro hnear
    unfold selectNewStep
    simp only [hnot, hsign, if_false, if_true, gt_iff_lt, not_lt.mpr hnear]
  · unfold selectNewStep
    simp only [hnot, hsign, if_false, if_true, gt_iff_lt]
    split_ifs with hfar
    · rw [max_eq_left (le_of_lt hfar)]
    · rw [max_eq_right (not_lt.mp hfar)]

/-- Witness of the amended C26: the best point `(0, 1, -3)` with the trial `(3, 0, 1)`. -/
theorem opposite_sign_takes_farther_minimizer_witness :
    (0 : ℚ) ≤ oppositeSignPoint.bestCost ∧
    isSignDifferent 1 oppositeSignPoint.bestGradientDirection = true ∧
    ((selectNewStep sqrtExact oppositeSignPoint 0 1 0 15).2.1 = true ∧
    (∀ v, updateIntervalOfUncertainty sqrtExact oppositeSignPoint 0 1 0 15 = .ok v →
      v.bracket = true) ∧
    (|findQuadraticMinimizerGradients oppositeSignPoint.bestStep
          oppositeSignPoint.bestGradientDirection oppositeSignPoint.step 1 -
          oppositeSignPoint.step| <
        |findCubicMinimizer sqrtExact oppositeSignPoint.bestStep oppositeSignPoint.bestCost
          oppositeSignPoint.bestGradientDirection oppositeSignPoint.step 0 1 -
          oppositeSignPoint.step| →
      (selectNewStep sqrtExact oppositeSignPoint 0 1 0 15).1 =
        findCubicMinimizer sqrtExact oppositeSignPoint.bestStep oppositeSignPoint.bestCost
          oppositeSignPoint.bestGradientDirection oppositeSignPoint.step 0 1) ∧
    (|findCubicMinimizer sqrtExact oppositeSignPoint.bestStep oppositeSignPoint.bestCost
          oppositeSignPoint.bestGradientDirection oppositeSignPoint.step 0 1 -
          oppositeSignPoint.step| ≤
        |findQuadraticMinimizerGradients oppositeSignPoint.bestStep
          oppositeSignPoint.bestGradientDirection oppositeSignPoint.step 1 -
          oppositeSignPoint.step| →
      (selectNewStep sqrtExact oppositeSignPoint 0 1 0 15).1 =
        findQuadraticMinimizerGradients oppositeSignPoint.bestStep
          oppositeSignPoint.bestGradientDirection oppositeSignPoint.step 1) ∧
    |(selectNewStep sqrtExact oppositeSignPoint 0 1 0 15).1 - oppositeSignPoint.step| =
      max |findCubicMinimizer sqrtExact oppositeSignPoint.bestStep oppositeSignPoint.bestCost
          oppositeSignPoint.bestGradientDirection oppositeSignPoint.step 0 1 -
          oppositeSignPoint.step|
        |findQuadraticMinimizerGradients oppositeSignPoint.bestStep
          oppositeSignPoint.bestGradientDirection oppositeSignPoint.step 1 -
          oppositeSignPoint.step|) :=
  ⟨by decide!, by decide!,
    opposite_sign_takes_farther_minimizer sqrtExact oppositeSignPoint 0 1 0 15 (by decide!)
      (by decide!)⟩

/-- C27: when `updateIntervalOfUncertainty` returns, the endpoints are reassigned as the
case table says.  If the best cost is lower than the trial cost, the best triple is
unchanged and the interval end becomes the trial triple; if the trial cost is not higher
and the derivative signs differ, the interval end becomes the old best triple and the best
becomes the trial triple; otherwise the best becomes the trial triple and the interval end
is unchanged. -/
theorem updateIntervalOfUncertainty_endpoints (sqrtf : ℚ → ℚ) (u v : Uncertainty)
    (cost gradientDirection minStep maxStep : ℚ)
    (h : updateIntervalOfUncertainty sqrtf u cost gradientDirection minStep maxStep = .ok v) :
    (u.bestCost < cost →
      (v.bestStep, v.bestCost, v.bestGradientDirection) =
        (u.bestStep, u.bestCost, u.bestGradientDirection) ∧
      (v.intervalEndStep, v.intervalEndCost, v.intervalEndGradientDirection) =
        (u.step, cost, gradientDirection)) ∧
    (cost ≤ u.bestCost → isSignDifferent gradientDirection u.bestGradientDirection = true →
      (v.intervalEndStep, v.intervalEndCost, v.intervalEndGradientDirection) =
        (u.bestStep, u.bestCost, u.bestGradientDirection) ∧
      (v.bestStep, v.bestCost, v.bestGradientDirection) =
        (u.step, cost, gradientDirection)) ∧
    (cost ≤ u.bestCost → isSignDifferent gradientDirection u.bestGradientDirection = false →
      (v.bestStep, v.bestCost, v.bestGradientDirection) =
        (u.step, cost, gradientDirection) ∧
      (v.intervalEndStep, v.intervalEndCost, v.intervalEndGradientDirection) =
        (u.intervalEndStep, u.intervalEndCost, u.intervalEndGradientDirection)) := by
  rw [(updateIntervalOfUncertainty_ok sqrtf u v cost gradientDirection minStep maxStep h).1]
  refine ⟨?_, ?_, ?_⟩
  · intro hc
    simp [updateEndpoints, hc]
  · intro hc hs
    simp [updateEndpoints, not_lt.mpr hc, hs]
  · intro hc hs
    simp [updateEndpoints, not_lt.mpr hc, hs]

/-- Witness of C27: the bracket `sameSignPoint` with the trial `(6, 0, -6)`, the third row
of the table. -/
theorem updateIntervalOfUncertainty_endpoints_witness :
    updateIntervalOfUncertainty sqrtExact sameSignPoint 0 (-6) 0 10 =
      .ok { bestStep := 6, bestCost := 0, bestGradientDirection := -6,
            intervalEndStep := 10, intervalEndCost := 50, intervalEndGradientDirection := 5,
            step := 0, bracket := true } ∧
    (0 : ℚ) ≤ sameSignPoint.bestCost ∧
    isSignDifferent (-6) sameSignPoint.bestGradientDirection = false ∧
    ((6 : ℚ), (0 : ℚ), (-6 : ℚ)) = (sameSignPoint.step, 0, -6) ∧
    ((10 : ℚ), (50 : ℚ), (5 : ℚ)) = (sameSignPoint.intervalEndStep,
      sameSignPoint.intervalEndCost, sameSignPoint.intervalEndGradientDirection) :=
  have h := ok_of_toOption (updateIntervalOfUncertainty sqrtExact sameSignPoint 0 (-6) 0 10)
    { bestStep := 6, bestCost := 0, bestGradientDirection := -6,
      intervalEndStep := 10, intervalEndCost := 50, intervalEndGradientDirection := 5,
      step := 0, bracket := true } (by decide!)
  ⟨h, by decide!, by decide!,
    ((updateIntervalOfUncertainty_endpoints sqrtExact sameSignPoint _ 0 (-6) 0 10 h).2.2
      (by decide!) (by decide!)).1,
    ((updateIntervalOfUncertainty_endpoints sqrtExact sameSignPoint _ 0 (-6) 0 10 h).2.2
      (by decide!) (by decide!)).2⟩

end intervalUpdate

section clamp

/-- The first two lines of the clip leave the step within `[minStep, maxStep]`, and the
two-thirds adjustment replaces it by the two-thirds point or leaves it. -/
theorem clipNewStep_cases (v : Uncertainty) (newStep minStep maxStep : ℚ)
    (bracket bounded : Bool) (h : minStep ≤ maxStep) :
    (minStep ≤ clipNewStep v newStep minStep maxStep bracket bounded ∧
        clipNewStep v newStep minStep maxStep bracket bounded ≤ maxStep) ∨
      (bracket = true ∧ bounded = true ∧
        clipNewStep v newStep minStep maxStep bracket bounded =
          v.bestStep + (2 / 3) * (v.intervalEndStep - v.bestStep)) := by
  unfold clipNewStep
  simp only [gt_iff_lt]
  split_ifs with h1 h2 h3 h4 h5 h6 h7 h8 h9 h10 h11 h12 h13 h14
  all_goals first
    | (right; exact ⟨by simp_all, by simp_all, rfl⟩)
    | (left; constructor <;> linarith)

/-- When the minimizer is bracketed and the case is bounded, the clipped step is on the
near side of the two-thirds point. -/
theorem clipNewStep_two_thirds (v : Uncertainty) (newStep minStep maxStep : ℚ) :
    (v.bestStep < v.intervalEndStep →
      clipNewStep v newStep minStep maxStep true true ≤
        v.bestStep + (2 / 3) * (v.intervalEndStep - v.bestStep)) ∧
    (v.intervalEndStep ≤ v.bestStep →
      v.bestStep + (2 / 3) * (v.intervalEndStep - v.bestStep) ≤
        clipNewStep v newStep minStep maxStep true true) := by
  unfold clipNewStep
  simp only [gt_iff_lt, and_self, if_true]
  constructor
  · intro hlt
    rw [if_pos hlt]
    split_ifs <;> linarith
  · intro hle
    rw [if_neg (not_lt.mpr hle)]
    split_ifs <;> linarith

end clamp

/-! ## The interval update inside the loop -/

section stageOne

/-- The forced decrease of the interval width leaves the two triples alone. -/
theorem forceDecrease_triples (w : SearchState) :
    (forceDecrease w).bestStep = w.bestStep ∧ (forceDecrease w).bestCost = w.bestCost ∧
    (forceDecrease w).bestGradientDirection = w.bestGradientDirection ∧
    (forceDecrease w).intervalEndStep = w.intervalEndStep ∧
    (forceDecrease w).intervalEndCost = w.intervalEndCost ∧
    (forceDecrease w).intervalEndGradientDirection = w.intervalEndGradientDirection := by
  unfold forceDecrease
  split <;> simp

/-- The update on the modified values, after the Armijo line is added back: the best
triple is the raw best triple or the raw trial triple, according to the comparison of the
modified costs, and the interval end is the raw triple of the interval end, of the trial
or of the old best. -/
theorem updateModified_triples (c : Call) (s w : SearchState)
    (h : updateModified c s = .ok w) :
    ((s.bestCost - s.bestStep * c.gradientDirectionTest <
          s.cost - s.step * c.gradientDirectionTest ∧
        (w.bestStep, w.bestCost, w.bestGradientDirection) =
          (s.bestStep, s.bestCost, s.bestGradientDirection) ∧
        (w.intervalEndStep, w.intervalEndCost, w.intervalEndGradientDirection) =
          (s.step, s.cost, s.gradientDirection)) ∨
      (s.cost - s.step * c.gradientDirectionTest ≤
          s.bestCost - s.bestStep * c.gradientDirectionTest ∧
        (w.bestStep, w.bestCost, w.bestGradientDirection) =
          (s.step, s.cost, s.gradientDirection) ∧
        ((w.intervalEndStep, w.intervalEndCost, w.intervalEndGradientDirection) =
            (s.intervalEndStep, s.intervalEndCost, s.intervalEndGradientDirection) ∨
          (w.intervalEndStep, w.intervalEndCost, w.intervalEndGradientDirection) =
            (s.bestStep, s.bestCost, s.bestGradientDirection)))) := by
  unfold updateModified at h
  simp only at h
  split at h
  · exact absurd h (by simp)
  · rename_i v hv
    injection h with h
    subst h
    have hv1 := (updateIntervalOfUncertainty_ok _ _ _ _ _ _ _ hv).1
    subst hv1
    simp only [updateEndpoints, SearchState.uncertainty]
    split_ifs with h1 h2
    · left
      refine ⟨h1, ?_, ?_⟩ <;> simp
    · right
      refine ⟨not_lt.mp h1, ?_, Or.inr ?_⟩ <;> simp
    · right
      refine ⟨not_lt.mp h1, ?_, Or.inl ?_⟩ <;> simp

/-- The update on the raw values: the best triple is the old one when its cost is lower
than the trial cost, the trial triple otherwise. -/
theorem updateRaw_triples (c : Call) (s w : SearchState) (h : updateRaw c s = .ok w) :
    (s.bestCost < s.cost ∧
        (w.bestStep, w.bestCost, w.bestGradientDirection) =
          (s.bestStep, s.bestCost, s.bestGradientDirection)) ∨
      (s.cost ≤ s.bestCost ∧
        (w.bestStep, w.bestCost, w.bestGradientDirection) =
          (s.step, s.cost, s.gradientDirection)) := by
  unfold updateRaw at h
  split at h
  · exact absurd h (by simp)
  · rename_i v hv
    injection h with h
    subst h
    have hv1 := (updateIntervalOfUncertainty_ok _ _ _ _ _ _ _ hv).1
    subst hv1
    simp only [updateEndpoints, SearchState.uncertainty]
    split_ifs with h1 h2
    · left
      exact ⟨h1, rfl⟩
    · right
      exact ⟨not_lt.mp h1, rfl⟩
    · right
      exact ⟨not_lt.mp h1, rfl⟩

/-- The two branches of the interval update of the loop body. -/
theorem updateTrial_branches (c : Call) (s t : SearchState) (h : updateTrial c s = .ok t) :
    ((stageOneAfter c s = true ∧ s.testCost < s.cost ∧ s.cost ≤ s.bestCost) ∧
        ∃ w, updateModified c { s with stageOne := stageOneAfter c s } = .ok w ∧
          t = forceDecrease w) ∨
      (¬ (stageOneAfter c s = true ∧ s.testCost < s.cost ∧ s.cost ≤ s.bestCost) ∧
        ∃ w, updateRaw c { s with stageOne := stageOneAfter c s } = .ok w ∧
          t = forceDecrease w) := by
  unfold updateTrial at h
  simp only at h
  split at h
  · exact absurd h (by simp)
  · rename_i w hw
    injection h with h
    split_ifs at hw with hc
    · exact Or.inl ⟨hc, w, hw, h.symm⟩
    · exact Or.inr ⟨hc, w, hw, h.symm⟩

/-- C28: in exact arithmetic, after an iteration that takes the stage-one path (the
interval update on the modified values `cost - step·gradientDirectionTest`,
`derivative - gradientDirectionTest`, then the Armijo line added back), the best triple
(step, cost, derivative) is the raw triple of the previous best or of the current trial, and
the interval-end triple is the raw triple of the previous interval end, of the current trial
or of the previous best. -/
theorem modified_update_restores_raw_values (c : Call) (s t : SearchState)
    (hpath : stageOneAfter c s = true ∧ s.testCost < s.cost ∧ s.cost ≤ s.bestCost)
    (h : updateTrial c s = .ok t) :
    ((t.bestStep, t.bestCost, t.bestGradientDirection) =
        (s.bestStep, s.bestCost, s.bestGradientDirection) ∨
      (t.bestStep, t.bestCost, t.bestGradientDirection) =
        (s.step, s.cost, s.gradientDirection)) ∧
    ((t.intervalEndStep, t.intervalEndCost, t.intervalEndGradientDirection) =
        (s.intervalEndStep, s.intervalEndCost, s.intervalEndGradientDirection) ∨
      (t.intervalEndStep, t.intervalEndCost, t.intervalEndGradientDirection) =
        (s.step, s.cost, s.gradientDirection) ∨
      (t.intervalEndStep, t.intervalEndCost, t.intervalEndGradientDirection) =
        (s.bestStep, s.bestCost, s.bestGradientDirection)) := by
  rcases updateTrial_branches c s t h with ⟨_, w, hw, ht⟩ | ⟨hnot, _⟩
  · obtain ⟨f1, f2, f3, f4, f5, f6⟩ := forceDecrease_triples w
    rw [ht, f1, f2, f3, f4, f5, f6]
    rcases updateModified_triples c _ w hw with ⟨_, hb, he⟩ | ⟨_, hb, he | he⟩
    · exact ⟨Or.inl hb, Or.inr (Or.inl he)⟩
    · exact ⟨Or.inr hb, Or.inl he⟩
    · exact ⟨Or.inr hb, Or.inr (Or.inr he)⟩
  · exact absurd hpath hnot

/-- Witness of C28: the parabola call with the function accuracy `1/2`, after the first
evaluation at the step `5`: the update on the modified values leaves the best triple
`(0, 9, -6)` and makes the raw trial triple `(5, 4, 4)` the interval end. -/
theorem modified_update_restores_raw_values_witness :
    (stageOneAfter stageOneCall stageOneState = true ∧
      stageOneState.testCost < stageOneState.cost ∧
      stageOneState.cost ≤ stageOneState.bestCost) ∧
    updateTrial stageOneCall stageOneState = .ok stageOneUpdated ∧
    (stageOneUpdated.bestStep, stageOneUpdated.bestCost,
      stageOneUpdated.bestGradientDirection) = (0, 9, -6) ∧
    (stageOneUpdated.intervalEndStep, stageOneUpdated.intervalEndCost,
      stageOneUpdated.intervalEndGradientDirection) = (5, 4, 4) ∧
    (((stageOneUpdated.bestStep, stageOneUpdated.bestCost,
        stageOneUpdated.bestGradientDirection) =
        (stageOneState.bestStep, stageOneState.bestCost,
          stageOneState.bestGradientDirection) ∨
      (stageOneUpdated.bestStep, stageOneUpdated.bestCost,
        stageOneUpdated.bestGradientDirection) =
        (stageOneState.step, stageOneState.cost, stageOneState.gradientDirection)) ∧
    ((stageOneUpdated.intervalEndStep, stageOneUpdated.intervalEndCost,
        stageOneUpdated.intervalEndGradientDirection) =
        (stageOneState.intervalEndStep, stageOneState.intervalEndCost,
          stageOneState.intervalEndGradientDirection) ∨
      (stageOneUpdated.intervalEndStep, stageOneUpdated.intervalEndCost,
        stageOneUpdated.intervalEndGradientDirection) =
        (stageOneState.step, stageOneState.cost, stageOneState.gradientDirection) ∨
      (stageOneUpdated.intervalEndStep, stageOneUpdated.intervalEndCost,
        stageOneUpdated.intervalEndGradientDirection) =
        (stageOneState.bestStep, stageOneState.bestCost,
          stageOneState.bestGradientDirection))) :=
  have h := ok_of_toOption (updateTrial stageOneCall stageOneState) stageOneUpdated
    (by decide!)
  ⟨by decide!, h, by decide!, by decide!,
    modified_update_restores_raw_values stageOneCall stageOneState stageOneUpdated
      (by decide!) h⟩

/-- C29 (as stated, refuted): on the parabola from `0` along `+1` with the first step `5`
and the function accuracy `1/2`, `search` returns normally after two evaluations, at the
steps `5` (cost `4`) and `39/50`; the minimizer is bracketed between the best step `0` and
the interval end `5`, and the best cost is still the initial cost `9`, above the cost `4`
of the trial processed by the interval update, which is an end of the bracket, and above
the cost `12321/2500` of the second trial, which lies inside the bracket. -/
theorem search_best_cost_above_processed_trial :
    ∃ o ∈ search { defaultConfig with fTolerance := 1 / 2 } sqrtExact parabola
        [0] 9 [-6] [1] 5 [0] [] 10,
      o.status = none ∧ o.final.evals = [5, 39 / 50] ∧ (parabola [5]).1 = 4 ∧
      o.final.bracket = true ∧ o.final.bestStep = 0 ∧ o.final.intervalEndStep = 5 ∧
      o.final.bestCost = 9 ∧ ¬ o.final.bestCost ≤ (parabola [5]).1 ∧
      (o.final.bestStep < o.final.step ∧ o.final.step < o.final.intervalEndStep) ∧
      o.final.cost = 12321 / 2500 ∧ ¬ o.final.bestCost ≤ o.final.cost := by
  decide!

/-- What an interval update of the loop does to the best cost, on the raw values and on the
stage-one modified values. -/
theorem updateTrial_best_cost_cases (c : Call) (s t : SearchState)
    (h : updateTrial c s = .ok t) :
    t.bestCost ≤ s.bestCost ∧
    (¬ (stageOneAfter c s = true ∧ s.testCost < s.cost ∧ s.cost ≤ s.bestCost) →
      t.bestCost ≤ s.cost) ∧
    ((stageOneAfter c s = true ∧ s.testCost < s.cost ∧ s.cost ≤ s.bestCost) →
      t.bestCost - t.bestStep * c.gradientDirectionTest ≤
          s.cost - s.step * c.gradientDirectionTest ∧
        t.bestCost - t.bestStep * c.gradientDirectionTest ≤
          s.bestCost - s.bestStep * c.gradientDirectionTest) := by
  rcases updateTrial_branches c s t h with ⟨hpath, w, hw, ht⟩ | ⟨hnot, w, hw, ht⟩
  · obtain ⟨f1, f2, _, _, _, _⟩ := forceDecrease_triples w
    have hcases := updateModified_triples c _ w hw
    simp only [Prod.mk.injEq] at hcases
    refine ⟨?_, fun hn => absurd hpath hn, fun _ => ?_⟩
    · rw [ht, f2]
      rcases hcases with ⟨_, ⟨_, hb, _⟩, _⟩ | ⟨_, ⟨_, hb, _⟩, _⟩
      · rw [hb]
      · rw [hb]
        exact hpath.2.2
    · rw [ht, f1, f2]
      rcases hcases with ⟨hlt, ⟨hs, hb, _⟩, _⟩ | ⟨hle, ⟨hs, hb, _⟩, _⟩
      · rw [hs, hb]
        exact ⟨le_of_lt hlt, le_refl _⟩
      · rw [hs, hb]
        exact ⟨le_refl _, hle⟩
  · obtain ⟨_, f2, _, _, _, _⟩ := forceDecrease_triples w
    have hcases := updateRaw_triples c _ w hw
    simp only [Prod.mk.injEq] at hcases
    refine ⟨?_, fun _ => ?_, fun hp => absurd hp hnot⟩
    · rw [ht, f2]
      rcases hcases with ⟨_, _, hb, _⟩ | ⟨hle, _, hb, _⟩
      · rw [hb]
      · rw [hb]
        exact hle
    · rw [ht, f2]
      rcases hcases with ⟨hlt, _, hb, _⟩ | ⟨_, _, hb, _⟩
      · rw [hb]
        exact le_of_lt hlt
      · rw [hb]

/-- C29 (amended): an interval update of the loop never raises the best cost; an update on
the raw values leaves it no higher than the cost of the trial it processed; an update on
the stage-one modified values leaves the modified best cost,
`bestCost - bestStep·gradientDirectionTest`, no higher than the modified cost of the trial
and than the old modified best cost, and can leave the best cost itself above the cost of
the trial. -/
theorem updateTrial_best_cost (c : Call) (s t : SearchState) (h : updateTrial c s = .ok t) :
    t.bestCost ≤ s.bestCost ∧
    (¬ (stageOneAfter c s = true ∧ s.testCost < s.cost ∧ s.cost ≤ s.bestCost) →
      t.bestCost ≤ s.cost) ∧
    ((stageOneAfter c s = true ∧ s.testCost < s.cost ∧ s.cost ≤ s.bestCost) →
      t.bestCost - t.bestStep * c.gradientDirectionTest ≤
          s.cost - s.step * c.gradientDirectionTest ∧
        t.bestCost - t.bestStep * c.gradientDirectionTest ≤
          s.bestCost - s.bestStep * c.gradientDirectionTest) :=
  updateTrial_best_cost_cases c s t h

/-- Witness of the amended C29: the parabola call with the function accuracy `1/2`, after
the first evaluation at the step `5`. -/
theorem updateTrial_best_cost_witness :
    updateTrial stageOneCall stageOneState = .ok stageOneUpdated ∧
    (stageOneUpdated.bestCost, stageOneState.bestCost, stageOneState.cost) = (9, 9, 4) ∧
    (stageOneUpdated.bestCost ≤ stageOneState.bestCost ∧
    (¬ (stageOneAfter stageOneCall stageOneState = true ∧
        stageOneState.testCost < stageOneState.cost ∧
        stageOneState.cost ≤ stageOneState.bestCost) →
      stageOneUpdated.bestCost ≤ stageOneState.cost) ∧
    ((stageOneAfter stageOneCall stageOneState = true ∧
        stageOneState.testCost < stageOneState.cost ∧
        stageOneState.cost ≤ stageOneState.bestCost) →
      stageOneUpdated.bestCost - stageOneUpdated.bestStep * stageOneCall.gradientDirectionTest ≤
          stageOneState.cost - stageOneState.step * stageOneCall.gradientDirectionTest ∧
        stageOneUpdated.bestCost -
            stageOneUpdated.bestStep * stageOneCall.gradientDirectionTest ≤
          stageOneState.bestCost -
            stageOneState.bestStep * stageOneCall.gradientDirectionTest)) :=
  have h := ok_of_toOption (updateTrial stageOneCall stageOneState) stageOneUpdated
    (by decide!)
  ⟨h, by decide!, updateTrial_best_cost stageOneCall stageOneState stageOneUpdated h⟩

/-- Throughout a call of `search` the best cost stays at or below the initial cost: it is
so in the variables with which any call ends. -/
theorem search_best_cost_le_initial (cfg : Config) (sqrtf : ℚ → ℚ)
    (costFunction : List ℚ → ℚ × List ℚ) (inputs : List ℚ) (cost : ℚ)
    (gradient direction : List ℚ) (step : ℚ) (previousInputs previousGradients : List ℚ)
    (fuel : ℕ) (o : Outcome)
    (h : search cfg sqrtf costFunction inputs cost gradient direction step previousInputs
      previousGradients fuel = some o) :
    o.final.bestCost ≤ cost := by
  rcases search_cases cfg sqrtf costFunction inputs cost gradient direction step
    previousInputs previousGradients fuel o h with ⟨_, ho⟩ | ⟨_, hloop⟩
  · rw [ho]
    exact le_refl _
  · obtain ⟨s1, hinv, hend⟩ := searchLoop_invariant
      (mkCall cfg sqrtf costFunction cost gradient direction previousInputs)
      (fun s => s.bestCost ≤ cost)
      (fun s t1 hs ht => by
        obtain ⟨_, hu⟩ := iterate_inr _ s t1 ht
        exact le_trans (updateTrial_best_cost_cases _ _ _ hu).1 hs)
      fuel _ o (le_refl _) hloop
    rw [(iterate_inl _ s1 o hend).1]
    exact hinv

end stageOne

/-! ## CostAndGradientFunction -/

section costAndGradientFunction

/-- A loop of `push_back`s builds the list of the pushed values. -/
theorem foldl_push_back {α β : Type} (g : α → β) (xs : List α) (acc : List β) :
    xs.foldl (fun vector x => vector ++ [g x]) acc = acc ++ xs.map g := by
  induction xs generalizing acc with
  | nil => simp
  | cons x xs ih => simp [ih]

/-- C22: `getUninitializedDataStructure` returns one matrix per shape descriptor, in the
order of the descriptors, each with the block count, rows per block, columns per block and
row-sparse flag of its descriptor, and with all its `blocks·rows·columns` entries zero; for
a function constructed from an exemplar matrix vector the list has the length of the
exemplar and, matrix by matrix, its shapes. -/
theorem getUninitializedDataStructure_matches_format (f : CostAndGradientFunction) :
    f.getUninitializedDataStructure.map SparseMatrixFormat.ofMatrix = f.format ∧
    f.getUninitializedDataStructure.length = f.format.length ∧
    (∀ m ∈ f.getUninitializedDataStructure,
      m.data.length = m.blocks * m.rowsPerBlock * m.columnsPerBlock ∧ ∀ x ∈ m.data, x = 0) ∧
    ∀ (i c : ℚ) (vector : List BlockSparseMatrix),
      (CostAndGradientFunction.ofVector i c vector).getUninitializedDataStructure.length =
          vector.length ∧
        (CostAndGradientFunction.ofVector i c vector).getUninitializedDataStructure.map
            SparseMatrixFormat.ofMatrix = vector.map SparseMatrixFormat.ofMatrix := by
  have hmap : ∀ g : CostAndGradientFunction,
      g.getUninitializedDataStructure = g.format.map fun d =>
        BlockSparseMatrix.zeros d.blocks d.rowsPerBlock d.columnsPerBlock d.isRowSparse := by
    intro g
    unfold CostAndGradientFunction.getUninitializedDataStructure
    rw [foldl_push_back]
    simp
  have hshape : ∀ g : CostAndGradientFunction,
      g.getUninitializedDataStructure.map SparseMatrixFormat.ofMatrix = g.format := by
    intro g
    rw [hmap, List.map_map]
    conv_rhs => rw [← List.map_id g.format]
    apply List.map_congr_left
    intro d _
    rfl
  have hformat : ∀ (i c : ℚ) (vector : List BlockSparseMatrix),
      (CostAndGradientFunction.ofVector i c vector).format =
        vector.map SparseMatrixFormat.ofMatrix := by
    intro i c vector
    unfold CostAndGradientFunction.ofVector convertToFormat
    simp only
    rw [foldl_push_back]
    simp
  refine ⟨hshape f, ?_, ?_, ?_⟩
  · rw [hmap, List.length_map]
  · intro m hm
    rw [hmap] at hm
    obtain ⟨d, _, rfl⟩ := List.mem_map.mp hm
    refine ⟨by simp [BlockSparseMatrix.zeros], ?_⟩
    intro x hx
    simp only [BlockSparseMatrix.zeros] at hx
    exact (List.mem_replicate.mp hx).2
  · intro i c vector
    refine ⟨?_, ?_⟩
    · rw [hmap, List.length_map, hformat, List.length_map]
    · rw [hshape, hformat]

end costAndGradientFunction

/-! ## The end of the iteration budget -/

section budget

/-- When the minimizer is not bracketed, the trial is not replaced by the best step: the
step evaluated is the trial clamped into the configured bounds. -/
theorem evaluateTrial_step_unbracketed (c : Call) (s : SearchState)
    (hbracket : s.bracket = false) :
    (evaluateTrial c s).step =
      (if c.cfg.maxStep < (if s.step < c.cfg.minStep then c.cfg.minStep else s.step)
        then c.cfg.maxStep else (if s.step < c.cfg.minStep then c.cfg.minStep else s.step)) := by
  simp [evaluateTrial, wouldTerminate, hbracket]

/-- When the minimizer is bracketed and the coming evaluation reaches the iteration budget,
the trial is replaced by the best step. -/
theorem evaluateTrial_step_last (c : Call) (s : SearchState) (hbracket : s.bracket = true)
    (hbudget : c.cfg.maxLineSearch ≤ s.iteration + 1) :
    (evaluateTrial c s).step = s.bestStep := by
  simp [evaluateTrial, wouldTerminate, hbracket, hbudget]

/-- A pass whose evaluation reaches the iteration budget ends the call. -/
theorem exitTests_last (c : Call) (t : SearchState)
    (hbudget : c.cfg.maxLineSearch ≤ t.iteration) :
    ∃ st, exitTests c t = some st := by
  unfold exitTests
  split_ifs
  all_goals exact ⟨_, rfl⟩

/-- C31 (as stated, refuted): on the oracle `ramp` from `0` (cost `0`, slope `-1`) along
`+1` with first step `1` and a budget of two iterations, the first trial (cost `-1`)
becomes the best point without bracketing the minimizer; the second evaluation exhausts
the budget and is made at the trial step `5`, not at the best step `1`, and `search`
returns its cost `10`, above the initial cost `0` and above the cost `-1` of the earlier
trial. -/
theorem search_budget_exhaustion_returns_worse_trial :
    ∃ o ∈ search { defaultConfig with maxLineSearch := 2 } sqrtExact ramp
        [0] 0 [-1] [1] 1 [0] [] 2,
      o.status = none ∧ o.final.iteration = 2 ∧ o.final.evals = [1, 5] ∧
      o.final.bracket = false ∧ o.final.bestStep = 1 ∧ o.final.bestCost = -1 ∧
      o.final.step = 5 ∧ o.final.inputs = [5] ∧ o.final.cost = 10 ∧
      ¬ o.final.cost ≤ 0 ∧ (ramp [1]).1 = -1 ∧ ¬ o.final.cost ≤ (ramp [1]).1 := by
  decide!

/-- C31 (amended): in a pass whose evaluation reaches the iteration budget, if the
minimizer is bracketed the step evaluated is the best step, the call ends on that pass by
a normal return, and the returned inputs and cost are those of the oracle at the best
step; if the minimizer is not bracketed the step evaluated is the trial step clamped into
the configured bounds, and the call ends on that pass at that trial. -/
theorem budget_exhaustion_evaluates_best_step_when_bracketed (c : Call) (s : SearchState)
    (hbudget : c.cfg.maxLineSearch ≤ s.iteration + 1) :
    (s.bracket = true →
      (evaluateTrial c s).step = s.bestStep ∧
      ∃ o, iterate c s = .inl o ∧ o.status = none ∧ o.final = evaluateTrial c s ∧
        o.final.inputs = add c.previousInputs (multiply c.direction s.bestStep) ∧
        o.final.cost =
          (c.costFunction (add c.previousInputs (multiply c.direction s.bestStep))).1) ∧
    (s.bracket = false →
      (evaluateTrial c s).step =
        (if c.cfg.maxStep < (if s.step < c.cfg.minStep then c.cfg.minStep else s.step)
          then c.cfg.maxStep
          else (if s.step < c.cfg.minStep then c.cfg.minStep else s.step)) ∧
      ∃ o, iterate c s = .inl o ∧ o.final = evaluateTrial c s) := by
  constructor
  · intro hb
    have hstep := evaluateTrial_step_last c s hb hbudget
    have hexit := rounding_test_returns c _ (bestStep_is_bracket_end c s hb hstep)
    refine ⟨hstep, _, iterate_of_exit c s none hexit, rfl, rfl, ?_, ?_⟩
    · show (evaluateTrial c s).inputs = _
      rw [evaluateTrial_inputs, hstep]
    · show (evaluateTrial c s).cost = _
      rw [evaluateTrial_cost, evaluateTrial_inputs, hstep]
  · intro hb
    refine ⟨evaluateTrial_step_unbracketed c s hb, ?_⟩
    obtain ⟨st, hst⟩ := exitTests_last c (evaluateTrial c s)
      (by rw [evaluateTrial_iteration]; exact hbudget)
    exact ⟨_, iterate_of_exit c s st hst, rfl⟩

/-- Witness of the amended C31: the parabola call with a budget of two iterations, at the
top of the second pass with the bracket `[0, 10]`. -/
theorem budget_exhaustion_evaluates_best_step_when_bracketed_witness :
    lastPassCall.cfg.maxLineSearch ≤ coarseState.iteration + 1 ∧
    coarseState.bracket = true ∧
    (evaluateTrial lastPassCall coarseState).step = coarseState.bestStep ∧
    ∃ o, iterate lastPassCall coarseState = .inl o ∧ o.status = none ∧
      o.final = evaluateTrial lastPassCall coarseState ∧
      o.final.inputs =
        add lastPassCall.previousInputs (multiply lastPassCall.direction coarseState.bestStep) ∧
      o.final.cost = (lastPassCall.costFunction
        (add lastPassCall.previousInputs
          (multiply lastPassCall.direction coarseState.bestStep))).1 :=
  ⟨by decide, rfl,
    (budget_exhaustion_evaluates_best_step_when_bracketed lastPassCall coarseState
      (by decide)).1 rfl⟩

end budget

/-! ## The cases of the interval update -/

section cases

/-- C32 (as stated, refuted): in the call on `ramp` with the default bounds, the first
trial `(1, -1, -1)` has a lower cost than the best point `(0, 0, -1)` and a derivative of
the same sign and the same magnitude, and the minimizer is not bracketed; the new step is
`5`, the `maxStep` of the pass, `step + 4 (step - bestStep)`, not the configured
MaximumStep `10^20`. -/
theorem unbracketed_step_is_not_the_configured_maximum :
    rampState.bracket = false ∧ rampState.cost ≤ rampState.bestCost ∧
    isSignDifferent rampState.gradientDirection rampState.bestGradientDirection = false ∧
    |rampState.bestGradientDirection| ≤ |rampState.gradientDirection| ∧
    rampState.bestStep < rampState.step ∧
    ∃ t ∈ (updateTrial rampCall rampState).toOption,
      t.step = 5 ∧ t.step = rampState.maxStep ∧
      rampState.maxStep = rampState.step + 4 * (rampState.step - rampState.bestStep) ∧
      rampCall.cfg.maxStep = 10 ^ 20 ∧ t.step ≠ rampCall.cfg.maxStep := by
  decide!

/-- C32 (amended): in the case of a lower cost with a derivative of the same sign and of
non-decreasing magnitude, the step selected is the six-argument cubic minimizer from the
best and trial points if the minimizer is bracketed, and otherwise the `maxStep` argument
when best step < trial step and the `minStep` argument if not; the bracket flag is left as
it was and the case is not bounded; on return the trial is the new best, the interval end
is unchanged and, when not bracketed with `minStep ≤ maxStep`, the new step is that
`maxStep` or `minStep`.  The arguments are not the configured bounds: in a pass of `search`
that is not bracketed they are the best step and `step + 4 (step - bestStep)`. -/
theorem non_decreasing_magnitude_case (sqrtf : ℚ → ℚ) (u : Uncertainty)
    (cost gradientDirection minStep maxStep : ℚ) (hcost : cost ≤ u.bestCost)
    (hsign : isSignDifferent gradientDirection u.bestGradientDirection = false)
    (hmag : |u.bestGradientDirection| ≤ |gradientDirection|) :
    selectNewStep sqrtf u cost gradientDirection minStep maxStep =
      ((if u.bracket then findCubicMinimizer sqrtf u.bestStep u.bestCost
            u.bestGradientDirection u.step cost gradientDirection
          else if u.bestStep < u.step then maxStep else minStep), u.bracket, false) ∧
    (∀ v, updateIntervalOfUncertainty sqrtf u cost gradientDirection minStep maxStep = .ok v →
      (v.bestStep, v.bestCost, v.bestGradientDirection) = (u.step, cost, gradientDirection) ∧
      (v.intervalEndStep, v.intervalEndCost, v.intervalEndGradientDirection) =
        (u.intervalEndStep, u.intervalEndCost, u.intervalEndGradientDirection) ∧
      v.bracket = u.bracket ∧
      (u.bracket = false → minStep ≤ maxStep →
        v.step = if u.bestStep < u.step then maxStep else minStep)) ∧
    (∀ (c : Call) (s : SearchState), s.bracket = false →
      (evaluateTrial c s).minStep = s.bestStep ∧
      (evaluateTrial c s).maxStep = s.step + 4 * (s.step - s.bestStep)) := by
  have hnot : ¬ u.bestCost < cost := not_lt.mpr hcost
  have hnmag : ¬ |gradientDirection| < |u.bestGradientDirection| := not_lt.mpr hmag
  have hsel : selectNewStep sqrtf u cost gradientDirection minStep maxStep =
      ((if u.bracket then findCubicMinimizer sqrtf u.bestStep u.bestCost
            u.bestGradientDirection u.step cost gradientDirection
          else if u.bestStep < u.step then maxStep else minStep), u.bracket, false) := by
    unfold selectNewStep
    simp only [hnot, hsign, hnmag, if_false, Bool.false_eq_true]
    split_ifs <;> rfl
  refine ⟨hsel, ?_, ?_⟩
  · intro v hv
    obtain ⟨hv1, _⟩ := updateIntervalOfUncertainty_ok sqrtf u v cost gradientDirection
      minStep maxStep hv
    rw [hsel] at hv1
    subst hv1
    refine ⟨?_, ?_, rfl, ?_⟩
    · simp [updateEndpoints, hnot, hsign]
    · simp [updateEndpoints, hnot, hsign]
    · intro hb hmm
      simp only [hb, Bool.false_eq_true, if_false, clipNewStep, gt_iff_lt, false_and]
      split_ifs <;> first | rfl | linarith
  · intro c s hb
    simp [evaluateTrial, hb]

/-- Witness of the amended C32: the first update of the call on `ramp`, on the raw values
of the evaluated trial. -/
theorem non_decreasing_magnitude_case_witness :
    rampState.cost ≤ rampState.uncertainty.bestCost ∧
    isSignDifferent rampState.gradientDirection rampState.uncertainty.bestGradientDirection =
      false ∧
    |rampState.uncertainty.bestGradientDirection| ≤ |rampState.gradientDirection| ∧
    selectNewStep sqrtExact rampState.uncertainty rampState.cost rampState.gradientDirection
      rampState.minStep rampState.maxStep = (5, false, false) ∧
    selectNewStep sqrtExact rampState.uncertainty rampState.cost rampState.gradientDirection
        rampState.minStep rampState.maxStep =
      ((if rampState.uncertainty.bracket then
          findCubicMinimizer sqrtExact rampState.uncertainty.bestStep
            rampState.uncertainty.bestCost rampState.uncertainty.bestGradientDirection
            rampState.uncertainty.step rampState.cost rampState.gradientDirection
        else if rampState.uncertainty.bestStep < rampState.uncertainty.step then
          rampState.maxStep else rampState.minStep), rampState.uncertainty.bracket, false) :=
  ⟨by decide!, by decide!, by decide!, by decide!,
    (non_decreasing_magnitude_case sqrtExact rampState.uncertainty rampState.cost
      rampState.gradientDirection rampState.minStep rampState.maxStep (by decide!)
      (by decide!) (by decide!)).1⟩

/-- The selection of the higher-cost case, as the code makes it: the bracket flag is set
and, before clamping, the step is the six-argument cubic minimizer when it is strictly
closer to the best step than the value of the five-argument `findQuadraticMinimizer`, and
otherwise the midpoint of the two. -/
theorem higher_cost_case (sqrtf : ℚ → ℚ) (u : Uncertainty)
    (cost gradientDirection minStep maxStep : ℚ) (hcost : u.bestCost < cost) :
    (selectNewStep sqrtf u cost gradientDirection minStep maxStep).2.1 = true ∧
    (∀ v, updateIntervalOfUncertainty sqrtf u cost gradientDirection minStep maxStep = .ok v →
      v.bracket = true) ∧
    (|findCubicMinimizer sqrtf u.bestStep u.bestCost u.bestGradientDirection u.step cost
          gradientDirection - u.bestStep| <
        |findQuadraticMinimizer u.bestStep u.bestCost u.bestGradientDirection u.step cost -
          u.bestStep| →
      (selectNewStep sqrtf u cost gradientDirection minStep maxStep).1 =
        findCubicMinimizer sqrtf u.bestStep u.bestCost u.bestGradientDirection u.step cost
          gradientDirection) ∧
    (¬ |findCubicMinimizer sqrtf u.bestStep u.bestCost u.bestGradientDirection u.step cost
          gradientDirection - u.bestStep| <
        |findQuadraticMinimizer u.bestStep u.bestCost u.bestGradientDirection u.step cost -
          u.bestStep| →
      (selectNewStep sqrtf u cost gradientDirection minStep maxStep).1 =
        (findCubicMinimizer sqrtf u.bestStep u.bestCost u.bestGradientDirection u.step cost
            gradientDirection +
          findQuadraticMinimizer u.bestStep u.bestCost u.bestGradientDirection u.step cost) /
          2) := by
  have hsel : (selectNewStep sqrtf u cost gradientDirection minStep maxStep).2.1 = true := by
    unfold selectNewStep
    simp only [hcost, if_true]
    split_ifs <;> rfl
  refine ⟨hsel, ?_, ?_, ?_⟩
  · intro v hv
    rw [(updateIntervalOfUncertainty_ok sqrtf u v cost gradientDirection minStep maxStep hv).1]
    exact hsel
  · intro hnear
    unfold selectNewStep
    simp only [hcost, if_true, hnear]
  · intro hfar
    unfold selectNewStep
    simp only [hcost, if_true, hfar, if_false]
    ring

end cases

section higherCost

/-- On the samples of a quadratic `a x² + b x + c` with `a ≠ 0` at `u ≠ v`, the formula of
the quadratic interpolant gives the stationary point `-b / (2a)`. -/
theorem quadraticInterpolantMinimizer_quadratic (a b c u v : ℚ) (ha : a ≠ 0) (huv : u ≠ v) :
    quadraticInterpolantMinimizer u (cubic 0 a b c u) (cubicDerivative 0 a b u) v
      (cubic 0 a b c v) = -b / (2 * a) := by
  have hd : v - u ≠ 0 := sub_ne_zero.mpr (Ne.symm huv)
  have h1 : (cubic 0 a b c u - cubic 0 a b c v) / (v - u) + cubicDerivative 0 a b u =
      -(a * (v - u)) := by
    unfold cubic cubicDerivative
    field_simp
    ring
  have hdu : cubicDerivative 0 a b u = 2 * a * u + b := by unfold cubicDerivative; ring
  unfold quadraticInterpolantMinimizer
  rw [h1, hdu]
  field_simp
  ring

/-- C33 (defect of the code): for the best point `(0, 9, -3)` and the trial `(5, 19, 7)`,
the samples of `a² - 3a + 9` at `0` and `5` (a higher cost at the trial), the cubic
minimizer is `3/2` and the minimizer of the interpolating quadratic is `3/2` too, so the
step of the claim, their midpoint, is `3/2`; the code sets the bracket flag and applies the
rule of the claim to the value `3/50` of the five-argument `findQuadraticMinimizer`, and
selects `39/50`. -/
theorem higher_cost_step_misses_quadratic_minimizer :
    (cubic 0 1 (-3) 9 0, cubicDerivative 0 1 (-3) 0, cubic 0 1 (-3) 9 5,
      cubicDerivative 0 1 (-3) 5) = (9, -3, 19, 7) ∧
    higherCostPoint.bestCost < 19 ∧
    findCubicMinimizer sqrtExact 0 9 (-3) 5 19 7 = 3 / 2 ∧
    quadraticInterpolantMinimizer 0 9 (-3) 5 19 = 3 / 2 ∧
    cubicDerivative 0 1 (-3) (3 / 2) = 0 ∧
    higherCostStep 0 (findCubicMinimizer sqrtExact 0 9 (-3) 5 19 7)
      (quadraticInterpolantMinimizer 0 9 (-3) 5 19) = 3 / 2 ∧
    findQuadraticMinimizer 0 9 (-3) 5 19 = 3 / 50 ∧
    selectNewStep sqrtExact higherCostPoint 19 7 0 25 = (39 / 50, true, true) ∧
    (selectNewStep sqrtExact higherCostPoint 19 7 0 25).1 =
      higherCostStep 0 (findCubicMinimizer sqrtExact 0 9 (-3) 5 19 7)
        (findQuadraticMinimizer 0 9 (-3) 5 19) ∧
    (selectNewStep sqrtExact higherCostPoint 19 7 0 25).1 ≠
      higherCostStep 0 (findCubicMinimizer sqrtExact 0 9 (-3) 5 19 7)
        (quadraticInterpolantMinimizer 0 9 (-3) 5 19) ∧
    ∃ v ∈ (updateIntervalOfUncertainty sqrtExact higherCostPoint 19 7 0 25).toOption,
      v.bracket = true ∧ v.step = 39 / 50 := by
  decide!

end higherCost

/-! ## The bracket -/

section bracket

/-- The case analysis never clears the bracket flag. -/
theorem selectNewStep_bracket (sqrtf : ℚ → ℚ) (u : Uncertainty)
    (cost gradientDirection minStep maxStep : ℚ) (hb : u.bracket = true) :
    (selectNewStep sqrtf u cost gradientDirection minStep maxStep).2.1 = true := by
  unfold selectNewStep
  simp only [hb]
  split_ifs <;> rfl

/-- Replacing an end of an interval by a point strictly inside it gives an interval that
is contained in it and strictly narrower. -/
theorem interval_shrinks (a b t x y : ℚ) (hlow : min a b < t) (hhigh : t < max a b)
    (hxy : (x = a ∧ y = t) ∨ (x = t ∧ y = a) ∨ (x = t ∧ y = b)) :
    min a b ≤ min x y ∧ max x y ≤ max a b ∧ |y - x| < |b - a| := by
  rcases le_total a b with hab | hab
  · rw [min_eq_left hab] at hlow ⊢
    rw [max_eq_right hab] at hhigh ⊢
    rw [abs_of_nonneg (sub_nonneg.mpr hab)]
    rcases hxy with ⟨rfl, rfl⟩ | ⟨rfl, rfl⟩ | ⟨rfl, rfl⟩
    · refine ⟨le_min (le_refl _) (le_of_lt hlow), max_le hab (le_of_lt hhigh), ?_⟩
      rw [abs_lt]
      constructor <;> linarith
    · refine ⟨le_min (le_of_lt hlow) (le_refl _), max_le (le_of_lt hhigh) hab, ?_⟩
      rw [abs_lt]
      constructor <;> linarith
    · refine ⟨le_min (le_of_lt hlow) hab, max_le (le_of_lt hhigh) (le_refl _), ?_⟩
      rw [abs_lt]
      constructor <;> linarith
  · rw [min_eq_right hab] at hlow ⊢
    rw [max_eq_left hab] at hhigh ⊢
    rw [abs_of_nonpos (sub_nonpos.mpr hab)]
    rcases hxy with ⟨rfl, rfl⟩ | ⟨rfl, rfl⟩ | ⟨rfl, rfl⟩
    · refine ⟨le_min hab (le_of_lt hlow), max_le (le_refl _) (le_of_lt hhigh), ?_⟩
      rw [abs_lt]
      constructor <;> linarith
    · refine ⟨le_min (le_of_lt hlow) hab, max_le (le_of_lt hhigh) (le_refl _), ?_⟩
      rw [abs_lt]
      constructor <;> linarith
    · refine ⟨le_min (le_of_lt hlow) (le_refl _), max_le (le_of_lt hhigh) hab, ?_⟩
      rw [abs_lt]
      constructor <;> linarith

/-- C35: when `updateIntervalOfUncertainty` is entered with the bracket flag set and returns
normally, the trial step was strictly between the best step and the interval end, the flag
is still set, and the interval between the new best step and the new interval end is
contained in the previous one and strictly narrower. -/
theorem bracket_is_kept_and_shrinks (sqrtf : ℚ → ℚ) (u v : Uncertainty)
    (cost gradientDirection minStep maxStep : ℚ) (hb : u.bracket = true)
    (h : updateIntervalOfUncertainty sqrtf u cost gradientDirection minStep maxStep = .ok v) :
    (min u.bestStep u.intervalEndStep < u.step ∧ u.step < max u.bestStep u.intervalEndStep) ∧
    v.bracket = true ∧
    min u.bestStep u.intervalEndStep ≤ min v.bestStep v.intervalEndStep ∧
    max v.bestStep v.intervalEndStep ≤ max u.bestStep u.intervalEndStep ∧
    |v.intervalEndStep - v.bestStep| < |u.intervalEndStep - u.bestStep| := by
  obtain ⟨hv, hentry⟩ :=
    updateIntervalOfUncertainty_ok sqrtf u v cost gradientDirection minStep maxStep h
  obtain ⟨hlow, hhigh, _⟩ := hentry hb
  have hbracket : v.bracket = true := by
    rw [hv]
    exact selectNewStep_bracket sqrtf u cost gradientDirection minStep maxStep hb
  have hends : (v.bestStep = u.bestStep ∧ v.intervalEndStep = u.step) ∨
      (v.bestStep = u.step ∧ v.intervalEndStep = u.bestStep) ∨
      (v.bestStep = u.step ∧ v.intervalEndStep = u.intervalEndStep) := by
    rw [hv]
    unfold updateEndpoints
    split_ifs <;> simp
  exact ⟨⟨hlow, hhigh⟩, hbracket,
    interval_shrinks u.bestStep u.intervalEndStep u.step v.bestStep v.intervalEndStep
      hlow hhigh hends⟩

/-- Witness of C35: the bracket `sameSignPoint`, `[0, 10]`, with the trial `(6, 0, -6)`: the
new bracket is `[6, 10]`. -/
theorem bracket_is_kept_and_shrinks_witness :
    sameSignPoint.bracket = true ∧
    updateIntervalOfUncertainty sqrtExact sameSignPoint 0 (-6) 0 10 =
      .ok { bestStep := 6, bestCost := 0, bestGradientDirection := -6,
            intervalEndStep := 10, intervalEndCost := 50, intervalEndGradientDirection := 5,
            step := 0, bracket := true } ∧
    ((min sameSignPoint.bestStep sameSignPoint.intervalEndStep < sameSignPoint.step ∧
      sameSignPoint.step < max sameSignPoint.bestStep sameSignPoint.intervalEndStep) ∧
    true = true ∧
    min sameSignPoint.bestStep sameSignPoint.intervalEndStep ≤ min (6 : ℚ) 10 ∧
    max (6 : ℚ) 10 ≤ max sameSignPoint.bestStep sameSignPoint.intervalEndStep ∧
    |(10 : ℚ) - 6| < |sameSignPoint.intervalEndStep - sameSignPoint.bestStep|) :=
  have h := ok_of_toOption (updateIntervalOfUncertainty sqrtExact sameSignPoint 0 (-6) 0 10)
    { bestStep := 6, bestCost := 0, bestGradientDirection := -6,
      intervalEndStep := 10, intervalEndCost := 50, intervalEndGradientDirection := 5,
      step := 0, bracket := true } (by decide!)
  ⟨rfl, h, bracket_is_kept_and_shrinks sqrtExact sameSignPoint _ 0 (-6) 0 10 rfl h⟩

end bracket

/-! ## The calls that `search` makes to the interval update -/

section calls

variable (c : Call)

/-- At the interval update of a bracketed pass the trial is strictly inside the bracket,
whose ends `search` passes as `minStep` and `maxStep`. -/
theorem update_arguments_valid (s : SearchState) (hb : s.bracket = true)
    (hx : exitTests c (evaluateTrial c s) = none) :
    min s.bestStep s.intervalEndStep < (evaluateTrial c s).step ∧
    (evaluateTrial c s).step < max s.bestStep s.intervalEndStep ∧
    (evaluateTrial c s).minStep = min s.bestStep s.intervalEndStep ∧
    (evaluateTrial c s).maxStep = max s.bestStep s.intervalEndStep ∧
    (evaluateTrial c s).minStep ≤ (evaluateTrial c s).maxStep := by
  have hmin : (evaluateTrial c s).minStep = min s.bestStep s.intervalEndStep := by
    simp [evaluateTrial, hb]
  have hmax : (evaluateTrial c s).maxStep = max s.bestStep s.intervalEndStep := by
    simp [evaluateTrial, hb]
  have hbe : (evaluateTrial c s).bracket = true := hb
  have hnot : ¬ ((evaluateTrial c s).bracket = true ∧
      ((evaluateTrial c s).step ≤ (evaluateTrial c s).minStep ∨
        (evaluateTrial c s).maxStep ≤ (evaluateTrial c s).step)) := by
    intro hcol
    rw [rounding_test_returns c _ hcol] at hx
    exact absurd hx (by simp)
  rw [hmin, hmax] at hnot
  simp only [hbe, true_and, not_or, not_le] at hnot
  refine ⟨hnot.1, hnot.2, hmin, hmax, ?_⟩
  rw [hmin, hmax]
  exact le_trans (min_le_left _ _) (le_max_left _ _)

/-- The interval update on arguments that pass the parameter checks on the steps raises
nothing but the failure on the derivative at the best step. -/
theorem updateIntervalOfUncertainty_error_of_valid (sqrtf : ℚ → ℚ) (u : Uncertainty)
    (cost gradientDirection minStep maxStep : ℚ) (f : Failure)
    (hvalid : u.bracket = true →
      min u.bestStep u.intervalEndStep < u.step ∧ u.step < max u.bestStep u.intervalEndStep ∧
        minStep ≤ maxStep)
    (h : updateIntervalOfUncertainty sqrtf u cost gradientDirection minStep maxStep =
      .error f) : f = .noDecreaseFromStart := by
  unfold updateIntervalOfUncertainty at h
  split_ifs at h with h1 h2 h3
  · obtain ⟨hlow, hhigh, _⟩ := hvalid h1.1
    rcases h1.2 with h4 | h4
    · exact absurd hlow (not_lt.mpr h4)
    · exact absurd hhigh (not_lt.mpr h4)
  · injection h with h
    exact h.symm
  · obtain ⟨_, _, hmm⟩ := hvalid h3.1
    exact absurd hmm (not_le.mpr h3.2)

/-- The interval update of a pass of the loop raises nothing but the failure on the
derivative at the best step. -/
theorem updateTrial_error_of_pass (s : SearchState) (f : Failure)
    (hx : exitTests c (evaluateTrial c s) = none)
    (h : updateTrial c (evaluateTrial c s) = .error f) : f = .noDecreaseFromStart := by
  have hvalid : (evaluateTrial c s).bracket = true →
      min (evaluateTrial c s).bestStep (evaluateTrial c s).intervalEndStep <
          (evaluateTrial c s).step ∧
        (evaluateTrial c s).step <
          max (evaluateTrial c s).bestStep (evaluateTrial c s).intervalEndStep ∧
        (evaluateTrial c s).minStep ≤ (evaluateTrial c s).maxStep := by
    intro hb
    obtain ⟨h1, h2, _, _, h5⟩ := update_arguments_valid c s hb hx
    exact ⟨h1, h2, h5⟩
  generalize evaluateTrial c s = t at h hvalid
  unfold updateTrial at h
  simp only at h
  split at h
  · rename_i g hg
    injection h with h
    subst h
    split at hg
    · unfold updateModified at hg
      simp only at hg
      split at hg
      · rename_i g1 hg1
        injection hg with hg
        subst hg
        exact updateIntervalOfUncertainty_error_of_valid _ _ _ _ _ _ _ hvalid hg1
      · exact absurd hg (by simp)
    · unfold updateRaw at hg
      split at hg
      · rename_i g1 hg1
        injection hg with hg
        subst hg
        exact updateIntervalOfUncertainty_error_of_valid _ _ _ _ _ _ _ hvalid hg1
      · exact absurd hg (by simp)
  · exact absurd h (by simp)

end calls

section forced

variable (c : Call)

/-- The interval update on the modified values leaves the two recorded widths alone, and
leaves the bracket flag set if it was. -/
theorem updateModified_widths (s w : SearchState) (h : updateModified c s = .ok w) :
    w.intervalWidth = s.intervalWidth ∧ w.previousIntervalWidth = s.previousIntervalWidth ∧
      (s.bracket = true → w.bracket = true) := by
  unfold updateModified at h
  simp only at h
  split at h
  · exact absurd h (by simp)
  · rename_i v hv
    injection h with h
    subst h
    refine ⟨rfl, rfl, ?_⟩
    intro hb
    rw [(updateIntervalOfUncertainty_ok _ _ _ _ _ _ _ hv).1]
    exact selectNewStep_bracket _ _ _ _ _ _ hb

/-- The interval update on the raw values leaves the two recorded widths alone, and leaves
the bracket flag set if it was. -/
theorem updateRaw_widths (s w : SearchState) (h : updateRaw c s = .ok w) :
    w.intervalWidth = s.intervalWidth ∧ w.previousIntervalWidth = s.previousIntervalWidth ∧
      (s.bracket = true → w.bracket = true) := by
  unfold updateRaw at h
  split at h
  · exact absurd h (by simp)
  · rename_i v hv
    injection h with h
    subst h
    refine ⟨rfl, rfl, ?_⟩
    intro hb
    rw [(updateIntervalOfUncertainty_ok _ _ _ _ _ _ _ hv).1]
    exact selectNewStep_bracket _ _ _ _ _ _ hb

/-- What the forced decrease does to the variables the interval update has left. -/
theorem forceDecrease_cases (w : SearchState) :
    (forceDecrease w).bracket = w.bracket ∧
    (forceDecrease w).bestStep = w.bestStep ∧
    (forceDecrease w).intervalEndStep = w.intervalEndStep ∧
    (w.bracket = true →
      ((2 / 3) * w.previousIntervalWidth ≤ |w.intervalEndStep - w.bestStep| →
        (forceDecrease w).step = w.bestStep + (w.intervalEndStep - w.bestStep) / 2) ∧
      (¬ (2 / 3) * w.previousIntervalWidth ≤ |w.intervalEndStep - w.bestStep| →
        (forceDecrease w).step = w.step) ∧
      (forceDecrease w).previousIntervalWidth = w.intervalWidth ∧
      (forceDecrease w).intervalWidth = |w.intervalEndStep - w.bestStep|) ∧
    (w.bracket = false →
      (forceDecrease w).step = w.step ∧
      (forceDecrease w).previousIntervalWidth = w.previousIntervalWidth ∧
      (forceDecrease w).intervalWidth = w.intervalWidth) := by
  unfold forceDecrease
  by_cases hb : w.bracket = true
  · simp only [hb, if_true, true_and, Bool.true_eq_false, false_implies, and_true,
      forall_const]
    refine ⟨?_, ?_⟩
    · intro hwide
      rw [if_pos hwide]
      ring
    · intro hnarrow
      rw [if_neg hnarrow]
  · have hf : w.bracket = false := by simpa using hb
    simp [hf]

/-- One interval update of the loop, with the forced decrease that ends the pass. -/
theorem updateTrial_forced (s t : SearchState) (h : updateTrial c s = .ok t) :
    ∃ w, (updateModified c { s with stageOne := stageOneAfter c s } = .ok w ∨
        updateRaw c { s with stageOne := stageOneAfter c s } = .ok w) ∧
      t.bracket = w.bracket ∧ t.bestStep = w.bestStep ∧
      t.intervalEndStep = w.intervalEndStep ∧
      (s.bracket = true → t.bracket = true) ∧
      (t.bracket = true →
        ((2 / 3) * s.previousIntervalWidth ≤ |t.intervalEndStep - t.bestStep| →
          t.step = t.bestStep + (t.intervalEndStep - t.bestStep) / 2) ∧
        (¬ (2 / 3) * s.previousIntervalWidth ≤ |t.intervalEndStep - t.bestStep| →
          t.step = w.step) ∧
        t.previousIntervalWidth = s.intervalWidth ∧
        t.intervalWidth = |t.intervalEndStep - t.bestStep|) ∧
      (t.bracket = false →
        t.step = w.step ∧ t.previousIntervalWidth = s.previousIntervalWidth ∧
        t.intervalWidth = s.intervalWidth) := by
  have hmain : ∀ w : SearchState,
      (w.intervalWidth = s.intervalWidth ∧ w.previousIntervalWidth = s.previousIntervalWidth ∧
        (s.bracket = true → w.bracket = true)) → t = forceDecrease w →
      t.bracket = w.bracket ∧ t.bestStep = w.bestStep ∧
      t.intervalEndStep = w.intervalEndStep ∧
      (s.bracket = true → t.bracket = true) ∧
      (t.bracket = true →
        ((2 / 3) * s.previousIntervalWidth ≤ |t.intervalEndStep - t.bestStep| →
          t.step = t.bestStep + (t.intervalEndStep - t.bestStep) / 2) ∧
        (¬ (2 / 3) * s.previousIntervalWidth ≤ |t.intervalEndStep - t.bestStep| →
          t.step = w.step) ∧
        t.previousIntervalWidth = s.intervalWidth ∧
        t.intervalWidth = |t.intervalEndStep - t.bestStep|) ∧
      (t.bracket = false →
        t.step = w.step ∧ t.previousIntervalWidth = s.previousIntervalWidth ∧
        t.intervalWidth = s.intervalWidth) := by
    intro w ⟨hw1, hw2, hw3⟩ ht
    obtain ⟨f1, f2, f3, f4, f5⟩ := forceDecrease_cases w
    rw [ht, f1, f2, f3, ← hw1, ← hw2]
    exact ⟨rfl, rfl, rfl, hw3, f4, f5⟩
  rcases updateTrial_branches c s t h with ⟨_, w, hw, ht⟩ | ⟨_, w, hw, ht⟩
  · exact ⟨w, Or.inl hw, hmain w (updateModified_widths c { s with stageOne := stageOneAfter c s } w hw) ht⟩
  · exact ⟨w, Or.inr hw, hmain w (updateRaw_widths c { s with stageOne := stageOneAfter c s } w hw) ht⟩

/-- The width against which the forced decrease compares the bracket is the one recorded
two bracketed passes earlier: over three successive passes that go round the loop, the
first of which leaves the minimizer bracketed, the bracket stays set, and the trial the
third pass leaves is the midpoint of its bracket whenever that bracket is at least two
thirds as wide as the bracket the first pass left. -/
theorem forced_shrinkage_two_passes_earlier (s1 s2 s3 s4 : SearchState)
    (h1 : iterate c s1 = .inr s2) (hb : s2.bracket = true)
    (h2 : iterate c s2 = .inr s3) (h3 : iterate c s3 = .inr s4) :
    s3.bracket = true ∧ s4.bracket = true ∧
    s2.intervalWidth = |s2.intervalEndStep - s2.bestStep| ∧
    ((2 / 3) * |s2.intervalEndStep - s2.bestStep| ≤ |s4.intervalEndStep - s4.bestStep| →
      s4.step = s4.bestStep + (s4.intervalEndStep - s4.bestStep) / 2) := by
  obtain ⟨_, _, _, _, _, _, f1, _⟩ := updateTrial_forced c _ s2 (iterate_inr c s1 s2 h1).2
  obtain ⟨_, _, _, _, _, g0, g1, _⟩ := updateTrial_forced c _ s3 (iterate_inr c s2 s3 h2).2
  obtain ⟨_, _, _, _, _, k0, k1, _⟩ := updateTrial_forced c _ s4 (iterate_inr c s3 s4 h3).2
  have hb3 : s3.bracket = true := g0 hb
  have hb4 : s4.bracket = true := k0 hb3
  have hw2 : s2.intervalWidth = |s2.intervalEndStep - s2.bestStep| := (f1 hb).2.2.2
  have hp3 : s3.previousIntervalWidth = s2.intervalWidth := (g1 hb3).2.2.1
  refine ⟨hb3, hb4, hw2, ?_⟩
  intro hwide
  apply (k1 hb4).1
  show (2 / 3) * s3.previousIntervalWidth ≤ _
  rw [hp3, hw2]
  exact hwide

end forced

/-- C34: after each interval update of the loop, if the minimizer is bracketed and the
bracket width `|intervalEnd - best|` is at least two thirds of `previousIntervalWidth`, the
next trial step is the bracket midpoint `best + (intervalEnd - best) / 2`, and otherwise
the step chosen by the interval update is kept.  In a bracketed pass
`previousIntervalWidth` takes the value of `intervalWidth` and `intervalWidth` the current
width, so the width compared with is the one recorded two bracketed passes earlier (in the
first two bracketed passes, the initial values `2 (MaximumStep - MinimumStep)` and
`MaximumStep - MinimumStep`); in a pass that is not bracketed step and widths are
kept. -/
theorem forced_shrinkage (c : Call) (s t : SearchState) (h : updateTrial c s = .ok t) :
    ∃ w, (updateModified c { s with stageOne := stageOneAfter c s } = .ok w ∨
        updateRaw c { s with stageOne := stageOneAfter c s } = .ok w) ∧
      t.bracket = w.bracket ∧ t.bestStep = w.bestStep ∧
      t.intervalEndStep = w.intervalEndStep ∧
      (s.bracket = true → t.bracket = true) ∧
      (t.bracket = true →
        ((2 / 3) * s.previousIntervalWidth ≤ |t.intervalEndStep - t.bestStep| →
          t.step = t.bestStep + (t.intervalEndStep - t.bestStep) / 2) ∧
        (¬ (2 / 3) * s.previousIntervalWidth ≤ |t.intervalEndStep - t.bestStep| →
          t.step = w.step) ∧
        t.previousIntervalWidth = s.intervalWidth ∧
        t.intervalWidth = |t.intervalEndStep - t.bestStep|) ∧
      (t.bracket = false →
        t.step = w.step ∧ t.previousIntervalWidth = s.previousIntervalWidth ∧
        t.intervalWidth = s.intervalWidth) :=
  updateTrial_forced c s t h

/-- Witness of C34: the stage-one parabola call after the first evaluation at the step `5`,
with the width `3` on record: the update brackets the minimizer in `[0, 5]`, of width
`5 ≥ (2/3)·3`, and the next trial is the midpoint `5/2` instead of the step `39/50` chosen
by the update. -/
theorem forced_shrinkage_witness :
    updateTrial stageOneCall narrowRecordState = .ok narrowRecordUpdated ∧
    narrowRecordUpdated.bracket = true ∧
    (2 / 3) * narrowRecordState.previousIntervalWidth ≤
      |narrowRecordUpdated.intervalEndStep - narrowRecordUpdated.bestStep| ∧
    narrowRecordUpdated.step = 5 / 2 ∧
    ∃ w, (updateModified stageOneCall
          { narrowRecordState with stageOne := stageOneAfter stageOneCall narrowRecordState } =
            .ok w ∨
        updateRaw stageOneCall
          { narrowRecordState with stageOne := stageOneAfter stageOneCall narrowRecordState } =
            .ok w) ∧
      narrowRecordUpdated.bracket = w.bracket ∧ narrowRecordUpdated.bestStep = w.bestStep ∧
      narrowRecordUpdated.intervalEndStep = w.intervalEndStep ∧
      (narrowRecordState.bracket = true → narrowRecordUpdated.bracket = true) ∧
      (narrowRecordUpdated.bracket = true →
        ((2 / 3) * narrowRecordState.previousIntervalWidth ≤
            |narrowRecordUpdated.intervalEndStep - narrowRecordUpdated.bestStep| →
          narrowRecordUpdated.step = narrowRecordUpdated.bestStep +
            (narrowRecordUpdated.intervalEndStep - narrowRecordUpdated.bestStep) / 2) ∧
        (¬ (2 / 3) * narrowRecordState.previousIntervalWidth ≤
            |narrowRecordUpdated.intervalEndStep - narrowRecordUpdated.bestStep| →
          narrowRecordUpdated.step = w.step) ∧
        narrowRecordUpdated.previousIntervalWidth = narrowRecordState.intervalWidth ∧
        narrowRecordUpdated.intervalWidth =
          |narrowRecordUpdated.intervalEndStep - narrowRecordUpdated.bestStep|) ∧
      (narrowRecordUpdated.bracket = false →
        narrowRecordUpdated.step = w.step ∧
        narrowRecordUpdated.previousIntervalWidth = narrowRecordState.previousIntervalWidth ∧
        narrowRecordUpdated.intervalWidth = narrowRecordState.intervalWidth) :=
  have h := ok_of_toOption (updateTrial stageOneCall narrowRecordState) narrowRecordUpdated
    (by decide!)
  ⟨h, by decide!, by decide!, by decide!,
    forced_shrinkage stageOneCall narrowRecordState narrowRecordUpdated h⟩

end optimizer

namespace neuralnetwork

/-! ## The cost -/

section cost

variable {K M L : Type} [LinearOrderedField K]

/-- The loop that adds the regularization term of each layer adds the sum of the terms. -/
theorem foldl_regularization (f : L → K) (c : K) (network : List L) (costSum : K) :
    network.foldl (fun costSum layer => costSum + c * f layer) costSum =
      costSum + c * (network.map f).sum := by
  induction network generalizing costSum with
  | nil => simp
  | cons layer rest ih =>
    rw [List.foldl_cons, ih, List.map_cons, List.sum_cons]
    ring

/-- The cost of a network, for a non-negative regularization weight. -/
theorem computeCostForNetwork_eq (E : Engine K M L) (network : List L)
    (input referenceOutput : M) (lambda : K) (hlambda : 0 ≤ lambda) :
    computeCostForNetwork E network input referenceOutput lambda =
      (1 / (2 * (E.rows input : K))) *
          E.reduceSum (E.elementMultiply (E.subtract (E.runNetwork network input) referenceOutput)
            (E.subtract (E.runNetwork network input) referenceOutput)) +
        (lambda / 2) * (network.map fun layer =>
          E.reduceSum (E.elementMultiply (E.getWeightsWithoutBias layer)
            (E.getWeightsWithoutBias layer))).sum := by
  unfold computeCostForNetwork
  simp only
  split_ifs with h
  · rw [foldl_regularization]
    ring
  · have h0 : lambda = 0 := le_antisymm (not_lt.mp h) hlambda
    rw [h0]
    ring

/-- C12: for a batch of `m ≥ 1` rows and a regularization weight `λ ≥ 0`, `getCost` equals
`(1/(2m))·Σ(network.runInputs(input) − reference)²` plus `(λ/2)` times the sum over the
layers of `Σ(weights without bias)²`, the sums of squares being `reduceSum` of the
element-wise product of a matrix with itself. -/
theorem getCost_eq (E : Engine K M L) (bp : DenseBackPropagation K M) (network : List L)
    (input reference : M) (_hrows : 1 ≤ E.rows input) (hlambda : 0 ≤ bp.lambda) :
    getCost E bp network input reference =
      (1 / (2 * (E.rows input : K))) *
          E.reduceSum (E.elementMultiply (E.subtract (E.runNetwork network input) reference)
            (E.subtract (E.runNetwork network input) reference)) +
        (bp.lambda / 2) * (network.map fun layer =>
          E.reduceSum (E.elementMultiply (E.getWeightsWithoutBias layer)
            (E.getWeightsWithoutBias layer))).sum :=
  computeCostForNetwork_eq E network input reference bp.lambda hlambda

/-- Witness of C12: the scenario network over the reals with the logistic sigmoid and the
default regularization weight `0.01`. -/
theorem getCost_eq_witness :
    1 ≤ (denseEngine (logistic Real.exp)).rows [[1, 1]] ∧
    0 ≤ (scenarioBackPropagation ℝ (1 / 100)).lambda ∧
    getCost (denseEngine (logistic Real.exp)) (scenarioBackPropagation ℝ (1 / 100))
        (scenarioNetwork ℝ) [[1, 1]] [[1]] =
      (1 / (2 * ((denseEngine (logistic Real.exp)).rows [[1, 1]] : ℝ))) *
          (denseEngine (logistic Real.exp)).reduceSum
            ((denseEngine (logistic Real.exp)).elementMultiply
              ((denseEngine (logistic Real.exp)).subtract
                ((denseEngine (logistic Real.exp)).runNetwork (scenarioNetwork ℝ) [[1, 1]]) [[1]])
              ((denseEngine (logistic Real.exp)).subtract
                ((denseEngine (logistic Real.exp)).runNetwork (scenarioNetwork ℝ) [[1, 1]])
                [[1]])) +
        ((scenarioBackPropagation ℝ (1 / 100)).lambda / 2) *
          ((scenarioNetwork ℝ).map fun layer =>
            (denseEngine (logistic Real.exp)).reduceSum
              ((denseEngine (logistic Real.exp)).elementMultiply
                ((denseEngine (logistic Real.exp)).getWeightsWithoutBias layer)
                ((denseEngine (logistic Real.exp)).getWeightsWithoutBias layer))).sum :=
  ⟨by simp [denseEngine], by simp [scenarioBackPropagation],
    getCost_eq (denseEngine (logistic Real.exp)) (scenarioBackPropagation ℝ (1 / 100))
      (scenarioNetwork ℝ) [[1, 1]] [[1]] (by simp [denseEngine])
      (by simp [scenarioBackPropagation])⟩

end cost

section scenario

variable {K : Type} [LinearOrderedField K]

/-- The scenario of C14, for any sigmoid: the forward activation is `sigmoid 1` and the cost
without regularization is half the squared error. -/
theorem scenario_cost (sigmoid : K → K) :
    getActivations (denseEngine sigmoid) (scenarioNetwork K) [[1, 1]] =
        [[[1, 1]], [[sigmoid 1]]] ∧
      (denseEngine sigmoid).runNetwork (scenarioNetwork K) [[1, 1]] = [[sigmoid 1]] ∧
      getCost (denseEngine sigmoid) (scenarioBackPropagation K 0) (scenarioNetwork K)
        [[1, 1]] [[1]] = 1 / 2 * (sigmoid 1 - 1) ^ 2 := by
  have h1 : (1 : K) * (1 / 2) + (1 * (1 / 2) + 0) + 0 = 1 := by norm_num
  refine ⟨?_, ?_, ?_⟩
  · simp [getActivations, scenarioNetwork, denseEngine, DenseLayer.runInputs, unitOutputs,
      column, dot]
    norm_num
  · simp [scenarioNetwork, denseEngine, DenseLayer.runInputs, unitOutputs, column, dot]
    norm_num
  · simp [getCost, computeCostForNetwork, scenarioBackPropagation, scenarioNetwork,
      denseEngine, DenseLayer.runInputs, unitOutputs, column, dot]
    norm_num
    ring

end scenario

/-- The value of the logistic sigmoid at `0`. -/
theorem logistic_zero : logistic Real.exp 0 = 1 / 2 := by
  simp [logistic]
  norm_num

/-- C14: for the single layer with 2 inputs and 1 output, weights `[0.5, 0.5]`, bias `0`,
batch `[[1, 1]]`, reference `[[1]]` and `λ = 0`, over the reals with the logistic sigmoid:
the forward activation is `sigmoid(1)`, `getCost` equals `0.5·(sigmoid(1) − 1)²`, and this
lies within `1e-4` of `0.0362`. -/
theorem scenario_cost_value :
    getActivations (denseEngine (logistic Real.exp)) (scenarioNetwork ℝ) [[1, 1]] =
        [[[1, 1]], [[logistic Real.exp 1]]] ∧
      getCost (denseEngine (logistic Real.exp)) (scenarioBackPropagation ℝ 0)
        (scenarioNetwork ℝ) [[1, 1]] [[1]] = 1 / 2 * (logistic Real.exp 1 - 1) ^ 2 ∧
      |getCost (denseEngine (logistic Real.exp)) (scenarioBackPropagation ℝ 0)
        (scenarioNetwork ℝ) [[1, 1]] [[1]] - 362 / 10000| ≤ 1 / 10000 := by
  obtain ⟨hact, _, hcost⟩ := scenario_cost (logistic Real.exp)
  refine ⟨hact, hcost, ?_⟩
  rw [hcost]
  have he1 := Real.exp_one_gt_d9
  have he2 := Real.exp_one_lt_d9
  have hpos : (0 : ℝ) < Real.exp 1 := Real.exp_pos 1
  have hsig : logistic Real.exp 1 - 1 = -(1 / (Real.exp 1 + 1)) := by
    unfold logistic
    rw [Real.exp_neg]
    field_simp
  rw [hsig, abs_le]
  have hden : (0 : ℝ) < 2 * (Real.exp 1 + 1) ^ 2 := by positivity
  have hval : 1 / 2 * (-(1 / (Real.exp 1 + 1))) ^ 2 = 1 / (2 * (Real.exp 1 + 1) ^ 2) := by
    field_simp
  rw [hval]
  have hlow : (361 : ℝ) / 10000 ≤ 1 / (2 * (Real.exp 1 + 1) ^ 2) := by
    rw [le_div_iff₀ hden]
    nlinarith
  have hhigh : 1 / (2 * (Real.exp 1 + 1) ^ 2) ≤ (363 : ℝ) / 10000 := by
    rw [div_le_iff₀ hden]
    nlinarith
  constructor <;> linarith

section zero

variable {K : Type} [LinearOrderedField K]

/-- The dot product with a row of zeros is zero. -/
theorem dot_zeros (a b : List K) (hb : ∀ y ∈ b, y = 0) : dot a b = 0 := by
  unfold dot
  induction a generalizing b with
  | nil => simp
  | cons x xs ih =>
    cases b with
    | nil => simp
    | cons y ys =>
      have hy : y = 0 := hb y (List.mem_cons_self y ys)
      have hys : ∀ z ∈ ys, z = 0 := fun z hz => hb z (List.mem_cons_of_mem y hz)
      rw [List.zipWith_cons_cons, List.sum_cons, ih ys hys, hy]
      simp

/-- Every column of a matrix of zeros is a row of zeros. -/
theorem column_zeros (j : ℕ) (m : List (List K)) (hm : ∀ row ∈ m, ∀ w ∈ row, w = 0) :
    ∀ y ∈ column j m, y = 0 := by
  intro y hy
  unfold column at hy
  obtain ⟨row, hrow, rfl⟩ := List.mem_map.mp hy
  by_cases hj : j < row.length
  · rw [List.getD_eq_getElem row 0 hj]
    exact hm row hrow _ (List.getElem_mem hj)
  · rw [List.getD_eq_default row 0 (not_lt.mp hj)]

/-- With weights and bias all zero, every output unit gives `sigmoid 0`. -/
theorem unitOutputs_zero (sigmoid : K → K) (weights : List (List K)) (row : List K)
    (hw : ∀ r ∈ weights, ∀ w ∈ r, w = 0) (j : ℕ) (bias : List K)
    (hb : ∀ b ∈ bias, b = 0) :
    unitOutputs sigmoid weights row j bias = List.replicate bias.length (sigmoid 0) := by
  induction bias generalizing j with
  | nil => rfl
  | cons b bs ih =>
    have hb0 : b = 0 := hb b (List.mem_cons_self b bs)
    have hbs : ∀ x ∈ bs, x = 0 := fun x hx => hb x (List.mem_cons_of_mem b hx)
    rw [unitOutputs, ih (j + 1) hbs, dot_zeros row _ (column_zeros j weights hw), hb0]
    simp [List.replicate_succ]

/-- A layer with weights and bias all zero maps every sample to a row of `sigmoid 0`. -/
theorem runInputs_zero (sigmoid : K → K) (layer : DenseLayer K)
    (hw : ∀ r ∈ layer.weights, ∀ w ∈ r, w = 0) (hb : ∀ b ∈ layer.bias, b = 0)
    (m : List (List K)) :
    layer.runInputs sigmoid m =
      List.replicate m.length (List.replicate layer.bias.length (sigmoid 0)) := by
  unfold DenseLayer.runInputs
  rw [List.eq_replicate_iff]
  refine ⟨by simp, ?_⟩
  intro row hrow
  obtain ⟨r, _, rfl⟩ := List.mem_map.mp hrow
  exact unitOutputs_zero sigmoid layer.weights r hw 0 layer.bias hb

/-- Running a network keeps the number of samples. -/
theorem runNetwork_length (sigmoid : K → K) (network : List (DenseLayer K))
    (m : List (List K)) :
    ((denseEngine sigmoid).runNetwork network m).length = m.length := by
  show (network.foldl (fun x layer => layer.runInputs sigmoid x) m).length = m.length
  induction network generalizing m with
  | nil => rfl
  | cons layer rest ih =>
    rw [List.foldl_cons, ih]
    simp [DenseLayer.runInputs]

/-- The output of a network whose last layer has weights and bias all zero. -/
theorem runNetwork_zero (sigmoid : K → K) (network : List (DenseLayer K))
    (hne : network ≠ [])
    (hw : ∀ r ∈ (network.getLast hne).weights, ∀ w ∈ r, w = 0)
    (hb : ∀ b ∈ (network.getLast hne).bias, b = 0) (m : List (List K)) :
    (denseEngine sigmoid).runNetwork network m =
      List.replicate m.length
        (List.replicate (network.getLast hne).bias.length (sigmoid 0)) := by
  have hsplit : network = network.dropLast ++ [network.getLast hne] :=
    (List.dropLast_append_getLast hne).symm
  have hrun : (denseEngine sigmoid).runNetwork network m =
      (network.getLast hne).runInputs sigmoid
        ((denseEngine sigmoid).runNetwork network.dropLast m) := by
    show network.foldl (fun x layer => layer.runInputs sigmoid x) m = _
    conv_lhs => rw [hsplit]
    rw [List.foldl_append]
    rfl
  rw [hrun, runInputs_zero sigmoid _ hw hb, runNetwork_length]

/-- C13 (amended): for a network of one or more layers whose weights and biases are all
zero, with `λ = 0`, a sigmoid with `sigmoid(0) = 1/2`, and a batch of `m ≥ 1` rows,
`getCost` equals `(1/(2m))·Σ(1/2 − reference)²`: every output of the network is
`sigmoid(0) = 1/2`, not `0`. -/
theorem getCost_zero_network (sigmoid : K → K) (hsigmoid : sigmoid 0 = 1 / 2)
    (bp : DenseBackPropagation K (List (List K))) (hlambda : bp.lambda = 0)
    (network : List (DenseLayer K)) (hne : network ≠ [])
    (hzero : ∀ layer ∈ network, (∀ r ∈ layer.weights, ∀ w ∈ r, w = 0) ∧
      ∀ b ∈ layer.bias, b = 0)
    (input reference : List (List K)) (_hrows : 1 ≤ input.length) :
    getCost (denseEngine sigmoid) bp network input reference =
      (1 / (2 * (input.length : K))) *
        (denseEngine sigmoid).reduceSum
          ((denseEngine sigmoid).elementMultiply
            ((denseEngine sigmoid).subtract
              (List.replicate input.length
                (List.replicate (network.getLast hne).bias.length (1 / 2))) reference)
            ((denseEngine sigmoid).subtract
              (List.replicate input.length
                (List.replicate (network.getLast hne).bias.length (1 / 2))) reference)) := by
  have hlast := hzero _ (List.getLast_mem hne)
  have hrun := runNetwork_zero sigmoid network hne hlast.1 hlast.2 input
  have hcost := computeCostForNetwork_eq (denseEngine sigmoid) network input reference
    bp.lambda (le_of_eq hlambda.symm)
  unfold getCost
  rw [hcost, hrun, hsigmoid, hlambda]
  simp [denseEngine]

/-- Witness of the amended C13: the network of one layer with weight `0` and bias `0`, over
the reals with the logistic sigmoid. -/
theorem getCost_zero_network_witness :
    logistic Real.exp 0 = 1 / 2 ∧ (scenarioBackPropagation ℝ 0).lambda = 0 ∧
    (∀ layer ∈ zeroNetwork ℝ, (∀ r ∈ layer.weights, ∀ w ∈ r, w = 0) ∧
      ∀ b ∈ layer.bias, b = 0) ∧
    1 ≤ ([[1]] : List (List ℝ)).length ∧
    getCost (denseEngine (logistic Real.exp)) (scenarioBackPropagation ℝ 0) (zeroNetwork ℝ)
        [[1]] [[1]] =
      (1 / (2 * ((([[1]] : List (List ℝ)).length : ℕ) : ℝ))) *
        (denseEngine (logistic Real.exp)).reduceSum
          ((denseEngine (logistic Real.exp)).elementMultiply
            ((denseEngine (logistic Real.exp)).subtract
              (List.replicate ([[1]] : List (List ℝ)).length
                (List.replicate ((zeroNetwork ℝ).getLast (by simp [zeroNetwork])).bias.length
                  (1 / 2))) [[1]])
            ((denseEngine (logistic Real.exp)).subtract
              (List.replicate ([[1]] : List (List ℝ)).length
                (List.replicate ((zeroNetwork ℝ).getLast (by simp [zeroNetwork])).bias.length
                  (1 / 2))) [[1]])) :=
  ⟨logistic_zero, rfl, by simp [zeroNetwork], by simp,
    getCost_zero_network (logistic Real.exp) logistic_zero (scenarioBackPropagation ℝ 0) rfl
      (zeroNetwork ℝ) (by simp [zeroNetwork]) (by simp [zeroNetwork]) [[1]] [[1]] (by simp)⟩

/-- C13 (as stated, refuted): for the network of one layer with weight `0` and bias `0`,
`λ = 0`, the batch `[[1]]` and the reference `[[1]]`, over the reals with the logistic
sigmoid, `getCost` is `1/8`, while `(1/(2m))·Σ(reference²)` is `1/2`. -/
theorem getCost_zero_network_not_reference_squares :
    getCost (denseEngine (logistic Real.exp)) (scenarioBackPropagation ℝ 0) (zeroNetwork ℝ)
        [[1]] [[1]] = 1 / 8 ∧
      (1 / (2 * ((denseEngine (logistic Real.exp)).rows [[1]] : ℝ))) *
        (denseEngine (logistic Real.exp)).reduceSum
          ((denseEngine (logistic Real.exp)).elementMultiply [[1]] [[1]]) = 1 / 2 ∧
      getCost (denseEngine (logistic Real.exp)) (scenarioBackPropagation ℝ 0) (zeroNetwork ℝ)
        [[1]] [[1]] ≠
      (1 / (2 * ((denseEngine (logistic Real.exp)).rows [[1]] : ℝ))) *
        (denseEngine (logistic Real.exp)).reduceSum
          ((denseEngine (logistic Real.exp)).elementMultiply [[1]] [[1]]) := by
  have h1 : getCost (denseEngine (logistic Real.exp)) (scenarioBackPropagation ℝ 0)
      (zeroNetwork ℝ) [[1]] [[1]] = 1 / 8 := by
    simp [getCost, computeCostForNetwork, scenarioBackPropagation, zeroNetwork, denseEngine,
      DenseLayer.runInputs, unitOutputs, column, dot, logistic_zero]
    norm_num
  have h2 : (1 / (2 * ((denseEngine (logistic Real.exp)).rows [[1]] : ℝ))) *
      (denseEngine (logistic Real.exp)).reduceSum
        ((denseEngine (logistic Real.exp)).elementMultiply [[1]] [[1]]) = 1 / 2 := by
    simp [denseEngine]
  refine ⟨h1, h2, ?_⟩
  rw [h1, h2]
  norm_num

end zero

/-! ## The backward pass -/

section backward

variable {K M L : Type}

/-- The specification sequence exists when there is one activation between each two
layers, and it has one delta per layer, the last one being the output delta. -/
theorem specDeltas_some (E : Engine K M L) (bp : DenseBackPropagation K M) (network : List L)
    (last : M) : ∀ (layers : List L) (inner : List M), layers.length = inner.length + 1 →
      ∃ delta deltas, specDeltas E bp network last layers inner = some (delta :: deltas) ∧
        (delta :: deltas).length = layers.length ∧
        (delta :: deltas).getLast? = some (outputDelta E bp last) := by
  intro layers
  induction layers with
  | nil => intro inner h; simp at h
  | cons layer rest ih =>
    intro inner h
    cases rest with
    | nil =>
      cases inner with
      | nil => exact ⟨_, _, rfl, rfl, rfl⟩
      | cons a as => simp at h
    | cons next layers =>
      cases inner with
      | nil => simp at h
      | cons a as =>
        obtain ⟨d, ds, hspec, hlen, hlast⟩ := ih as (by simpa using h)
        refine ⟨E.elementMultiply (E.runReverse next (E.formatOutputForLayer network next d))
          (E.sigmoidDerivative a), d :: ds, ?_, ?_, ?_⟩
        · rw [specDeltas, hspec]
        · simp only [List.length_cons] at hlen ⊢
          omega
        · rw [List.getLast?_cons_cons]
          exact hlast

/-- The loop of `getDeltas`, started at the last activation, reaches the low activations
`a[i], ..., a[0]` with the delta `delta[i]` of the specification in hand, the deltas above
it stored, each reformatted for its own layer. -/
theorem getDeltasLoop_suffix (E : Engine K M L) (bp : DenseBackPropagation K M)
    (network : List L) (last : M) :
    ∀ (layers : List L) (inner : List M) (before : List L) (low acc : List M)
      (delta : M) (deltas : List M),
      network = before ++ layers → low.length = before.length + 1 →
      specDeltas E bp network last layers inner = some (delta :: deltas) →
      getDeltasLoop E network (inner.reverse ++ low) (outputDelta E bp last) acc =
        getDeltasLoop E network low delta
          (acc ++ (List.zipWith (E.formatOutputForLayer network) layers.tail deltas).reverse) := by
  intro layers
  induction layers with
  | nil => intro inner before low acc delta deltas _ _ h; simp [specDeltas] at h
  | cons layer rest ih =>
    intro inner before low acc delta deltas hnet hlow hspec
    cases rest with
    | nil =>
      cases inner with
      | nil =>
        simp only [specDeltas, Option.some.injEq, List.cons.injEq] at hspec
        obtain ⟨rfl, rfl⟩ := hspec
        simp
      | cons a as => simp [specDeltas] at hspec
    | cons next layers =>
      cases inner with
      | nil => simp [specDeltas] at hspec
      | cons a as =>
        rw [specDeltas] at hspec
        cases hrec : specDeltas E bp network last (next :: layers) as with
        | none => rw [hrec] at hspec; simp at hspec
        | some raws =>
          cases raws with
          | nil => rw [hrec] at hspec; simp at hspec
          | cons d ds =>
            rw [hrec] at hspec
            simp only [Option.some.injEq, List.cons.injEq] at hspec
            obtain ⟨rfl, rfl⟩ := hspec
            have hnet2 : network = (before ++ [layer]) ++ (next :: layers) := by
              rw [hnet]; simp
            have hlow2 : (a :: low).length = (before ++ [layer]).length + 1 := by
              simp [hlow]
            have hstep := ih as (before ++ [layer]) (a :: low) acc d ds hnet2 hlow2 hrec
            have hlist : (a :: as).reverse ++ low = as.reverse ++ (a :: low) := by simp
            rw [hlist, hstep]
            have hget : network.get? low.length = some next := by
              rw [hnet, hlow, List.get?_eq_getElem?,
                List.getElem?_append_right (by omega)]
              simp
            rw [getDeltasLoop, hget]
            simp

/-- The list that `getDeltas` returns: the deltas of the specification, each reformatted
for its own layer. -/
theorem getDeltas_eq (E : Engine K M L) (bp : DenseBackPropagation K M) (network : List L)
    (first last : M) (inner : List M) (raw : List M)
    (hspec : specDeltas E bp network last network inner = some raw) :
    getDeltas E bp network (first :: inner ++ [last]) =
      some (List.zipWith (E.formatOutputForLayer network) network raw) := by
  cases raw with
  | nil =>
    cases network with
    | nil => simp [specDeltas] at hspec
    | cons l ls =>
      cases hl : ls with
      | nil =>
        subst hl
        cases inner <;> simp [specDeltas] at hspec
      | cons next layers =>
        subst hl
        cases inner with
        | nil => simp [specDeltas] at hspec
        | cons a as =>
          rw [specDeltas] at hspec
          split at hspec <;> simp at hspec
  | cons d ds =>
    have hne : ∃ l ls, network = l :: ls := by
      cases hn : network with
      | nil => rw [hn] at hspec; simp [specDeltas] at hspec
      | cons l ls => exact ⟨l, ls, rfl⟩
    obtain ⟨l, ls, hnet⟩ := hne
    · have hsuffix := getDeltasLoop_suffix E bp network last network inner [] [first] [] d ds
        (by simp) (by simp) hspec
      have hrev : (first :: inner ++ [last]).reverse = last :: (inner.reverse ++ [first]) := by
        simp
      unfold getDeltas
      rw [hrev]
      simp only
      rw [hsuffix]
      have hget : network.get? ([] : List M).length = some l := by rw [hnet]; rfl
      rw [getDeltasLoop, hget]
      simp only [getDeltasLoop, Option.map_some']
      rw [hnet]
      simp

/-- Reformatting each delta for its layer does not change what an observation that is
blind to the block layout sees. -/
theorem map_values_formatted {V : Type} (format : L → M → M) (values : M → V)
    (hvalues : ∀ layer m, values (format layer m) = values m) :
    ∀ (layers : List L) (raw : List M), raw.length ≤ layers.length →
      (List.zipWith format layers raw).map values = raw.map values := by
  intro layers
  induction layers with
  | nil =>
    intro raw h
    cases raw with
    | nil => rfl
    | cons d ds => simp at h
  | cons layer rest ih =>
    intro raw h
    cases raw with
    | nil => rfl
    | cons d ds =>
      rw [List.zipWith_cons_cons, List.map_cons, List.map_cons, hvalues,
        ih ds (by simpa using h)]

/-- The loop of `getInputDelta`, started at the last activation, reaches the low
activations `a[i], ..., a[0]` with the delta `delta[i]` of the specification in hand. -/
theorem getInputDeltaLoop_suffix (E : Engine K M L) (bp : DenseBackPropagation K M)
    (network : List L) (last : M) :
    ∀ (layers : List L) (inner : List M) (before : List L) (low : List M)
      (delta : M) (deltas : List M),
      network = before ++ layers → low.length = before.length + 1 →
      specDeltas E bp network last layers inner = some (delta :: deltas) →
      getInputDeltaLoop E network (inner.reverse ++ low) (outputDelta E bp last) =
        getInputDeltaLoop E network low delta := by
  intro layers
  induction layers with
  | nil => intro inner before low delta deltas _ _ h; simp [specDeltas] at h
  | cons layer rest ih =>
    intro inner before low delta deltas hnet hlow hspec
    cases rest with
    | nil =>
      cases inner with
      | nil =>
        simp only [specDeltas, Option.some.injEq, List.cons.injEq] at hspec
        obtain ⟨rfl, rfl⟩ := hspec
        simp
      | cons a as => simp [specDeltas] at hspec
    | cons next layers =>
      cases inner with
      | nil => simp [specDeltas] at hspec
      | cons a as =>
        rw [specDeltas] at hspec
        cases hrec : specDeltas E bp network last (next :: layers) as with
        | none => rw [hrec] at hspec; simp at hspec
        | some raws =>
          cases raws with
          | nil => rw [hrec] at hspec; simp at hspec
          | cons d ds =>
            rw [hrec] at hspec
            simp only [Option.some.injEq, List.cons.injEq] at hspec
            obtain ⟨rfl, rfl⟩ := hspec
            have hnet2 : network = (before ++ [layer]) ++ (next :: layers) := by
              rw [hnet]; simp
            have hlow2 : (a :: low).length = (before ++ [layer]).length + 1 := by
              simp [hlow]
            have hstep := ih as (before ++ [layer]) (a :: low) d ds hnet2 hlow2 hrec
            have hlist : (a :: as).reverse ++ low = as.reverse ++ (a :: low) := by simp
            rw [hlist, hstep]
            have hget : network.get? low.length = some next := by
              rw [hnet, hlow, List.get?_eq_getElem?,
                List.getElem?_append_right (by omega)]
              simp
            cases low with
            | nil => simp at hlow
            | cons x xs =>
              rw [getInputDeltaLoop, hget]

/-- What `getInputDelta` returns: the first layer run in reverse on the first delta of the
specification, reformatted for that layer. -/
theorem getInputDelta_eq (E : Engine K M L) (bp : DenseBackPropagation K M) (network : List L)
    (first last : M) (inner : List M) (layer : L) (rest : List L) (delta : M)
    (deltas : List M) (hnet : network = layer :: rest)
    (hspec : specDeltas E bp network last network inner = some (delta :: deltas)) :
    getInputDelta E bp network (first :: inner ++ [last]) =
      some (E.runReverse layer (E.formatOutputForLayer network layer delta)) := by
  have hsuffix := getInputDeltaLoop_suffix E bp network last network inner [] [first] delta
    deltas (by simp) (by simp) hspec
  have hrev : (first :: inner ++ [last]).reverse = last :: (inner.reverse ++ [first]) := by
    simp
  have hget : network.get? 0 = some layer := by rw [hnet]; rfl
  unfold getInputDelta
  rw [hrev]
  simp only
  rw [hsuffix, getInputDeltaLoop, hget]

/-- The activations that `getActivations` returns: one more than the layers. -/
theorem getActivations_length (E : Engine K M L) (network : List L) (input : M) :
    (getActivations E network input).length = network.length + 1 := by
  have hfold : ∀ (layers : List L) (acc : List M), acc ≠ [] →
      (layers.foldl
        (fun activations layer =>
          match activations.getLast? with
          | none => activations
          | some back =>
            activations.dropLast ++
              [E.formatInputForLayer network layer back,
                E.runInputs layer (E.formatInputForLayer network layer back)])
        acc).length = acc.length + layers.length := by
    intro layers
    induction layers with
    | nil => intro acc _; rfl
    | cons layer rest ih =>
      intro acc hacc
      rw [List.foldl_cons]
      obtain ⟨back, hback⟩ : ∃ back, acc.getLast? = some back := by
        cases h : acc.getLast? with
        | none => exact absurd (List.getLast?_eq_none_iff.mp h) hacc
        | some b => exact ⟨b, rfl⟩
      simp only [hback]
      rw [ih _ (by simp)]
      have hpos : 0 < acc.length := List.length_pos.mpr hacc
      simp only [List.length_append, List.length_dropLast, List.length_cons, List.length_nil]
      omega
  have hall := hfold network [input] (by simp)
  unfold getActivations
  rw [hall, List.length_singleton, Nat.add_comm]

/-- A list of two or more elements is a first element, inner elements and a last one. -/
theorem first_inner_last (activations : List M) (n : ℕ) (h : activations.length = n + 2) :
    ∃ first inner last, activations = first :: inner ++ [last] ∧ inner.length = n := by
  cases activations with
  | nil => simp at h
  | cons first rest =>
    have hne : rest ≠ [] := by
      intro hr
      rw [hr] at h
      simp at h
    refine ⟨first, rest.dropLast, rest.getLast hne, ?_, ?_⟩
    · rw [List.cons_append, List.dropLast_append_getLast hne]
    · simp only [List.length_cons] at h
      simp only [List.length_dropLast]
      omega

/-- Whenever there is one activation more than layers, `getDeltas` returns one delta per
layer. -/
theorem getDeltas_some (E : Engine K M L) (bp : DenseBackPropagation K M) (network : List L)
    (activations : List M) (hlen : activations.length = network.length + 1) :
    ∃ deltas, getDeltas E bp network activations = some deltas ∧
      deltas.length = network.length := by
  cases hn : network with
  | nil =>
    rw [hn] at hlen
    obtain ⟨a, rfl⟩ : ∃ a, activations = [a] := by
      cases activations with
      | nil => simp at hlen
      | cons a as =>
        cases as with
        | nil => exact ⟨a, rfl⟩
        | cons b bs => simp at hlen
    exact ⟨[], by simp [getDeltas, getDeltasLoop], rfl⟩
  | cons layer rest =>
    rw [← hn]
    have hlen2 : activations.length = rest.length + 2 := by
      rw [hlen, hn]
      rfl
    obtain ⟨first, inner, last, rfl, hinner⟩ := first_inner_last activations rest.length hlen2
    obtain ⟨d, ds, hspec, hraw, _⟩ := specDeltas_some E bp network last network inner
      (by rw [hn, hinner]; rfl)
    refine ⟨_, getDeltas_eq E bp network first last inner _ hspec, ?_⟩
    rw [List.length_zipWith, hraw]
    simp

end backward

section deltas

variable {K M L : Type}

/-- C15: for a network of `L ≥ 1` layers and activations `a[0] = first`, `a[1..L-1] = inner`,
`a[L] = last`, `getDeltas` returns exactly `L` deltas in layer order: the sequence `raw` of
the specification — its last delta is `(a[L] − reference) ⊙ sigmoid′(a[L])` and
`raw[i] = layer[i+1].runReverse(raw[i+1] reformatted for layer[i+1]) ⊙ sigmoid′(a[i+1])`,
which is `specDeltas` — each delta being stored reformatted for its own layer, which no
observation blind to the block layout can tell from the delta itself. -/
theorem getDeltas_refines_specification (E : Engine K M L) (bp : DenseBackPropagation K M)
    (network : List L) (first last : M) (inner : List M)
    (hlayers : network.length = inner.length + 1) :
    ∃ raw deltas, specDeltas E bp network last network inner = some raw ∧
      raw.length = network.length ∧
      raw.getLast? = some (E.elementMultiply (E.subtract last bp.referenceOutput)
        (E.sigmoidDerivative last)) ∧
      getDeltas E bp network (first :: inner ++ [last]) = some deltas ∧
      deltas.length = network.length ∧
      deltas = List.zipWith (E.formatOutputForLayer network) network raw ∧
      ∀ (V : Type) (values : M → V),
        (∀ layer m, values (E.formatOutputForLayer network layer m) = values m) →
        deltas.map values = raw.map values := by
  obtain ⟨d, ds, hspec, hlen, hlast⟩ := specDeltas_some E bp network last network inner hlayers
  refine ⟨d :: ds, _, hspec, hlen, hlast, getDeltas_eq E bp network first last inner _ hspec,
    ?_, rfl, ?_⟩
  · rw [List.length_zipWith, hlen]
    simp
  · intro V values hvalues
    exact map_values_formatted (E.formatOutputForLayer network) values hvalues network
      (d :: ds) (le_of_eq hlen)

end deltas

section inputDelta

variable {K M L : Type} [LinearOrderedField K]

/-- C18: for a network of `L ≥ 1` layers, whatever the activations `a[0..L]`,
`getInputDelta` is the first layer run in reverse on the first delta that `getDeltas`
returns (which is stored reformatted for that layer), with no sigmoid-derivative factor;
and `getInputDerivative`, on the activations of the batch, is that value multiplied by
`1/m`, `m` the number of rows of the batch. -/
theorem getInputDelta_is_reverse_of_first_delta (E : Engine K M L)
    (bp : DenseBackPropagation K M) (network : List L) (hlayers : 1 ≤ network.length) :
    (∀ (first last : M) (inner : List M), network.length = inner.length + 1 →
      ∃ layer delta deltas, network.head? = some layer ∧
        getDeltas E bp network (first :: inner ++ [last]) = some (delta :: deltas) ∧
        getInputDelta E bp network (first :: inner ++ [last]) =
          some (E.runReverse layer delta)) ∧
    (∀ input : M,
      ∃ layer delta deltas, network.head? = some layer ∧
        getDeltas E bp network (getActivations E network input) = some (delta :: deltas) ∧
        getInputDelta E bp network (getActivations E network input) =
          some (E.runReverse layer delta) ∧
        getInputDerivative E bp network input =
          some (E.multiply (E.runReverse layer delta) (1 / (E.rows input : K)))) := by
  obtain ⟨layer, rest, hnet⟩ : ∃ layer rest, network = layer :: rest := by
    cases hn : network with
    | nil => rw [hn] at hlayers; simp at hlayers
    | cons layer rest => exact ⟨layer, rest, rfl⟩
  have hfirst : ∀ (first last : M) (inner : List M), network.length = inner.length + 1 →
      ∃ layer delta deltas, network.head? = some layer ∧
        getDeltas E bp network (first :: inner ++ [last]) = some (delta :: deltas) ∧
        getInputDelta E bp network (first :: inner ++ [last]) =
          some (E.runReverse layer delta) := by
    intro first last inner hlen
    obtain ⟨d, ds, hspec, _, _⟩ := specDeltas_some E bp network last network inner hlen
    refine ⟨layer, E.formatOutputForLayer network layer d,
      List.zipWith (E.formatOutputForLayer network) rest ds, by rw [hnet]; rfl, ?_, ?_⟩
    · rw [getDeltas_eq E bp network first last inner _ hspec]
      conv_lhs => rw [hnet]
      rw [List.zipWith_cons_cons]
      rw [← hnet]
    · exact getInputDelta_eq E bp network first last inner layer rest d ds hnet hspec
  refine ⟨hfirst, ?_⟩
  intro input
  have hlen := getActivations_length E network input
  obtain ⟨first, inner, last, hact, hinner⟩ :=
    first_inner_last (getActivations E network input) rest.length
      (by rw [hlen, hnet]; rfl)
  obtain ⟨l, d, ds, hl, hd, hi⟩ := hfirst first last inner (by rw [hnet, hinner]; rfl)
  refine ⟨l, d, ds, hl, by rw [hact]; exact hd, by rw [hact]; exact hi, ?_⟩
  unfold getInputDerivative
  simp only
  rw [hact, hi]

/-- Witness of C18: the scenario network, of one layer. -/
theorem getInputDelta_is_reverse_of_first_delta_witness :
    1 ≤ (scenarioNetwork ℝ).length ∧
    ((∀ (first last : List (List ℝ)) (inner : List (List (List ℝ))),
      (scenarioNetwork ℝ).length = inner.length + 1 →
      ∃ layer delta deltas, (scenarioNetwork ℝ).head? = some layer ∧
        getDeltas (denseEngine (logistic Real.exp)) (scenarioBackPropagation ℝ 0)
          (scenarioNetwork ℝ) (first :: inner ++ [last]) = some (delta :: deltas) ∧
        getInputDelta (denseEngine (logistic Real.exp)) (scenarioBackPropagation ℝ 0)
          (scenarioNetwork ℝ) (first :: inner ++ [last]) =
          some ((denseEngine (logistic Real.exp)).runReverse layer delta)) ∧
    (∀ input : List (List ℝ),
      ∃ layer delta deltas, (scenarioNetwork ℝ).head? = some layer ∧
        getDeltas (denseEngine (logistic Real.exp)) (scenarioBackPropagation ℝ 0)
          (scenarioNetwork ℝ)
          (getActivations (denseEngine (logistic Real.exp)) (scenarioNetwork ℝ) input) =
          some (delta :: deltas) ∧
        getInputDelta (denseEngine (logistic Real.exp)) (scenarioBackPropagation ℝ 0)
          (scenarioNetwork ℝ)
          (getActivations (denseEngine (logistic Real.exp)) (scenarioNetwork ℝ) input) =
          some ((denseEngine (logistic Real.exp)).runReverse layer delta) ∧
        getInputDerivative (denseEngine (logistic Real.exp)) (scenarioBackPropagation ℝ 0)
          (scenarioNetwork ℝ) input =
          some ((denseEngine (logistic Real.exp)).multiply
            ((denseEngine (logistic Real.exp)).runReverse layer delta)
            (1 / ((denseEngine (logistic Real.exp)).rows input : ℝ))))) :=
  ⟨by simp [scenarioNetwork],
    getInputDelta_is_reverse_of_first_delta (denseEngine (logistic Real.exp))
      (scenarioBackPropagation ℝ 0) (scenarioNetwork ℝ) (by simp [scenarioNetwork])⟩

end inputDelta

section deltasWitness

/-- Witness of C15: the scenario network, of one layer, with the activations of its
batch. -/
theorem getDeltas_refines_specification_witness :
    (scenarioNetwork ℝ).length = ([] : List (List (List ℝ))).length + 1 ∧
    ∃ raw deltas,
      specDeltas (denseEngine (logistic Real.exp)) (scenarioBackPropagation ℝ 0)
        (scenarioNetwork ℝ) [[logistic Real.exp 1]] (scenarioNetwork ℝ) [] = some raw ∧
      raw.length = (scenarioNetwork ℝ).length ∧
      raw.getLast? = some ((denseEngine (logistic Real.exp)).elementMultiply
        ((denseEngine (logistic Real.exp)).subtract [[logistic Real.exp 1]]
          (scenarioBackPropagation ℝ 0).referenceOutput)
        ((denseEngine (logistic Real.exp)).sigmoidDerivative [[logistic Real.exp 1]])) ∧
      getDeltas (denseEngine (logistic Real.exp)) (scenarioBackPropagation ℝ 0)
        (scenarioNetwork ℝ) ([[1, 1]] :: [] ++ [[[logistic Real.exp 1]]]) = some deltas ∧
      deltas.length = (scenarioNetwork ℝ).length ∧
      deltas = List.zipWith
        ((denseEngine (logistic Real.exp)).formatOutputForLayer (scenarioNetwork ℝ))
        (scenarioNetwork ℝ) raw ∧
      ∀ (V : Type) (values : List (List ℝ) → V),
        (∀ layer m, values ((denseEngine (logistic Real.exp)).formatOutputForLayer
          (scenarioNetwork ℝ) layer m) = values m) →
        deltas.map values = raw.map values :=
  ⟨by simp [scenarioNetwork],
    getDeltas_refines_specification (denseEngine (logistic Real.exp))
      (scenarioBackPropagation ℝ 0) (scenarioNetwork ℝ) [[1, 1]] [[logistic Real.exp 1]] []
      (by simp [scenarioNetwork])⟩

end deltasWitness

/-! ## The cost derivative -/

section derivative

variable {K M L : Type} [LinearOrderedField K]

/-- The entries that the loop of `getCostDerivative` pushes for position `i`. -/
theorem partialDerivativeLoop_entries (E : Engine K M L) (lambda : K) (samples : ℕ) :
    ∀ (deltas activations : List M) (layers : List L) (i : ℕ) (delta activation : M)
      (layer : L), deltas[i]? = some delta → activations[i]? = some activation →
      layers[i]? = some layer →
      (partialDerivativeLoop E lambda samples deltas activations layers)[2 * i]? =
          some (weightDerivative E lambda samples delta activation layer) ∧
        (partialDerivativeLoop E lambda samples deltas activations layers)[2 * i + 1]? =
          some (biasDerivative E samples delta layer) := by
  intro deltas
  induction deltas with
  | nil => intro activations layers i delta activation layer h; simp at h
  | cons d ds ih =>
    intro activations layers i delta activation layer hd ha hl
    cases activations with
    | nil => simp at ha
    | cons a as =>
      cases layers with
      | nil => simp at hl
      | cons l ls =>
        cases i with
        | zero =>
          simp only [List.getElem?_cons_zero, Option.some.injEq] at hd ha hl
          subst hd ha hl
          rw [partialDerivativeLoop]
          exact ⟨rfl, by simp⟩
        | succ j =>
          simp only [List.getElem?_cons_succ] at hd ha hl
          obtain ⟨h1, h2⟩ := ih as ls j delta activation layer hd ha hl
          have e1 : 2 * (j + 1) = (2 * j + 1) + 1 := by ring
          rw [partialDerivativeLoop, e1]
          simp only [List.getElem?_cons_succ]
          exact ⟨h1, h2⟩

/-- The loop of `getCostDerivative` pushes two entries per delta when the activations and
the layers do not run out first. -/
theorem partialDerivativeLoop_length (E : Engine K M L) (lambda : K) (samples : ℕ) :
    ∀ (deltas activations : List M) (layers : List L), deltas.length ≤ activations.length →
      deltas.length ≤ layers.length →
      (partialDerivativeLoop E lambda samples deltas activations layers).length =
        2 * deltas.length := by
  intro deltas
  induction deltas with
  | nil => intro activations layers _ _; simp [partialDerivativeLoop]
  | cons d ds ih =>
    intro activations layers ha hl
    cases activations with
    | nil => simp at ha
    | cons a as =>
      cases layers with
      | nil => simp at hl
      | cons l ls =>
        rw [partialDerivativeLoop]
        simp only [List.length_cons] at ha hl ⊢
        rw [ih as ls (by omega) (by omega)]
        ring

/-- What `getCostDerivative` returns, in terms of the deltas of the stored batch. -/
theorem getCostDerivative_eq (E : Engine K M L) (bp : DenseBackPropagation K M)
    (network : List L) :
    ∃ deltas, getDeltas E bp network (getActivations E network bp.input) = some deltas ∧
      deltas.length = network.length ∧
      getCostDerivative E bp network =
        some (partialDerivativeLoop E bp.lambda (E.rows bp.input) deltas
          (getActivations E network bp.input) network) := by
  obtain ⟨deltas, hd, hlen⟩ := getDeltas_some E bp network (getActivations E network bp.input)
    (getActivations_length E network bp.input)
  refine ⟨deltas, hd, hlen, ?_⟩
  unfold getCostDerivative
  simp only [hd]

/-- C16 (amended): for every network with `L` layers, `getCostDerivative(network)` returns
`2L` matrices in layer order, and for each layer `i` the weight-gradient (entry `2i`) is
`λ·W_i` plus the transpose of `(1/m)·(δ_iᵀ ⊛ a_i)`, where `W_i` is the weights of layer `i`
without bias, `δ_i` and `a_i` the `i`-th delta and activation of the stored batch, `⊛` the
block-aware multiply and `m` the number of rows of the batch; the normalized product is
coalesced against `λ·W_i` when its block shape differs, before it is transposed.  Entry
`2i+1` is the bias-gradient, the transpose of the (coalesced) column sum of `δ_iᵀ` times
`1/m`. -/
theorem getCostDerivative_entries (E : Engine K M L) (bp : DenseBackPropagation K M)
    (network : List L) :
    ∃ deltas partialDerivative,
      getDeltas E bp network (getActivations E network bp.input) = some deltas ∧
      getCostDerivative E bp network = some partialDerivative ∧
      partialDerivative.length = 2 * network.length ∧
      ∀ (i : ℕ) (delta activation : M) (layer : L), deltas[i]? = some delta →
        (getActivations E network bp.input)[i]? = some activation →
        network[i]? = some layer →
        partialDerivative[2 * i]? =
          some (E.add (E.multiply (E.getWeightsWithoutBias layer) bp.lambda)
            (E.transpose (coalesceNeuronOutputs E
              (E.multiply
                (E.reverseConvolutionalMultiply (E.setRowSparse (E.transpose delta)) activation)
                (1 / (E.rows bp.input : K)))
              (E.multiply (E.getWeightsWithoutBias layer) bp.lambda)))) ∧
        partialDerivative[2 * i + 1]? =
          some (E.transpose (coalesceNeuronOutputs E
            (E.multiply (E.reduceSumAlongColumns (E.setRowSparse (E.transpose delta)))
              (1 / (E.rows bp.input : K)))
            (E.getBias layer))) := by
  obtain ⟨deltas, hd, hlen, hpd⟩ := getCostDerivative_eq E bp network
  refine ⟨deltas, _, hd, hpd, ?_, ?_⟩
  · rw [partialDerivativeLoop_length E bp.lambda (E.rows bp.input) deltas _ network
      (by rw [getActivations_length, hlen]; omega) (le_of_eq hlen), hlen]
  · intro i delta activation layer h1 h2 h3
    exact partialDerivativeLoop_entries E bp.lambda (E.rows bp.input) deltas _ network i delta
      activation layer h1 h2 h3

end derivative

/-- The derivative of the network of one square layer of zeros, for a sigmoid with
`sigmoid 0 = 1/2`, with the value that the product without its transpose would give. -/
theorem square_derivative {K : Type} [LinearOrderedField K] (sigmoid : K → K)
    (hsigmoid : sigmoid 0 = 1 / 2) :
    getActivations (denseEngine sigmoid) (squareNetwork K) (squareBackPropagation K).input =
        [[[1, 0]], [[1 / 2, 1 / 2]]] ∧
      getDeltas (denseEngine sigmoid) (squareBackPropagation K) (squareNetwork K)
        [[[1, 0]], [[1 / 2, 1 / 2]]] = some [[[-1 / 8, 1 / 8]]] ∧
      getCostDerivative (denseEngine sigmoid) (squareBackPropagation K) (squareNetwork K) =
        some [[[-1 / 8, 1 / 8], [0, 0]], [[-1 / 8, 1 / 8]]] ∧
      (denseEngine sigmoid).add ((denseEngine sigmoid).multiply [[0, 0], [0, 0]] 0)
        ((denseEngine sigmoid).multiply
          ((denseEngine sigmoid).reverseConvolutionalMultiply
            ((denseEngine sigmoid).transpose [[-1 / 8, 1 / 8]]) [[1, 0]])
          (1 / (((denseEngine sigmoid).rows [[1, 0]] : ℕ) : K))) =
        [[-1 / 8, 0], [1 / 8, 0]] := by
  refine ⟨?_, ?_, ?_, ?_⟩
  · simp [getActivations, squareNetwork, squareBackPropagation, denseEngine,
      DenseLayer.runInputs, unitOutputs, column, dot, hsigmoid]
  · simp [getDeltas, getDeltasLoop, outputDelta, squareNetwork, squareBackPropagation,
      denseEngine]
    norm_num
  · simp [getCostDerivative, getActivations, getDeltas, getDeltasLoop, outputDelta,
      partialDerivativeLoop, weightDerivative, biasDerivative, coalesceNeuronOutputs,
      squareNetwork, squareBackPropagation, denseEngine, DenseLayer.runInputs,
      DenseLayer.runReverse, unitOutputs, column, dot, transposeRows, hsigmoid]
    norm_num
  · simp [denseEngine, transposeRows, dot]

/-- C16 (as stated, refuted): for the network of one layer with two inputs, two outputs and
weights and biases all zero, the stored batch `[[1, 0]]`, the reference `[[1, 0]]` and
`λ = 0`, over the reals with the logistic sigmoid, the delta is `[[-1/8, 1/8]]`, the
activation `[[1, 0]]`, and the weight-gradient returned is `[[-1/8, 1/8], [0, 0]]`, while
`λ·W + (1/m)·(δᵀ ⊛ a)` is `[[-1/8, 0], [1/8, 0]]`, its transpose. -/
theorem weight_gradient_is_transposed :
    getDeltas (denseEngine (logistic Real.exp)) (squareBackPropagation ℝ) (squareNetwork ℝ)
        (getActivations (denseEngine (logistic Real.exp)) (squareNetwork ℝ)
          (squareBackPropagation ℝ).input) = some [[[-1 / 8, 1 / 8]]] ∧
      (getActivations (denseEngine (logistic Real.exp)) (squareNetwork ℝ)
        (squareBackPropagation ℝ).input)[0]? = some [[1, 0]] ∧
      getCostDerivative (denseEngine (logistic Real.exp)) (squareBackPropagation ℝ)
        (squareNetwork ℝ) = some [[[-1 / 8, 1 / 8], [0, 0]], [[-1 / 8, 1 / 8]]] ∧
      (denseEngine (logistic Real.exp)).add
        ((denseEngine (logistic Real.exp)).multiply [[0, 0], [0, 0]] 0)
        ((denseEngine (logistic Real.exp)).multiply
          ((denseEngine (logistic Real.exp)).reverseConvolutionalMultiply
            ((denseEngine (logistic Real.exp)).transpose [[-1 / 8, 1 / 8]]) [[1, 0]])
          (1 / (((denseEngine (logistic Real.exp)).rows [[1, 0]] : ℕ) : ℝ))) =
        [[-1 / 8, 0], [1 / 8, 0]] ∧
      ([[-1 / 8, 1 / 8], [0, 0]] : List (List ℝ)) ≠ [[-1 / 8, 0], [1 / 8, 0]] := by
  obtain ⟨hact, hdeltas, hpd, hclaim⟩ := square_derivative (logistic Real.exp) logistic_zero
  refine ⟨by rw [hact]; exact hdeltas, by rw [hact]; rfl, hpd, hclaim, ?_⟩
  intro h
  simp only [List.cons.injEq] at h
  norm_num at h

section regularization

variable {K M L : Type} [LinearOrderedField K]

end regularization

section denseLaws

variable {K : Type} [LinearOrderedField K]

/-- In the dense engine a scalar multiple has the block shape of any other. -/
theorem dense_multiply_shape (sigmoid : K → K) (w : List (List K)) (k k' : K) :
    (denseEngine sigmoid).columnsPerBlock ((denseEngine sigmoid).multiply w k) =
        (denseEngine sigmoid).columnsPerBlock ((denseEngine sigmoid).multiply w k') ∧
      (denseEngine sigmoid).blocks ((denseEngine sigmoid).multiply w k) =
        (denseEngine sigmoid).blocks ((denseEngine sigmoid).multiply w k') := by
  cases w <;> simp [denseEngine]

/-- The rows of the dense engine satisfy `k'·w + x = (k·w + x) + (k' − k)·w`. -/
theorem row_linear (k k' : K) : ∀ (w x : List K),
    List.zipWith (fun a b => a + b) (w.map fun a => a * k') x =
      List.zipWith (fun a b => a + b)
        (List.zipWith (fun a b => a + b) (w.map fun a => a * k) x)
        (w.map fun a => a * (k' - k)) := by
  intro w
  induction w with
  | nil => intro x; simp
  | cons a as ih =>
    intro x
    cases x with
    | nil => simp
    | cons b bs =>
      simp only [List.map_cons, List.zipWith_cons_cons, List.cons.injEq]
      exact ⟨by ring, ih bs⟩

/-- The dense engine satisfies `k'·W + X = (k·W + X) + (k' − k)·W`. -/
theorem dense_linear (sigmoid : K → K) (w x : List (List K)) (k k' : K) :
    (denseEngine sigmoid).add ((denseEngine sigmoid).multiply w k') x =
      (denseEngine sigmoid).add
        ((denseEngine sigmoid).add ((denseEngine sigmoid).multiply w k) x)
        ((denseEngine sigmoid).multiply w (k' - k)) := by
  show List.zipWith (List.zipWith fun a b => a + b) (w.map fun row => row.map fun a => a * k') x =
    List.zipWith (List.zipWith fun a b => a + b)
      (List.zipWith (List.zipWith fun a b => a + b) (w.map fun row => row.map fun a => a * k) x)
      (w.map fun row => row.map fun a => a * (k' - k))
  induction w generalizing x with
  | nil => simp
  | cons r rs ih =>
    cases x with
    | nil => simp
    | cons y ys =>
      simp only [List.map_cons, List.zipWith_cons_cons, List.cons.injEq]
      exact ⟨row_linear k k' r y, ih ys⟩

end denseLaws

/-! ## Gradient checking -/

section checking

variable {K M L : Type} [LinearOrderedField K]

/-- The distances, by index. -/
theorem mem_differences (E : Engine K M L) (layer : L) (layerInput layerOutput : M)
    (epsilon lambda : K) :
    ∀ (partialDerivatives : List K) (index : ℕ) (x : K),
      x ∈ differences E layer layerInput layerOutput epsilon lambda index partialDerivatives ↔
        ∃ j p, partialDerivatives[j]? = some p ∧
          x = |gradientEstimate E layer layerInput layerOutput epsilon lambda (index + j) - p| := by
  intro partialDerivatives
  induction partialDerivatives with
  | nil => intro index x; simp [differences]
  | cons q qs ih =>
    intro index x
    rw [differences, List.mem_cons, ih]
    constructor
    · rintro (h | ⟨j, p, hj, hx⟩)
      · exact ⟨0, q, by simp, h⟩
      · refine ⟨j + 1, p, by simpa using hj, ?_⟩
        rw [hx]
        congr 3
        omega
    · rintro ⟨j, p, hj, hx⟩
      cases j with
      | zero =>
        left
        simp only [List.getElem?_cons_zero, Option.some.injEq] at hj
        rw [hx, hj]
        rfl
      | succ i =>
        right
        refine ⟨i, p, by simpa using hj, ?_⟩
        rw [hx]
        congr 3
        omega

/-- The loop of `gradientChecking` runs to its end when every distance is at most
`epsilon`, and has then filled in the estimates. -/
theorem gradientCheckingLoop_some (E : Engine K M L) (layer : L) (layerInput layerOutput : M)
    (epsilon lambda : K) :
    ∀ (partialDerivatives : List K) (index : ℕ) (estimates : List K),
      (∀ x ∈ differences E layer layerInput layerOutput epsilon lambda index partialDerivatives,
        x ≤ epsilon) →
      gradientCheckingLoop E layer layerInput layerOutput epsilon lambda index
          partialDerivatives estimates =
        some (estimates ++
          estimatesFrom E layer layerInput layerOutput epsilon lambda index partialDerivatives) := by
  intro partialDerivatives
  induction partialDerivatives with
  | nil => intro index estimates _; simp [gradientCheckingLoop, estimatesFrom]
  | cons q qs ih =>
    intro index estimates h
    rw [gradientCheckingLoop]
    have hq := h _ (List.mem_cons_self _ _)
    rw [if_neg (not_lt.mpr hq), ih (index + 1) _ (fun x hx => h x (List.mem_cons_of_mem _ hx)),
      estimatesFrom]
    simp

/-- The loop of `gradientChecking` returns false as soon as a distance exceeds
`epsilon`. -/
theorem gradientCheckingLoop_none (E : Engine K M L) (layer : L) (layerInput layerOutput : M)
    (epsilon lambda : K) :
    ∀ (partialDerivatives : List K) (index : ℕ) (estimates : List K),
      (∃ x ∈ differences E layer layerInput layerOutput epsilon lambda index partialDerivatives,
        epsilon < x) →
      gradientCheckingLoop E layer layerInput layerOutput epsilon lambda index
          partialDerivatives estimates = none := by
  intro partialDerivatives
  induction partialDerivatives with
  | nil => intro index estimates h; simp [differences] at h
  | cons q qs ih =>
    intro index estimates h
    rw [gradientCheckingLoop]
    split_ifs with hgt
    · rfl
    · apply ih
      obtain ⟨x, hx, hlt⟩ := h
      rw [differences, List.mem_cons] at hx
      rcases hx with hx | hx
      · rw [hx] at hlt
        exact absurd hlt hgt
      · exact ⟨x, hx, hlt⟩

/-- The sum that `isInMargin` compares is the sum of the distances. -/
theorem margin_sum (E : Engine K M L) (layer : L) (layerInput layerOutput : M)
    (epsilon lambda : K) :
    ∀ (partialDerivatives : List K) (index : ℕ),
      ((List.zipWith (fun o r => o - r)
          (estimatesFrom E layer layerInput layerOutput epsilon lambda index partialDerivatives)
          partialDerivatives).map fun x => |x|).sum =
        (differences E layer layerInput layerOutput epsilon lambda index
          partialDerivatives).sum := by
  intro partialDerivatives
  induction partialDerivatives with
  | nil => intro index; simp [estimatesFrom, differences]
  | cons q qs ih =>
    intro index
    rw [estimatesFrom, differences, List.zipWith_cons_cons, List.map_cons, List.sum_cons,
      List.sum_cons, ih]

/-- The number of distances. -/
theorem differences_length (E : Engine K M L) (layer : L) (layerInput layerOutput : M)
    (epsilon lambda : K) :
    ∀ (partialDerivatives : List K) (index : ℕ),
      (differences E layer layerInput layerOutput epsilon lambda index
        partialDerivatives).length = partialDerivatives.length := by
  intro partialDerivatives
  induction partialDerivatives with
  | nil => intro index; rfl
  | cons q qs ih => intro index; rw [differences, List.length_cons, ih, List.length_cons]

/-- When `gradientChecking` returns true: every distance is at most `epsilon` and their
sum is less than `epsilon` times their number. -/
theorem gradientChecking_iff (E : Engine K M L) (partialDerivatives : M) (layer : L)
    (layerInput layerOutput : M) (epsilon lambda : K) :
    gradientChecking E partialDerivatives layer layerInput layerOutput epsilon lambda = true ↔
      (∀ x ∈ differences E layer layerInput layerOutput epsilon lambda 0
          (E.flatten partialDerivatives), x ≤ epsilon) ∧
        (differences E layer layerInput layerOutput epsilon lambda 0
          (E.flatten partialDerivatives)).sum <
          ((E.flatten partialDerivatives).length : K) * epsilon := by
  unfold gradientChecking
  simp only
  by_cases hall : ∀ x ∈ differences E layer layerInput layerOutput epsilon lambda 0
      (E.flatten partialDerivatives), x ≤ epsilon
  · rw [gradientCheckingLoop_some E layer layerInput layerOutput epsilon lambda _ 0 [] hall]
    simp only [List.nil_append, isInMargin, decide_eq_true_eq, margin_sum]
    exact ⟨fun h => ⟨hall, h⟩, fun h => h.2⟩
  · have hex : ∃ x ∈ differences E layer layerInput layerOutput epsilon lambda 0
        (E.flatten partialDerivatives), epsilon < x := by
      by_contra hno
      apply hall
      intro x hx
      by_contra hle
      exact hno ⟨x, hx, not_le.mp hle⟩
    rw [gradientCheckingLoop_none E layer layerInput layerOutput epsilon lambda _ 0 [] hex]
    simp only [Bool.false_eq_true, false_iff, not_and]
    intro h
    exact absurd h hall

/-- A sum of numbers that are all at most `c`, one of them less than `c`, is less than `c`
times their number. -/
theorem sum_lt_of_le_of_exists_lt (c : K) : ∀ (xs : List K), (∀ x ∈ xs, x ≤ c) →
    (∃ x ∈ xs, x < c) → xs.sum < (xs.length : K) * c := by
  have hle : ∀ (xs : List K), (∀ x ∈ xs, x ≤ c) → xs.sum ≤ (xs.length : K) * c := by
    intro xs
    induction xs with
    | nil => intro _; simp
    | cons y ys ih =>
      intro h
      have hy := h y (List.mem_cons_self _ _)
      have hys := ih (fun x hx => h x (List.mem_cons_of_mem _ hx))
      rw [List.sum_cons, List.length_cons]
      push_cast
      linarith
  intro xs
  induction xs with
  | nil => intro _ h; simp at h
  | cons y ys ih =>
    intro h hex
    have hy := h y (List.mem_cons_self _ _)
    have hall : ∀ x ∈ ys, x ≤ c := fun x hx => h x (List.mem_cons_of_mem _ hx)
    rw [List.sum_cons, List.length_cons]
    push_cast
    obtain ⟨x, hx, hlt⟩ := hex
    rw [List.mem_cons] at hx
    rcases hx with hx | hx
    · rw [hx] at hlt
      have := hle ys hall
      linarith
    · have := ih hall ⟨x, hx, hlt⟩
      linarith

/-- C19 (amended): if for every weight the centered finite-difference estimate differs from
the supplied analytic derivative by at most `ε`, and for at least one weight by less than
`ε`, then `gradientChecking` returns true (for every `λ`, and every `ε`). -/
theorem gradientChecking_true_of_agreement (E : Engine K M L) (partialDerivatives : M)
    (layer : L) (layerInput layerOutput : M) (epsilon lambda : K)
    (hall : ∀ j p, (E.flatten partialDerivatives)[j]? = some p →
      |gradientEstimate E layer layerInput layerOutput epsilon lambda j - p| ≤ epsilon)
    (hone : ∃ j p, (E.flatten partialDerivatives)[j]? = some p ∧
      |gradientEstimate E layer layerInput layerOutput epsilon lambda j - p| < epsilon) :
    gradientChecking E partialDerivatives layer layerInput layerOutput epsilon lambda = true := by
  rw [gradientChecking_iff]
  have hle : ∀ x ∈ differences E layer layerInput layerOutput epsilon lambda 0
      (E.flatten partialDerivatives), x ≤ epsilon := by
    intro x hx
    obtain ⟨j, p, hj, rfl⟩ := (mem_differences E layer layerInput layerOutput epsilon lambda
      _ 0 x).mp hx
    rw [Nat.zero_add]
    exact hall j p hj
  refine ⟨hle, ?_⟩
  rw [← differences_length E layer layerInput layerOutput epsilon lambda
    (E.flatten partialDerivatives) 0]
  apply sum_lt_of_le_of_exists_lt epsilon _ hle
  obtain ⟨j, p, hj, hlt⟩ := hone
  refine ⟨_, (mem_differences E layer layerInput layerOutput epsilon lambda _ 0 _).mpr
    ⟨j, p, hj, rfl⟩, ?_⟩
  rw [Nat.zero_add]
  exact hlt

/-- C20 (amended): if `gradientChecking` returns true on an analytic gradient, then after
the sign of one entry of magnitude greater than `ε` is flipped it returns false. -/
theorem gradientChecking_false_after_flip (E : Engine K M L)
    (partialDerivatives flipped : M) (layer : L) (layerInput layerOutput : M)
    (epsilon lambda : K) (k : ℕ) (p : K)
    (htrue : gradientChecking E partialDerivatives layer layerInput layerOutput epsilon lambda
      = true)
    (hentry : (E.flatten partialDerivatives)[k]? = some p)
    (hflip : E.flatten flipped = (E.flatten partialDerivatives).set k (-p))
    (hlarge : epsilon < |p|) :
    gradientChecking E flipped layer layerInput layerOutput epsilon lambda = false := by
  have hle := ((gradientChecking_iff E partialDerivatives layer layerInput layerOutput epsilon
    lambda).mp htrue).1
  have hk : |gradientEstimate E layer layerInput layerOutput epsilon lambda k - p| ≤ epsilon := by
    have := hle _ ((mem_differences E layer layerInput layerOutput epsilon lambda _ 0 _).mpr
      ⟨k, p, hentry, rfl⟩)
    rwa [Nat.zero_add] at this
  have hflipped : (E.flatten flipped)[k]? = some (-p) := by
    rw [hflip]
    have hlt : k < (E.flatten partialDerivatives).length :=
      (List.getElem?_eq_some_iff.mp hentry).1
    rw [List.getElem?_set_self hlt]
  have hfar : epsilon <
      |gradientEstimate E layer layerInput layerOutput epsilon lambda k - -p| := by
    have htri : |2 * p| ≤
        |gradientEstimate E layer layerInput layerOutput epsilon lambda k - -p| +
          |gradientEstimate E layer layerInput layerOutput epsilon lambda k - p| := by
      have hsplit : 2 * p =
          (gradientEstimate E layer layerInput layerOutput epsilon lambda k - -p) -
            (gradientEstimate E layer layerInput layerOutput epsilon lambda k - p) := by ring
      rw [hsplit]
      exact abs_sub _ _
    have h2 : |2 * p| = 2 * |p| := by
      rw [abs_mul, abs_of_pos (by norm_num : (0 : K) < 2)]
    rw [h2] at htri
    linarith
  cases hcheck : gradientChecking E flipped layer layerInput layerOutput epsilon lambda with
  | false => rfl
  | true =>
    have hle2 := ((gradientChecking_iff E flipped layer layerInput layerOutput epsilon
      lambda).mp hcheck).1
    have := hle2 _ ((mem_differences E layer layerInput layerOutput epsilon lambda _ 0 _).mpr
      ⟨k, -p, hflipped, rfl⟩)
    rw [Nat.zero_add] at this
    exact absurd this (not_le.mpr hfar)

end checking

section singleWeight

variable {K : Type} [LinearOrderedField K]

/-- For the layer with the single weight `w`, the input `[[0]]` and `ε = 1`, the
finite-difference estimate is `λ·w`, whatever the sigmoid: the input being zero, only the
regularization term depends on the weight. -/
theorem single_weight_estimate (sigmoid : K → K) (w y lambda : K) :
    gradientEstimate (denseEngine sigmoid) (singleWeightLayer K w) [[0]] [[y]] 1 lambda 0 =
      lambda * w := by
  simp [gradientEstimate, computeCostForLayer, denseEngine, singleWeightLayer,
    DenseLayer.runInputs, unitOutputs, column, dot, addAtFlat, addAt]
  ring

/-- The value of `gradientChecking` for the layer with the single weight `w`, the input
`[[0]]`, `ε = 1` and the analytic derivative `[[p]]`. -/
theorem single_weight_check (sigmoid : K → K) (w y lambda p : K) :
    gradientChecking (denseEngine sigmoid) [[p]] (singleWeightLayer K w) [[0]] [[y]] 1 lambda =
      (decide (|lambda * w - p| ≤ 1) && decide (|lambda * w - p| < 1)) := by
  have hflat : (denseEngine sigmoid).flatten [[p]] = [p] := by simp [denseEngine]
  unfold gradientChecking
  simp only [hflat, gradientCheckingLoop, single_weight_estimate]
  split_ifs with h
  · have h1 : ¬ |lambda * w - p| ≤ 1 := not_le.mpr h
    simp [h1]
  · have h1 : |lambda * w - p| ≤ 1 := not_lt.mp h
    simp [h1, isInMargin]

end singleWeight

/-- C19 (as stated, refuted): for the layer with the single weight `3`, the input `[[0]]`,
the reference `[[1]]`, `ε = 1` and `λ = 0`, over the reals with the logistic sigmoid, the
estimate for the weight is `0`; with the analytic derivative `[[1]]` the estimate differs
from it by exactly `ε` for every weight, and `gradientChecking` returns false. -/
theorem gradientChecking_false_on_the_margin :
    (0 : ℝ) < 1 ∧
    (∀ j p, ((denseEngine (logistic Real.exp)).flatten [[1]])[j]? = some p →
      |gradientEstimate (denseEngine (logistic Real.exp)) (singleWeightLayer ℝ 3) [[0]] [[1]]
        1 0 j - p| ≤ 1) ∧
    gradientChecking (denseEngine (logistic Real.exp)) [[1]] (singleWeightLayer ℝ 3) [[0]] [[1]]
      1 0 = false := by
  refine ⟨by norm_num, ?_, ?_⟩
  · intro j p h
    have hflat : (denseEngine (logistic Real.exp)).flatten [[(1 : ℝ)]] = [1] := by
      simp [denseEngine]
    rw [hflat] at h
    cases j with
    | zero =>
      simp only [List.getElem?_cons_zero, Option.some.injEq] at h
      rw [single_weight_estimate, ← h]
      norm_num
    | succ i => simp at h
  · rw [single_weight_check]
    norm_num

/-- Witness of the amended C19: the same layer with the analytic derivative `[[1/2]]`. -/
theorem gradientChecking_true_of_agreement_witness :
    (∀ j p, ((denseEngine (logistic Real.exp)).flatten [[1 / 2]])[j]? = some p →
      |gradientEstimate (denseEngine (logistic Real.exp)) (singleWeightLayer ℝ 3) [[0]] [[1]]
        1 0 j - p| ≤ 1) ∧
    (∃ j p, ((denseEngine (logistic Real.exp)).flatten [[1 / 2]])[j]? = some p ∧
      |gradientEstimate (denseEngine (logistic Real.exp)) (singleWeightLayer ℝ 3) [[0]] [[1]]
        1 0 j - p| < 1) ∧
    gradientChecking (denseEngine (logistic Real.exp)) [[1 / 2]] (singleWeightLayer ℝ 3) [[0]]
      [[1]] 1 0 = true := by
  have hflat : (denseEngine (logistic Real.exp)).flatten [[(1 / 2 : ℝ)]] = [1 / 2] := by
    simp [denseEngine]
  have hall : ∀ j p, ((denseEngine (logistic Real.exp)).flatten [[1 / 2]])[j]? = some p →
      |gradientEstimate (denseEngine (logistic Real.exp)) (singleWeightLayer ℝ 3) [[0]] [[1]]
        1 0 j - p| ≤ 1 := by
    intro j p h
    rw [hflat] at h
    cases j with
    | zero =>
      simp only [List.getElem?_cons_zero, Option.some.injEq] at h
      rw [single_weight_estimate, ← h]
      norm_num [abs_le]
    | succ i => simp at h
  have hone : ∃ j p, ((denseEngine (logistic Real.exp)).flatten [[1 / 2]])[j]? = some p ∧
      |gradientEstimate (denseEngine (logistic Real.exp)) (singleWeightLayer ℝ 3) [[0]] [[1]]
        1 0 j - p| < 1 := by
    refine ⟨0, 1 / 2, by rw [hflat]; rfl, ?_⟩
    rw [single_weight_estimate]
    norm_num [abs_lt]
  exact ⟨hall, hone,
    gradientChecking_true_of_agreement (denseEngine (logistic Real.exp)) [[1 / 2]]
      (singleWeightLayer ℝ 3) [[0]] [[1]] 1 0 hall hone⟩

/-- C20 (as stated, refuted): for the layer with the single weight `3`, the input `[[0]]`,
the reference `[[1]]`, `ε = 1` and `λ = 0`, over the reals with the logistic sigmoid,
`gradientChecking` returns true on the analytic gradient `[[1/4]]`, and returns true again
after the sign of its entry is flipped. -/
theorem gradientChecking_true_after_flip :
    (0 : ℝ) < 1 ∧
    gradientChecking (denseEngine (logistic Real.exp)) [[1 / 4]] (singleWeightLayer ℝ 3) [[0]]
      [[1]] 1 0 = true ∧
    (denseEngine (logistic Real.exp)).flatten [[-(1 / 4)]] =
      ((denseEngine (logistic Real.exp)).flatten [[1 / 4]]).set 0 (-(1 / 4)) ∧
    gradientChecking (denseEngine (logistic Real.exp)) [[-(1 / 4)]] (singleWeightLayer ℝ 3)
      [[0]] [[1]] 1 0 = true := by
  refine ⟨by norm_num, ?_, by simp [denseEngine], ?_⟩
  · rw [single_weight_check]
    norm_num [abs_le, abs_lt]
  · rw [single_weight_check]
    norm_num [abs_le, abs_lt]

/-- Witness of the amended C20: the layer with the single weight `3`, `λ = 1`, `ε = 1`, and
the analytic gradient `[[3]]`, whose entry has magnitude `3 > ε`. -/
theorem gradientChecking_false_after_flip_witness :
    gradientChecking (denseEngine (logistic Real.exp)) [[3]] (singleWeightLayer ℝ 3) [[0]] [[1]]
      1 1 = true ∧
    ((denseEngine (logistic Real.exp)).flatten [[3]])[0]? = some 3 ∧
    (denseEngine (logistic Real.exp)).flatten [[-3]] =
      ((denseEngine (logistic Real.exp)).flatten [[3]]).set 0 (-3) ∧
    (1 : ℝ) < |3| ∧
    gradientChecking (denseEngine (logistic Real.exp)) [[-3]] (singleWeightLayer ℝ 3) [[0]]
      [[1]] 1 1 = false := by
  have htrue : gradientChecking (denseEngine (logistic Real.exp)) [[3]] (singleWeightLayer ℝ 3)
      [[0]] [[1]] 1 1 = true := by
    rw [single_weight_check]
    norm_num
  have hentry : ((denseEngine (logistic Real.exp)).flatten [[(3 : ℝ)]])[0]? = some 3 := by
    simp [denseEngine]
  have hflip : (denseEngine (logistic Real.exp)).flatten [[(-3 : ℝ)]] =
      ((denseEngine (logistic Real.exp)).flatten [[3]]).set 0 (-3) := by
    simp [denseEngine]
  have hlarge : (1 : ℝ) < |3| := by norm_num
  exact ⟨htrue, hentry, hflip, hlarge,
    gradientChecking_false_after_flip (denseEngine (logistic Real.exp)) [[3]] [[-3]]
      (singleWeightLayer ℝ 3) [[0]] [[1]] 1 1 0 3 htrue hentry hflip hlarge⟩

/-! ## The matrix handed to gradient checking -/

section checkedMatrix

variable {K : Type} [LinearOrderedField K]

/-- The gradients of the network of one layer with the single weight `3`, for the batch
`[[0]]`, the reference `[[-15/2]]` and a sigmoid with `sigmoid 0 = 1/2`: the weight-gradient
is `[[0]]`, the bias-gradient `[[2]]`. -/
theorem checking_derivative (sigmoid : K → K) (hsigmoid : sigmoid 0 = 1 / 2) :
    getActivations (denseEngine sigmoid) [singleWeightLayer K 3]
        (checkingBackPropagation K).input = [[[0]], [[1 / 2]]] ∧
      getCostDerivative (denseEngine sigmoid) (checkingBackPropagation K)
        [singleWeightLayer K 3] = some [[[0]], [[2]]] := by
  refine ⟨?_, ?_⟩
  · simp [getActivations, singleWeightLayer, checkingBackPropagation, denseEngine,
      DenseLayer.runInputs, unitOutputs, column, dot, hsigmoid]
  · simp [getCostDerivative, getActivations, getDeltas, getDeltasLoop, outputDelta,
      partialDerivativeLoop, weightDerivative, biasDerivative, coalesceNeuronOutputs,
      singleWeightLayer, checkingBackPropagation, denseEngine, DenseLayer.runInputs,
      DenseLayer.runReverse, unitOutputs, column, dot, transposeRows, hsigmoid]
    norm_num

/-- The local `isInRange` for that network: `gradientChecking` on the last entry of the
list of gradients. -/
theorem checking_isInRange (sigmoid : K → K) (hsigmoid : sigmoid 0 = 1 / 2) :
    getCostDerivativeIsInRange (denseEngine sigmoid) (checkingBackPropagation K)
        [singleWeightLayer K 3] =
      some (gradientChecking (denseEngine sigmoid) [[2]] (singleWeightLayer K 3) [[0]]
        [[-15 / 2]] 1 0) := by
  obtain ⟨hact, hpd⟩ := checking_derivative sigmoid hsigmoid
  unfold getCostDerivativeIsInRange
  simp only [hpd]
  have hin : (checkingBackPropagation K).input = [[0]] := rfl
  rw [hin] at hact
  simp [checkingBackPropagation, hact]

end checkedMatrix

/-- C21 (defect of the code): for the network of one layer with the single weight `3`, the
stored batch `[[0]]`, the reference `[[-15/2]]`, `λ = 0`, gradient checking enabled with
`ε = 1`, over the reals with the logistic sigmoid, `getCostDerivative` returns the
weight-gradient `[[0]]` (entry `2L-2`) and the bias-gradient `[[2]]` (entry `2L-1`); the
finite-difference estimate for the weight is `0`, the weight-gradient exactly;
`gradientChecking` on the weight-gradient is true, and the local `isInRange` is false: the
matrix handed to `gradientChecking` is `partialDerivative.back()`, the bias-gradient. -/
theorem gradient_checking_receives_bias_gradient :
    getCostDerivative (denseEngine (logistic Real.exp)) (checkingBackPropagation ℝ)
        [singleWeightLayer ℝ 3] = some [[[0]], [[2]]] ∧
      gradientEstimate (denseEngine (logistic Real.exp)) (singleWeightLayer ℝ 3) [[0]]
        [[-15 / 2]] 1 0 0 = 0 ∧
      gradientChecking (denseEngine (logistic Real.exp)) [[0]] (singleWeightLayer ℝ 3) [[0]]
        [[-15 / 2]] 1 0 = true ∧
      gradientChecking (denseEngine (logistic Real.exp)) [[2]] (singleWeightLayer ℝ 3) [[0]]
        [[-15 / 2]] 1 0 = false ∧
      getCostDerivativeIsInRange (denseEngine (logistic Real.exp)) (checkingBackPropagation ℝ)
        [singleWeightLayer ℝ 3] = some false := by
  have hfalse : gradientChecking (denseEngine (logistic Real.exp)) [[2]]
      (singleWeightLayer ℝ 3) [[0]] [[-15 / 2]] 1 0 = false := by
    rw [single_weight_check]
    norm_num
  refine ⟨(checking_derivative (logistic Real.exp) logistic_zero).2, ?_, ?_, hfalse, ?_⟩
  · rw [single_weight_estimate]
    norm_num
  · rw [single_weight_check]
    norm_num
  · rw [checking_isInRange (logistic Real.exp) logistic_zero, hfalse]

/-! ## The three-argument methods -/

section wrappers

variable {K M L : Type} [LinearOrderedField K]

/-- C37: the three-argument `getCostDerivative(network, input, reference)` returns the same
gradients for any two choices of `input` and `reference`, namely those of
`getCostDerivative(network)`, which are computed from the batch and the reference stored
in the object; the three-argument `getInputDerivative(network, input, reference)` returns
the same matrix for any two choices of `reference`, that of the two-argument method, whose
delta starts from the stored reference. -/
theorem three_argument_derivatives_ignore_arguments (E : Engine K M L)
    (bp : DenseBackPropagation K M) (network : List L) (input input' reference reference' : M) :
    getCostDerivativeFor E bp network input reference =
      getCostDerivativeFor E bp network input' reference' ∧
    getCostDerivativeFor E bp network input reference = getCostDerivative E bp network ∧
    getCostDerivative E bp network =
      (getDeltas E bp network (getActivations E network bp.input)).map
        (fun deltas => partialDerivativeLoop E bp.lambda (E.rows bp.input) deltas
          (getActivations E network bp.input) network) ∧
    getInputDerivativeFor E bp network input reference =
      getInputDerivativeFor E bp network input reference' ∧
    getInputDerivativeFor E bp network input reference =
      getInputDerivative E bp network input ∧
    getInputDerivative E bp network input =
      (getInputDelta E bp network (getActivations E network input)).map
        (fun delta => E.multiply delta (1 / (E.rows input : K))) := by
  refine ⟨rfl, rfl, ?_, rfl, rfl, ?_⟩
  · unfold getCostDerivative
    simp only
    cases getDeltas E bp network (getActivations E network bp.input) <;> rfl
  · unfold getInputDerivative
    simp only
    cases getInputDelta E bp network (getActivations E network input) <;> rfl

end wrappers

end neuralnetwork

end minerva
